import Mathlib

/-!
# dc execution core (`bcode.c`, GMP port)

A shallow embedding of `src/dcGMP/bcode.c` and `src/dcGMP/mem.c`.

* GMP integers (`mpz_t`) are `Int`; `mpz_tdiv_q` / `mpz_tdiv_r` are `Int.tdiv` / `Int.tmod`.
  Allocation is taken to succeed and `mpz_clear` is not part of the embedding. An
  `mpz_t` that the source never initialises is `none : Option Int`, and `mpz_set`
  into it has no result.
* `u_int` values are `Nat` below `2^32`; every `u_int` addition, subtraction and
  multiplication of the source is written with an explicit reduction modulo `2^32`.
* The conversion of a `u_int` to the `int` argument of `scale_number` is the
  two's-complement reinterpretation (`to_int`).
* `uint64_t` and `u_long` values are `Nat` below `2^64`; `size_t` to `int` is `to_int`.
* A function that can end the process or leave the defined behaviour of C
  returns `Option`, and `none` is "no result". There are three such places: a
  GMP division by zero (an arithmetic exception); `scale_number` called with
  `s = INT_MIN` (the negation overflows and GMP aborts on the power); and
  `mpz_set` into an `mpz_t` that was never initialised.
* Loops are functions of a fuel argument. The loops of `bexp` halve their
  counter, so their fuel comes from the counter; the loop of `bsqrt` takes its
  fuel from the caller and returns `none` when it is used up.
* The evaluation stack is a list whose head is the top of the stack; so is each
  register stack.
* Output (`stdout`, `stderr`, warnings) is not part of the machine state: the
  printing opcodes are modelled by their effect on the stack alone.
* Definitions named `spec_...` restate a rule of the specification on plain
  lists of bytes; the theorems compare them with the functions of the source.
-/

set_option linter.dupNamespace false

namespace Bcode

/-! ## Machine integers -/

/-- The constant `UINT_MAX` of `limits.h` (32-bit `unsigned int`). -/
def UINT_MAX : Nat := 4294967295

/-- The constant `GMP_NUMB_MASK` of `gmp.h` for 64-bit limbs without nails. -/
def GMP_NUMB_MASK : Nat := 18446744073709551615

/-- Sum of two `u_int` values. -/
def uadd (a b : Nat) : Nat := (a + b) % 4294967296

/-- Difference of two `u_int` values. -/
def usub (a b : Nat) : Nat := (a + 4294967296 - b % 4294967296) % 4294967296

/-- Product of two `u_int` values. -/
def umul (a b : Nat) : Nat := (a * b) % 4294967296

/-- Conversion of a `u_int` value to `int`, as happens when `normalize` passes
`s - n->scale` to the `int s` parameter of `scale_number`. -/
def to_int (x : Nat) : Int :=
  if x % 4294967296 < 2147483648 then ((x % 4294967296 : Nat) : Int)
  else ((x % 4294967296 : Nat) : Int) - 4294967296

/-- The function `max` of `bcode.c`: `a > b ? a : b`. -/
def max (a b : Nat) : Nat := if a > b then a else b

/-! ## Data model -/

/-- The `struct number`: a GMP integer and a decimal scale. -/
structure number where
  number : Int
  scale : Nat
  deriving DecidableEq

/-- The `struct value` with its `type` discriminant; strings are byte lists. -/
inductive value where
  | BCODE_NONE : value
  | BCODE_NUMBER (num : number) : value
  | BCODE_STRING (string : List Nat) : value
  deriving DecidableEq

/-- Modelled from the spec: a source frame (`struct source` of `inout.c`, not
among the sources). It is a sequence of bytes with a read position and the
field `lastchar`, the last result of `read_char` (`-1` for EOF). -/
structure source where
  buf : List Nat
  pos : Nat
  lastchar : Int
  deriving DecidableEq

/-- Modelled from the spec: one entry of a register stack (`stack.c` is not
among the sources): a Value and the frame attached to it, the mapping from
array indices to Values, with `BCODE_NONE` where nothing was assigned. -/
structure slot where
  val : value
  array : List value
  deriving DecidableEq

/-- The `struct bmachine`. The main stack holds Values (frames are only used on
register stacks); `reg` lists the register stacks from index zero, and the
registers beyond the end of the list, up to `reg_array_size`, are empty;
`readstack` has `readstack_sz` source frames, the active one at index `readsp`.
The field `stdin` holds the bytes of the standard input that `?` has not read
yet. -/
structure bmachine where
  stack : List value
  scale : Nat
  obase : Nat
  ibase : Nat
  readsp : Nat
  extended_regs : Bool
  reg_array_size : Nat
  reg : List (List slot)
  interrupted : Bool
  readstack : List source
  readstack_sz : Nat
  stdin : List Nat
  deriving DecidableEq

/-- The function `new_number` of `mem.c`: zero with scale zero. -/
def new_number : number := { number := 0, scale := 0 }

/-- The function `dup_number` of `mem.c`. -/
def dup_number (a : number) : number := { number := a.number, scale := a.scale }

/-! ## GMP primitives used by the source -/

/-- The GMP function `mpz_sizeinbase(x, 2)`, counting on a fuel argument: the
number of bits of `x`, and zero for `x = 0` (the caller `sizeinbase2` adds the
GMP convention for zero). -/
def bit_count : Nat → Nat → Nat
  | 0, _ => 0
  | fuel + 1, x => if x = 0 then 0 else bit_count fuel (x / 2) + 1

/-- The GMP function `mpz_sizeinbase(x, 2)`: the number of bits of `|x|`; the GMP
manual fixes the result `1` for `x = 0`. -/
def sizeinbase2 (x : Int) : Nat :=
  if x = 0 then 1 else bit_count x.natAbs x.natAbs

/-- The GMP function `mpz_get_ui`: the least significant limb of `|x|`. -/
def mpz_get_ui (x : Int) : Nat := x.natAbs % 18446744073709551616

/-- The GMP function `mpz_tstbit(x, 0)` for a non-negative `x`. -/
def tstbit0 (p : Nat) : Bool := p % 2 = 1

/-! ## Number primitives -/

/-- The table `factors` of `bcode.c`; entry zero is never read. -/
def factors : List Nat :=
  [0, 10, 100, 1000, 10000, 100000, 1000000, 10000000, 100000000, 1000000000]

/-- The function `scale_number`. The argument `s` is the C `int`. For
`s = INT_MIN` the negation `-s` overflows the `int`: `abs_scale` stays negative,
the comparison with `nitems(factors)` (a `size_t`) fails, and `mpz_ui_pow_ui` is
handed the exponent `2^64 - 2^31`, on which GMP aborts. There is no result. -/
def scale_number (n : Int) (s : Int) : Option Int :=
  if s = 0 then some n
  else if s = -2147483648 then none
  else
    let abs_scale : Int := if s > 0 then s else -s
    if abs_scale < 10 then
      if s > 0 then some (n * ((factors.getD abs_scale.toNat 0 : Nat) : Int))
      else some (n.tdiv ((factors.getD abs_scale.toNat 0 : Nat) : Int))
    else
      let a : Int := 10 ^ abs_scale.toNat
      if s > 0 then some (n * a) else some (n.tdiv a)

/-- The function `split_number`: integer part `i` and fractional part `f`. On
the table path `f` is the return value of `mpz_tdiv_q_ui` (the absolute value
of the remainder); on the computed-power path it is the remainder of
`mpz_tdiv_qr`. -/
def split_number (n : number) : Int × Int :=
  if n.scale = 0 then (n.number, 0)
  else if n.scale < 10 then
    (n.number.tdiv ((factors.getD n.scale 0 : Nat) : Int),
      ((n.number.tmod ((factors.getD n.scale 0 : Nat) : Int)).natAbs : Int))
  else
    (n.number.tdiv (10 ^ n.scale), n.number.tmod (10 ^ n.scale))

/-- The function `normalize`; it has no result when `scale_number` has none. -/
def normalize (n : number) (s : Nat) : Option number :=
  (scale_number n.number (to_int (usub s n.scale))).map
    (fun x => { number := x, scale := s })

/-- The function `negate`. -/
def negate (n : number) : number := { n with number := -n.number }

/-! ## Stack access -/

/-- Modelled from the spec: `stack_popnumber` of `stack.c` (not among the
sources). It removes and returns the top of the stack when that is a Number,
and reports failure, leaving the stack as it is, otherwise. -/
def pop_number (m : bmachine) : Option (number × bmachine) :=
  match m.stack with
  | value.BCODE_NUMBER n :: rest => some (n, { m with stack := rest })
  | _ => none

/-- Modelled from the spec: `stack_pushnumber` of `stack.c` (not among the
sources). It puts a Number on top of the stack. -/
def push_number (m : bmachine) (n : number) : bmachine :=
  { m with stack := value.BCODE_NUMBER n :: m.stack }

/-- The GMP functions `mpz_tdiv_q` with a divisor that may be zero: GMP raises a
division-by-zero exception, which ends the process, so there is no result. -/
def mpz_tdiv_q (n d : Int) : Option Int := if d = 0 then none else some (n.tdiv d)

/-- The GMP function `mpz_tdiv_r`, with the same convention for a zero divisor. -/
def mpz_tdiv_r (n d : Int) : Option Int := if d = 0 then none else some (n.tmod d)

/-- The GMP function `mpz_cmp`: the sign of `a - b`. -/
def mpz_cmp (a b : Int) : Int := if a < b then -1 else if a = b then 0 else 1

/-! ## Arithmetic opcodes

Each opcode `f : bmachine → Option bmachine` follows the source handler: pop
`a`, pop `b`, compute, push. The result `none` stands for the process ending
inside GMP (a division by zero, or the abort of `scale_number` on `INT_MIN`).
The function `f_number` is the arithmetic of the handler between the pops and
the push. -/

/-- The arithmetic of `badd` once both operands are popped (`a` first). -/
def badd_number (a b : number) : Option number :=
  if b.scale > a.scale then
    (normalize a b.scale).map
      (fun a1 => { number := a1.number + b.number, scale := b.scale })
  else if a.scale > b.scale then
    (normalize b a.scale).map
      (fun b1 => { number := a.number + b1.number, scale := a.scale })
  else some { number := a.number + b.number, scale := b.scale }

/-- The opcode `+`. -/
def badd (m : bmachine) : Option bmachine :=
  match pop_number m with
  | none => some m
  | some (a, m1) =>
    match pop_number m1 with
    | none => some (push_number m1 a)
    | some (b, m2) => (badd_number a b).map (fun r => push_number m2 r)

/-- The arithmetic of `bsub` once both operands are popped (`a` first). -/
def bsub_number (a b : number) : Option number :=
  if b.scale > a.scale then
    (normalize a b.scale).map
      (fun a1 => { number := b.number - a1.number, scale := b.scale })
  else if a.scale > b.scale then
    (normalize b a.scale).map
      (fun b1 => { number := b1.number - a.number, scale := a.scale })
  else some { number := b.number - a.number, scale := b.scale }

/-- The opcode `-`. -/
def bsub (m : bmachine) : Option bmachine :=
  match pop_number m with
  | none => some m
  | some (a, m1) =>
    match pop_number m1 with
    | none => some (push_number m1 a)
    | some (b, m2) => (bsub_number a b).map (fun r => push_number m2 r)

/-- The function `bmul_number`; `mscale` is the global `bmachine.scale` read by
the guard, `scale` the parameter used as normalization target. -/
def bmul_number (mscale : Nat) (a b : number) (scale : Nat) : Option number :=
  let ascale := a.scale
  let bscale := b.scale
  let rscale := uadd ascale bscale
  let r : number := { number := a.number * b.number, scale := rscale }
  if rscale > mscale ∧ rscale > ascale ∧ rscale > bscale then
    normalize r (max scale (max ascale bscale))
  else some r

/-- The opcode `*`. -/
def bmul (m : bmachine) : Option bmachine :=
  match pop_number m with
  | none => some m
  | some (a, m1) =>
    match pop_number m1 with
    | none => some (push_number m1 a)
    | some (b, m2) =>
      (bmul_number m.scale a b m.scale).map (fun r => push_number m2 r)

/-- The arithmetic of `bdiv` once both operands are popped (`a` first). -/
def bdiv_number (mscale : Nat) (a b : number) : Option number :=
  let scale := max a.scale b.scale
  if a.number = 0 then some { number := 0, scale := mscale }
  else
    (normalize a scale).bind (fun a1 =>
      (normalize b (uadd scale mscale)).bind (fun b1 =>
        (mpz_tdiv_q b1.number a1.number).map (fun q => { number := q, scale := mscale })))

/-- The opcode `/`. -/
def bdiv (m : bmachine) : Option bmachine :=
  match pop_number m with
  | none => some m
  | some (a, m1) =>
    match pop_number m1 with
    | none => some (push_number m1 a)
    | some (b, m2) => (bdiv_number m.scale a b).map (fun r => push_number m2 r)

/-- The arithmetic of `bmod` once both operands are popped (`a` first). -/
def bmod_number (mscale : Nat) (a b : number) : Option number :=
  let scale := max a.scale b.scale
  let rscale := max b.scale (uadd a.scale mscale)
  if a.number = 0 then some { number := 0, scale := rscale }
  else
    (normalize a scale).bind (fun a1 =>
      (normalize b (uadd scale mscale)).bind (fun b1 =>
        (mpz_tdiv_r b1.number a1.number).map (fun r => { number := r, scale := rscale })))

/-- The opcode `%`. -/
def bmod (m : bmachine) : Option bmachine :=
  match pop_number m with
  | none => some m
  | some (a, m1) =>
    match pop_number m1 with
    | none => some (push_number m1 a)
    | some (b, m2) => (bmod_number m.scale a b).map (fun r => push_number m2 r)

/-- The arithmetic of `bdivmod` once both operands are popped (`a` first): the
pair `(rdiv, rmod)` filled by one `mpz_tdiv_qr`. -/
def bdivmod_number (mscale : Nat) (a b : number) : Option (number × number) :=
  let rdivscale := mscale
  let rmodscale := max b.scale (uadd a.scale mscale)
  let scale := max a.scale b.scale
  if a.number = 0 then
    some ({ number := 0, scale := rdivscale }, { number := 0, scale := rmodscale })
  else
    (normalize a scale).bind (fun a1 =>
      (normalize b (uadd scale mscale)).bind (fun b1 =>
        if a1.number = 0 then none
        else some ({ number := b1.number.tdiv a1.number, scale := rdivscale },
                   { number := b1.number.tmod a1.number, scale := rmodscale })))

/-- The opcode `~`: `rdiv` is pushed first, `rmod` second. -/
def bdivmod (m : bmachine) : Option bmachine :=
  match pop_number m with
  | none => some m
  | some (a, m1) =>
    match pop_number m1 with
    | none => some (push_number m1 a)
    | some (b, m2) =>
      (bdivmod_number m.scale a b).map
        (fun qr => push_number (push_number m2 qr.1) qr.2)

/-- The first loop of `bexp`: square while the lowest bit of `p` is clear. The
state is `(a, ascale, p)`; `k` is `bmachine.scale`. -/
def bexp_loop1 : Nat → Nat → number → Nat → Nat → Option (number × Nat × Nat)
  | 0, _, a, ascale, p => some (a, ascale, p)
  | fuel + 1, k, a, ascale, p =>
    if tstbit0 p then some (a, ascale, p)
    else
      let ascale1 := umul ascale 2
      (bmul_number k a a ascale1).bind (fun a1 => bexp_loop1 fuel k a1 ascale1 (p / 2))

/-- The second loop of `bexp`: square, and multiply into `r` on a set bit. -/
def bexp_loop2 : Nat → Nat → number → number → Nat → Nat → Nat → Option number
  | 0, _, _, r, _, _, _ => some r
  | fuel + 1, k, a, r, ascale, mscale, p =>
    if p = 0 then some r
    else
      let ascale1 := umul ascale 2
      (bmul_number k a a ascale1).bind (fun a1 =>
        if tstbit0 p then
          let mscale1 := uadd mscale ascale1
          (bmul_number k r a1 mscale1).bind (fun r1 =>
            bexp_loop2 fuel k a1 r1 ascale1 mscale1 (p / 2))
        else bexp_loop2 fuel k a1 r ascale1 mscale (p / 2))

/-- The integer exponent of `bexp`: the integer part of `p` when `p` has a scale. -/
def bexp_exponent (p : number) : Int :=
  if p.scale ≠ 0 then (split_number p).1 else p.number

/-- The result scale `rscale` chosen by `bexp`; `pn` is the integer exponent. -/
def bexp_rscale (k : Nat) (a : number) (pn : Int) : Nat :=
  if pn < 0 then k
  else
    let b := mpz_get_ui pn
    let m := max a.scale k
    let rscale := umul a.scale (b % 4294967296)
    if rscale > m ∨ (a.scale > 0 ∧ (b = GMP_NUMB_MASK ∨ b > UINT_MAX)) then m
    else rscale

/-- The arithmetic of `bexp` once both operands are popped (`p` first). The
loops run on the absolute value `e` of the exponent; each halves it, so the
fuel `e` (first loop) and `e / 2 + 1` (second loop) is never used up. -/
def bexp_number (k : Nat) (a p : number) : Option number :=
  let pn := bexp_exponent p
  let neg : Bool := pn < 0
  let e : Nat := pn.natAbs
  let rscale := bexp_rscale k a pn
  if e = 0 then normalize { number := 1, scale := 0 } rscale
  else
    (bexp_loop1 e k a a.scale e).bind (fun s1 =>
      let r := dup_number s1.1
      let p2 := s1.2.2 / 2
      (bexp_loop2 (p2 + 1) k s1.1 r s1.2.1 s1.2.1 p2).bind (fun r1 =>
        if neg then
          (scale_number 1 (to_int (uadd r1.scale rscale))).map (fun one =>
            if r1.number = 0 then { number := r1.number, scale := rscale }
            else { number := one.tdiv r1.number, scale := rscale })
        else normalize r1 rscale))

/-- The opcode `^`. -/
def bexp (m : bmachine) : Option bmachine :=
  match pop_number m with
  | none => some m
  | some (p, m1) =>
    match pop_number m1 with
    | none => some (push_number m1 p)
    | some (a, m2) => (bexp_number m.scale a p).map (fun r => push_number m2 r)

/-- The GMP function `mpz_set(rop, op)`. The destination `rop` is `none` when
the source never initialised it (no `mpz_init` on a local, or a `struct number`
that comes from a bare `bmalloc`): GMP then reads indeterminate fields, the
behaviour is undefined, and there is no result. Otherwise `rop` becomes `op`. -/
def mpz_set (rop : Option Int) (op : Int) : Option Int :=
  match rop with
  | none => none
  | some _ => some op

/-- The `do ... while` loop of `bsqrt` on the state `(x, t, onecount)` for the
operand `n`; `t` is the local `mpz_t t`, `none` as long as it is not
initialised. One round computes `y = (x + n / x) / 2`, stores `y - x` in `x`,
copies it to `t` with `mpz_set(t, x)`, and leaves the new `y` in `x` and the
difference in `y`. It returns the final `(x, y)`; `none` stands for fuel used
up, for `mpz_tdiv_q` meeting the divisor `x = 0`, or for `mpz_set` into an
uninitialised `t`. -/
def bsqrt_loop : Nat → Int → Int → Option Int → Nat → Option (Int × Int)
  | 0, _, _, _, _ => none
  | fuel + 1, n, x, t, onecount =>
    (mpz_tdiv_q n x).bind (fun q =>
      let y := (x + q).tdiv 2
      let d := y - x
      (mpz_set t d).bind (fun t1 =>
        if t1 ≠ 0 then
          let onecount1 := uadd onecount (if t1 = 1 then 1 else 0)
          if onecount1 < 2 then bsqrt_loop fuel n y (some t1) onecount1 else some (y, t1)
        else some (y, t1)))

/-- The opcode `v`, with the fuel for its loop. The local `t` is declared and
never initialised, and the result `r` comes from `bmalloc` without `mpz_init`,
so both `mpz_set(t, x)` and `mpz_set(r->number, y)` meet an uninitialised
destination. -/
def bsqrt (fuel : Nat) (m : bmachine) : Option bmachine :=
  match pop_number m with
  | none => some m
  | some (n, m1) =>
    if n.number = 0 then some (push_number m1 new_number)
    else if n.number < 0 then some m1
    else
      let scale := max m.scale n.scale
      (normalize n (umul 2 scale)).bind (fun n1 =>
        let x := n1.number.tdiv (2 ^ (sizeinbase2 n1.number / 2))
        (bsqrt_loop fuel n1.number x none 0).bind (fun xy =>
          (mpz_set none (xy.1 - xy.2)).map
            (fun rn => push_number m1 { number := rn, scale := scale })))

/-- Reduction of an integer to `uint64_t`. -/
def to_u64 (x : Int) : Nat := (x % 18446744073709551616).toNat

/-- The function `count_digits`. -/
def count_digits (n : number) : Nat :=
  let c : Int := 1292913986
  if n.number = 0 then n.scale
  else
    let int_part := (split_number n).1
    let bits : Int := to_int (sizeinbase2 int_part)
    if bits = 0 then uadd 0 n.scale
    else
      let d : Nat := (to_u64 (c * bits) / 4294967296) % 4294967296
      if d ≠ to_u64 (c * (bits - 1)) / 4294967296 then
        if int_part.natAbs ≥ 10 ^ d then uadd (uadd d 1) n.scale
        else uadd d n.scale
      else uadd (uadd d 1) n.scale

/-- The `enum bcode_compare`. -/
inductive bcode_compare where
  | BCODE_EQUAL
  | BCODE_NOT_EQUAL
  | BCODE_LESS
  | BCODE_NOT_LESS
  | BCODE_GREATER
  | BCODE_NOT_GREATER
  deriving DecidableEq

/-- The function `compare_numbers`. -/
def compare_numbers (type : bcode_compare) (a b : number) : Option Bool :=
  let scale := max a.scale b.scale
  let a1 := if scale > a.scale then normalize a scale else some a
  let b1 := if scale > a.scale then some b
    else if scale > b.scale then normalize b scale else some b
  a1.bind (fun a2 =>
    b1.bind (fun b2 =>
      let cmp := mpz_cmp a2.number b2.number
      match type with
      | bcode_compare.BCODE_EQUAL => some (decide (cmp = 0))
      | bcode_compare.BCODE_NOT_EQUAL => some (decide (cmp ≠ 0))
      | bcode_compare.BCODE_LESS => some (decide (cmp < 0))
      | bcode_compare.BCODE_NOT_LESS => some (decide (cmp ≥ 0))
      | bcode_compare.BCODE_GREATER => some (decide (cmp > 0))
      | bcode_compare.BCODE_NOT_GREATER => some (decide (cmp ≤ 0))))

/-! ## Specification-side notions -/

/-- The rational value `n / 10^scale` of a Number. -/
def val (x : number) : ℚ := (x.number : ℚ) / (10 : ℚ) ^ x.scale

/-- Truncation of a rational toward zero. -/
def trunc (q : ℚ) : Int := if 0 ≤ q then ⌊q⌋ else ⌈q⌉

/-- The length of the decimal string of a natural number. -/
def decimal_length (x : Nat) : Nat := (Nat.toDigits 10 x).length

/-- A machine with the given stack and scale, and both bases at ten; the other
fields are as `init_bmachine(false)` and `reset_bmachine` on an empty source
leave them. -/
def machine (stack : List value) (scale : Nat) : bmachine :=
  { stack := stack, scale := scale, obase := 10, ibase := 10,
    readsp := 0, extended_regs := false, reg_array_size := 256,
    reg := [], interrupted := false,
    readstack := List.replicate 8 { buf := [], pos := 0, lastchar := 0 },
    readstack_sz := 8, stdin := [] }


/-! ## Sources and the macro-execution stack

The functions of `inout.c` and `stack.c` are not among the sources; the ones
below follow the capability sets of the specification. -/

/-- The value `EOF` of `stdio.h`. -/
def EOF : Int := -1

/-- The constant `NO_ELSE` of `bcode.c`. -/
def NO_ELSE : Int := -2

/-- The constant `MAX_ARRAY_INDEX` of `bcode.c`. -/
def MAX_ARRAY_INDEX : Nat := 2048

/-- The constant `READSTACK_SIZE` of `bcode.c`. -/
def READSTACK_SIZE : Nat := 8

/-- The constant `REG_ARRAY_SIZE_SMALL` of `bcode.c`: `UCHAR_MAX + 1`. -/
def REG_ARRAY_SIZE_SMALL : Nat := 256

/-- The constant `REG_ARRAY_SIZE_BIG` of `bcode.c`: `UCHAR_MAX + 1 + USHRT_MAX + 1`. -/
def REG_ARRAY_SIZE_BIG : Nat := 65792

/-- A source frame in zeroed memory, as `calloc` leaves the read stack. -/
def zero_source : source := { buf := [], pos := 0, lastchar := 0 }

/-- Modelled from the spec: `read_char` of a source. It returns the next byte
and advances, or returns `EOF`; `lastchar` records the result. -/
def src_readchar (s : source) : Int × source :=
  match s.buf[s.pos]? with
  | some c => ((c : Int), { s with pos := s.pos + 1, lastchar := (c : Int) })
  | none => (EOF, { s with lastchar := EOF })

/-- Modelled from the spec: `unread_char` of a source. It restores the last
byte read; after `EOF` there is no byte to restore. -/
def src_unreadchar (s : source) : source :=
  if s.lastchar = EOF ∨ s.pos = 0 then s else { s with pos := s.pos - 1 }

/-- Modelled from the spec: `read_line` of a source. It consumes through and
including the next newline and returns the line without the newline. -/
def src_readline (s : source) : List Nat × source :=
  let rest := s.buf.drop s.pos
  let line := rest.takeWhile (fun c => c ≠ 10)
  if line.length < rest.length then (line, { s with pos := s.pos + line.length + 1 })
  else (line, { s with pos := s.pos + line.length })

/-- The scan of `read_bracketed_string` over the bytes not yet read: the number
of bytes consumed and the body, for the nesting depth `depth`. -/
def bracket_scan : List Nat → Nat → Nat × List Nat
  | [], _ => (0, [])
  | c :: cs, depth =>
    if c = 93 then
      if depth = 0 then (1, [])
      else ((bracket_scan cs (depth - 1)).1 + 1, c :: (bracket_scan cs (depth - 1)).2)
    else if c = 91 then
      ((bracket_scan cs (depth + 1)).1 + 1, c :: (bracket_scan cs (depth + 1)).2)
    else ((bracket_scan cs depth).1 + 1, c :: (bracket_scan cs depth).2)

/-- Modelled from the spec: `read_bracketed_string` of a source. The opening
bracket has been consumed; the body runs to the matching closing bracket, which
is consumed as well (or to the end of the input). -/
def src_read_string (s : source) : List Nat × source :=
  let r := bracket_scan (s.buf.drop s.pos) 0
  (r.2, { s with pos := s.pos + r.1 })

/-- Modelled from the spec: `make_string_source`, the function `src_setstring`
of `inout.c`. A fresh source has read nothing. -/
def src_setstring (p : List Nat) : source := { buf := p, pos := 0, lastchar := EOF }

/-- The active source frame `bmachine.readstack[bmachine.readsp]`. -/
def cur_source (m : bmachine) : source := m.readstack.getD m.readsp zero_source

/-- Assignment to the active source frame. -/
def set_source (m : bmachine) (s : source) : bmachine :=
  { m with readstack := m.readstack.set m.readsp s }

/-- The function `readch`. -/
def readch (m : bmachine) : Int × bmachine :=
  ((src_readchar (cur_source m)).1, set_source m (src_readchar (cur_source m)).2)

/-- The function `unreadch`. -/
def unreadch (m : bmachine) : bmachine := set_source m (src_unreadchar (cur_source m))

/-- The function `readline`. -/
def readline (m : bmachine) : List Nat × bmachine :=
  ((src_readline (cur_source m)).1, set_source m (src_readline (cur_source m)).2)

/-- The function `read_string` applied to the active source frame. -/
def read_string (m : bmachine) : List Nat × bmachine :=
  ((src_read_string (cur_source m)).1, set_source m (src_read_string (cur_source m)).2)

/-- The function `src_free`: releasing the resources of the active frame leaves
the state of the embedding as it is. -/
def src_free (m : bmachine) : bmachine := m

/-- The function `init_bmachine` on the zeroed static `bmachine`; `stdin` is the
standard input of the process. -/
def init_bmachine (extended_registers : Bool) (stdin : List Nat) : bmachine :=
  { stack := [], scale := 0, obase := 10, ibase := 10, readsp := 0,
    extended_regs := extended_registers,
    reg_array_size := if extended_registers then REG_ARRAY_SIZE_BIG else REG_ARRAY_SIZE_SMALL,
    reg := [], interrupted := false,
    readstack := List.replicate READSTACK_SIZE zero_source,
    readstack_sz := READSTACK_SIZE, stdin := stdin }

/-- The function `reset_bmachine`. -/
def reset_bmachine (m : bmachine) (src : source) : bmachine :=
  { m with readsp := 0, readstack := m.readstack.set 0 src }

/-- The function `sighandler`. -/
def sighandler (m : bmachine) : bmachine := { m with interrupted := true }

/-! ## Stack and register access -/

/-- Modelled from the spec: `stack_push` on the main stack. -/
def push (m : bmachine) (v : value) : bmachine := { m with stack := v :: m.stack }

/-- Modelled from the spec: `stack_pushstring` on the main stack. -/
def push_string (m : bmachine) (s : List Nat) : bmachine :=
  { m with stack := value.BCODE_STRING s :: m.stack }

/-- Modelled from the spec: `stack_tos` on the main stack. -/
def tos (m : bmachine) : Option value := m.stack.head?

/-- Modelled from the spec: `stack_pop` on the main stack. -/
def pop (m : bmachine) : Option (value × bmachine) :=
  match m.stack with
  | v :: rest => some (v, { m with stack := rest })
  | [] => none

/-- Modelled from the spec: `stack_popstring` on the main stack. It removes and
returns the top of the stack when that is a String. -/
def pop_string (m : bmachine) : Option (List Nat × bmachine) :=
  match m.stack with
  | value.BCODE_STRING s :: rest => some (s, { m with stack := rest })
  | _ => none

/-- The register stack `bmachine.reg[idx]`. -/
def reg_stack (m : bmachine) (idx : Nat) : List slot := m.reg.getD idx []

/-- Assignment to the register stack `bmachine.reg[idx]`. -/
def set_reg (m : bmachine) (idx : Nat) (s : List slot) : bmachine :=
  if idx < m.reg.length then { m with reg := m.reg.set idx s }
  else { m with reg := m.reg ++ List.replicate (idx - m.reg.length) [] ++ [s] }

/-- Modelled from the spec: `stack_set_tos` on a register stack: overwrite the
top, or create it when the stack is empty. -/
def stack_set_tos (s : List slot) (v : value) : List slot :=
  match s with
  | [] => [{ val := v, array := [] }]
  | _ :: rest => { val := v, array := [] } :: rest

/-- Assignment to index `i` of a frame, which grows with `BCODE_NONE` entries
as far as needed. -/
def array_assign (a : List value) (i : Nat) (v : value) : List value :=
  if i < a.length then a.set i v
  else a ++ List.replicate (i - a.length) value.BCODE_NONE ++ [v]

/-- Modelled from the spec: `frame_assign` on a register stack: write the
Value at the index in the frame of the top entry; an empty register first
gets a top entry holding `BCODE_NONE`. -/
def frame_assign (s : List slot) (i : Nat) (v : value) : List slot :=
  match s with
  | [] => [{ val := value.BCODE_NONE, array := array_assign [] i v }]
  | t :: rest => { t with array := array_assign t.array i v } :: rest

/-- Modelled from the spec: `frame_retrieve` on a register stack. -/
def frame_retrieve (s : List slot) (i : Nat) : Option value :=
  match s with
  | [] => none
  | t :: _ => t.array[i]?

/-- The function `get_ulong`: the `u_long` read and the Number as `normalize`
leaves it. -/
def get_ulong (n : number) : Option (Nat × number) :=
  (normalize n 0).map (fun n1 => (mpz_get_ui n1.number, n1))

/-- The function `readreg`: the register index, or `-1`. -/
def readreg (m : bmachine) : Int × bmachine :=
  let r := readch m
  let r1 : Int × bmachine :=
    if r.1 = 255 ∧ m.extended_regs = true then
      let c1 := readch r.2
      let c2 := readch c1.2
      if c1.1 = EOF ∨ c2.1 = EOF then (-1, c2.2)
      else (c1.1 * 256 + c2.1 + 255 + 1, c2.2)
    else r
  if r1.1 < 0 ∨ r1.1 ≥ (m.reg_array_size : Int) then (-1, r1.2) else r1

/-! ## Opcodes on the stack, the bases and the registers -/

/-- The functions `print_tos`, `print_err` and `print_stack`: output only. -/
def print_tos (m : bmachine) : bmachine := m

/-- The functions `pop_print`, `pop_printn` and `drop`: the top of the stack is
removed (and, for the first two, printed). -/
def drop (m : bmachine) : bmachine :=
  match pop m with
  | some (_, m1) => m1
  | none => m

/-- The function `clear_stack`. -/
def clear_stack (m : bmachine) : bmachine := { m with stack := [] }

/-- The function `dup`, through `stack_dup` (modelled from the spec). -/
def dup (m : bmachine) : bmachine :=
  match m.stack with
  | v :: rest => { m with stack := v :: v :: rest }
  | [] => m

/-- The function `swap`, through `stack_swap` (modelled from the spec). -/
def swap (m : bmachine) : bmachine :=
  match m.stack with
  | v :: w :: rest => { m with stack := w :: v :: rest }
  | _ => m

/-- The function `get_scale`. -/
def get_scale (m : bmachine) : bmachine :=
  push_number m { number := (m.scale : Int), scale := 0 }

/-- The function `set_scale`. -/
def set_scale (m : bmachine) : Option bmachine :=
  match pop_number m with
  | none => some m
  | some (n, m1) =>
    if n.number < 0 then some m1
    else
      (get_ulong n).map (fun (g : Nat × number) =>
        let scale := g.1
        if scale ≠ GMP_NUMB_MASK ∧ scale ≤ UINT_MAX then
          { m1 with scale := scale % 4294967296 }
        else m1)

/-- The function `get_obase`. -/
def get_obase (m : bmachine) : bmachine :=
  push_number m { number := (m.obase : Int), scale := 0 }

/-- The function `set_obase`. -/
def set_obase (m : bmachine) : Option bmachine :=
  match pop_number m with
  | none => some m
  | some (n, m1) =>
    (get_ulong n).map (fun (g : Nat × number) =>
      let base := g.1
      if base ≠ GMP_NUMB_MASK ∧ base > 1 ∧ base ≤ UINT_MAX then
        { m1 with obase := base % 4294967296 }
      else m1)

/-- The function `get_ibase`. -/
def get_ibase (m : bmachine) : bmachine :=
  push_number m { number := (m.ibase : Int), scale := 0 }

/-- The function `set_ibase`. -/
def set_ibase (m : bmachine) : Option bmachine :=
  match pop_number m with
  | none => some m
  | some (n, m1) =>
    (get_ulong n).map (fun (g : Nat × number) =>
      let base := g.1
      if base ≠ GMP_NUMB_MASK ∧ 2 ≤ base ∧ base ≤ 16 then
        { m1 with ibase := base % 4294967296 }
      else m1)

/-- The function `stackdepth`. -/
def stackdepth (m : bmachine) : bmachine :=
  push_number m { number := (m.stack.length : Int), scale := 0 }

/-- The function `push_scale`. -/
def push_scale (m : bmachine) : bmachine :=
  match pop m with
  | none => m
  | some (value.BCODE_NONE, m1) => m1
  | some (value.BCODE_NUMBER n, m1) => push_number m1 { number := (n.scale : Int), scale := 0 }
  | some (value.BCODE_STRING _, m1) => push_number m1 { number := 0, scale := 0 }

/-- The function `num_digits`. -/
def num_digits (m : bmachine) : bmachine :=
  match pop m with
  | none => m
  | some (value.BCODE_NONE, m1) => m1
  | some (value.BCODE_NUMBER n, m1) =>
    push_number m1 { number := (count_digits n : Int), scale := 0 }
  | some (value.BCODE_STRING s, m1) =>
    push_number m1 { number := (s.length : Int), scale := 0 }

/-- The C string made by `bstrdup(str)` from the two bytes `str[0]` and
`str[1] = 0`: empty when `str[0]` is the terminator. -/
def one_byte_string (b : Nat) : List Nat := if b = 0 then [] else [b]

/-- The function `to_ascii`. -/
def to_ascii (m : bmachine) : Option bmachine :=
  match pop m with
  | none => some m
  | some (value.BCODE_NONE, m1) => some m1
  | some (value.BCODE_NUMBER n, m1) =>
    (get_ulong n).map (fun (g : Nat × number) => push_string m1 (one_byte_string (g.1 % 256)))
  | some (value.BCODE_STRING s, m1) =>
    some (push_string m1 (one_byte_string (s.headD 0)))

/-- The function `load`. -/
def load (m : bmachine) : bmachine :=
  let r := readreg m
  if r.1 ≥ 0 then
    match reg_stack r.2 r.1.toNat with
    | [] => push_number r.2 new_number
    | t :: _ => push r.2 t.val
  else r.2

/-- The function `store`. -/
def store (m : bmachine) : bmachine :=
  let r := readreg m
  if r.1 ≥ 0 then
    match pop r.2 with
    | none => r.2
    | some (v, m1) => set_reg m1 r.1.toNat (stack_set_tos (reg_stack m1 r.1.toNat) v)
  else r.2

/-- The function `load_stack`. -/
def load_stack (m : bmachine) : bmachine :=
  let r := readreg m
  if r.1 ≥ 0 then
    match reg_stack r.2 r.1.toNat with
    | [] => r.2
    | t :: rest => push (set_reg r.2 r.1.toNat rest) t.val
  else r.2

/-- The function `store_stack`. -/
def store_stack (m : bmachine) : bmachine :=
  let r := readreg m
  if r.1 ≥ 0 then
    match pop r.2 with
    | none => r.2
    | some (v, m1) =>
      set_reg m1 r.1.toNat ({ val := v, array := [] } :: reg_stack m1 r.1.toNat)
  else r.2

/-- The function `load_array`. -/
def load_array (m : bmachine) : Option bmachine :=
  let r := readreg m
  if r.1 ≥ 0 then
    match pop_number r.2 with
    | none => some r.2
    | some (inumber, m1) =>
      (get_ulong inumber).map (fun (g : Nat × number) =>
        if g.2.number < 0 then m1
        else if g.1 = GMP_NUMB_MASK ∨ g.1 > MAX_ARRAY_INDEX then m1
        else
          match frame_retrieve (reg_stack m1 r.1.toNat) g.1 with
          | none => push_number m1 new_number
          | some value.BCODE_NONE => push_number m1 new_number
          | some v => push m1 v)
  else some r.2

/-- The function `store_array`. -/
def store_array (m : bmachine) : Option bmachine :=
  let r := readreg m
  if r.1 ≥ 0 then
    match pop_number r.2 with
    | none => some r.2
    | some (inumber, m1) =>
      match pop m1 with
      | none => some m1
      | some (v, m2) =>
        (get_ulong inumber).map (fun (g : Nat × number) =>
          if g.2.number < 0 then m2
          else if g.1 = GMP_NUMB_MASK ∨ g.1 > MAX_ARRAY_INDEX then m2
          else set_reg m2 r.1.toNat (frame_assign (reg_stack m2 r.1.toNat) g.1 v))
  else some r.2

/-- The function `push_line`. -/
def push_line (m : bmachine) : bmachine :=
  push_string (read_string m).2 (read_string m).1

/-- The function `comment`. -/
def comment (m : bmachine) : bmachine := (readline m).2

/-- The function `not`. -/
def not (m : bmachine) : bmachine :=
  match pop_number m with
  | none => m
  | some (a, m1) =>
    push_number m1 { number := if a.number ≠ 0 then 0 else 1, scale := 0 }

/-- The functions `equal_numbers`, `less_numbers` and `lesseq_numbers`, which
differ in the comparison type only. -/
def compare_push (type : bcode_compare) (m : bmachine) : Option bmachine :=
  match pop_number m with
  | none => some m
  | some (a, m1) =>
    match pop_number m1 with
    | none => some (push_number m1 a)
    | some (b, m2) =>
      (compare_numbers type a b).map (fun ok =>
        push_number m2 { number := if ok = true then 1 else 0, scale := 0 })

/-! ## Macro execution -/

/-- The function `eval_string`. Growing the read stack doubles `readstack_sz`;
the new frames are zeroed here, and allocation is taken to succeed. -/
def eval_string (m : bmachine) (p : List Nat) : bmachine :=
  if m.readsp > 0 ∧ (readch m).1 = EOF then
    set_source (src_free (readch m).2) (src_setstring p)
  else
    let m1 := if m.readsp > 0 then unreadch (readch m).2 else m
    let m2 :=
      if m1.readsp = m1.readstack_sz - 1 then
        { m1 with readstack_sz := m1.readstack_sz * 2,
                  readstack := m1.readstack ++ List.replicate m1.readstack_sz zero_source }
      else m1
    { m2 with readsp := m2.readsp + 1,
              readstack := m2.readstack.set (m2.readsp + 1) (src_setstring p) }

/-- The function `eval_line`: one line of the standard input is evaluated. -/
def eval_line (m : bmachine) : bmachine :=
  let r := src_readline { buf := m.stdin, pos := 0, lastchar := EOF }
  eval_string { m with stdin := m.stdin.drop r.2.pos } r.1

/-- The function `eval_tos`. -/
def eval_tos (m : bmachine) : bmachine :=
  match pop_string m with
  | none => m
  | some (p, m1) => eval_string m1 p

/-- The function `compare`. -/
def compare (type : bcode_compare) (m : bmachine) : Option bmachine :=
  let r := readreg m
  let c := readch r.2
  let e : Int × bmachine := if c.1 = 101 then readreg c.2 else (NO_ELSE, unreadch c.2)
  match pop_number e.2 with
  | none => some e.2
  | some (a, m1) =>
    match pop_number m1 with
    | none => some (push_number m1 a)
    | some (b, m2) =>
      (compare_numbers type a b).map (fun ok =>
        let idx : Int := if ok = false ∧ e.1 ≠ NO_ELSE then e.1 else r.1
        if idx ≥ 0 ∧ (ok = true ∨ (ok = false ∧ e.1 ≠ NO_ELSE)) then
          match reg_stack m2 idx.toNat with
          | [] => m2
          | t :: _ =>
            match t.val with
            | value.BCODE_NONE => m2
            | value.BCODE_NUMBER _ => m2
            | value.BCODE_STRING s => eval_string m2 s
        else m2)

/-- The function `not_compare`. -/
def not_compare (m : bmachine) : Option bmachine :=
  let c := readch m
  if c.1 = 60 then compare bcode_compare.BCODE_NOT_LESS c.2
  else if c.1 = 62 then compare bcode_compare.BCODE_NOT_GREATER c.2
  else if c.1 = 61 then compare bcode_compare.BCODE_NOT_EQUAL c.2
  else some (unreadch c.2)

/-- What a handler leaves: a machine state, the end of the process by `exit` or
`errx` with a status, or no result (the process ends inside GMP, the behaviour
is undefined, or the fuel of a loop is used up). -/
inductive outcome where
  | ok (m : bmachine)
  | exit (status : Nat)
  | no_result
  deriving DecidableEq

/-- A handler result of type `Option`, as an outcome. -/
def outcome.of_option (r : Option bmachine) : outcome :=
  match r with
  | some m => outcome.ok m
  | none => outcome.no_result

/-- The function `quit`. -/
def quit (m : bmachine) : outcome :=
  if m.readsp < 2 then outcome.exit 0
  else outcome.ok { m with readsp := m.readsp - 1 - 1 }

/-- The function `quitN`. -/
def quitN (m : bmachine) : Option bmachine :=
  match pop_number m with
  | none => some m
  | some (n, m1) =>
    (get_ulong n).map (fun (g : Nat × number) =>
      let i := g.1
      if i = GMP_NUMB_MASK ∨ i = 0 then m1
      else if m1.readsp < i then m1
      else { m1 with readsp := m1.readsp - i })

/-- The register argument skipped by `skip_until_mark` after one of the
opcodes that carry one. -/
def skip_register (m : bmachine) : bmachine :=
  let c := readch (readreg m).2
  if c.1 = 101 then (readreg c.2).2 else unreadch c.2

/-- The function `skip_until_mark`, one round of its loop per unit of fuel. -/
def skip_until_mark : Nat → bmachine → outcome
  | 0, _ => outcome.no_result
  | fuel + 1, m =>
    let c := readch m
    if c.1 = 77 then outcome.ok c.2
    else if c.1 = EOF then outcome.exit 1
    else if c.1 = 108 ∨ c.1 = 76 ∨ c.1 = 115 ∨ c.1 = 83 ∨ c.1 = 58 ∨ c.1 = 59
        ∨ c.1 = 60 ∨ c.1 = 62 ∨ c.1 = 61 then
      skip_until_mark fuel (skip_register c.2)
    else if c.1 = 91 then skip_until_mark fuel (read_string c.2).2
    else if c.1 = 33 then
      let d := readch c.2
      if d.1 = 60 ∨ d.1 = 62 ∨ d.1 = 61 then skip_until_mark fuel (skip_register d.2)
      else skip_until_mark fuel (readline d.2).2
    else skip_until_mark fuel c.2

/-- The function `skipN`, with the fuel of `skip_until_mark`. -/
def skipN (fuel : Nat) (m : bmachine) : outcome :=
  match pop_number m with
  | none => outcome.ok m
  | some (n, m1) =>
    match get_ulong n with
    | none => outcome.no_result
    | some g =>
      let i := g.1
      if i = GMP_NUMB_MASK then outcome.ok m1
      else if i > 0 ∧ m1.readsp < i then outcome.ok m1
      else skip_until_mark fuel { m1 with readsp := m1.readsp - i }

/-- The function `parse_number`; `readnumber` of `inout.c` is the parameter `rn`. -/
def parse_number (rn : source → Nat → number × source) (m : bmachine) : bmachine :=
  let m1 := unreadch m
  push_number (set_source m1 (rn (cur_source m1) m1.ibase).2) (rn (cur_source m1) m1.ibase).1

/-! ## Dispatch and the main loop -/

/-- The handlers named in `jump_table_data`, and `unknown`. -/
inductive opcode_function where
  | nop | not_compare | comment | bmod | less_numbers | bmul | badd | bsub
  | parse_number | bdiv | store_array | load_array | less | equal | greater
  | eval_line | equal_numbers | get_ibase | skipN | get_scale | load_stack
  | not | get_obase | pop_print | quitN | drop | store_stack | push_scale
  | num_digits | push_line | bexp | to_ascii | clear_stack | dup | print_err
  | print_stack | set_ibase | set_scale | load | pop_printn | set_obase
  | print_tos | quit | swap | store | bsqrt | eval_tos | stackdepth
  | lesseq_numbers | bdivmod | unknown
  deriving DecidableEq

/-- The table `jump_table_data`, the characters as their codes. -/
def jump_table_data : List (Nat × opcode_function) :=
  [ (32, opcode_function.nop), (33, opcode_function.not_compare),
    (35, opcode_function.comment), (37, opcode_function.bmod),
    (40, opcode_function.less_numbers), (42, opcode_function.bmul),
    (43, opcode_function.badd), (45, opcode_function.bsub),
    (46, opcode_function.parse_number), (47, opcode_function.bdiv),
    (48, opcode_function.parse_number), (49, opcode_function.parse_number),
    (50, opcode_function.parse_number), (51, opcode_function.parse_number),
    (52, opcode_function.parse_number), (53, opcode_function.parse_number),
    (54, opcode_function.parse_number), (55, opcode_function.parse_number),
    (56, opcode_function.parse_number), (57, opcode_function.parse_number),
    (58, opcode_function.store_array), (59, opcode_function.load_array),
    (60, opcode_function.less), (61, opcode_function.equal),
    (62, opcode_function.greater), (63, opcode_function.eval_line),
    (65, opcode_function.parse_number), (66, opcode_function.parse_number),
    (67, opcode_function.parse_number), (68, opcode_function.parse_number),
    (69, opcode_function.parse_number), (70, opcode_function.parse_number),
    (71, opcode_function.equal_numbers), (73, opcode_function.get_ibase),
    (74, opcode_function.skipN), (75, opcode_function.get_scale),
    (76, opcode_function.load_stack), (77, opcode_function.nop),
    (78, opcode_function.not), (79, opcode_function.get_obase),
    (80, opcode_function.pop_print), (81, opcode_function.quitN),
    (82, opcode_function.drop), (83, opcode_function.store_stack),
    (88, opcode_function.push_scale), (90, opcode_function.num_digits),
    (91, opcode_function.push_line), (12, opcode_function.nop),
    (10, opcode_function.nop), (13, opcode_function.nop),
    (9, opcode_function.nop), (94, opcode_function.bexp),
    (95, opcode_function.parse_number), (97, opcode_function.to_ascii),
    (99, opcode_function.clear_stack), (100, opcode_function.dup),
    (101, opcode_function.print_err), (102, opcode_function.print_stack),
    (105, opcode_function.set_ibase), (107, opcode_function.set_scale),
    (108, opcode_function.load), (110, opcode_function.pop_printn),
    (111, opcode_function.set_obase), (112, opcode_function.print_tos),
    (113, opcode_function.quit), (114, opcode_function.swap),
    (115, opcode_function.store), (118, opcode_function.bsqrt),
    (120, opcode_function.eval_tos), (122, opcode_function.stackdepth),
    (123, opcode_function.lesseq_numbers), (126, opcode_function.bdivmod) ]

/-- The table `jump_table` as `init_bmachine` fills it: `unknown` where
`jump_table_data` has no entry. -/
def jump_table (ch : Nat) : opcode_function :=
  (jump_table_data.lookup ch).getD opcode_function.unknown

/-- The call of a handler; `rn` is `readnumber`, and `fuel` serves the loops of
`bsqrt` and `skip_until_mark`. -/
def call (rn : source → Nat → number × source) (fuel : Nat) (f : opcode_function)
    (m : bmachine) : outcome :=
  match f with
  | opcode_function.nop => outcome.ok m
  | opcode_function.not_compare => outcome.of_option (not_compare m)
  | opcode_function.comment => outcome.ok (comment m)
  | opcode_function.bmod => outcome.of_option (bmod m)
  | opcode_function.less_numbers => outcome.of_option (compare_push bcode_compare.BCODE_LESS m)
  | opcode_function.bmul => outcome.of_option (bmul m)
  | opcode_function.badd => outcome.of_option (badd m)
  | opcode_function.bsub => outcome.of_option (bsub m)
  | opcode_function.parse_number => outcome.ok (parse_number rn m)
  | opcode_function.bdiv => outcome.of_option (bdiv m)
  | opcode_function.store_array => outcome.of_option (store_array m)
  | opcode_function.load_array => outcome.of_option (load_array m)
  | opcode_function.less => outcome.of_option (compare bcode_compare.BCODE_LESS m)
  | opcode_function.equal => outcome.of_option (compare bcode_compare.BCODE_EQUAL m)
  | opcode_function.greater => outcome.of_option (compare bcode_compare.BCODE_GREATER m)
  | opcode_function.eval_line => outcome.ok (eval_line m)
  | opcode_function.equal_numbers => outcome.of_option (compare_push bcode_compare.BCODE_EQUAL m)
  | opcode_function.get_ibase => outcome.ok (get_ibase m)
  | opcode_function.skipN => skipN fuel m
  | opcode_function.get_scale => outcome.ok (get_scale m)
  | opcode_function.load_stack => outcome.ok (load_stack m)
  | opcode_function.not => outcome.ok (not m)
  | opcode_function.get_obase => outcome.ok (get_obase m)
  | opcode_function.pop_print => outcome.ok (drop m)
  | opcode_function.quitN => outcome.of_option (quitN m)
  | opcode_function.drop => outcome.ok (drop m)
  | opcode_function.store_stack => outcome.ok (store_stack m)
  | opcode_function.push_scale => outcome.ok (push_scale m)
  | opcode_function.num_digits => outcome.ok (num_digits m)
  | opcode_function.push_line => outcome.ok (push_line m)
  | opcode_function.bexp => outcome.of_option (bexp m)
  | opcode_function.to_ascii => outcome.of_option (to_ascii m)
  | opcode_function.clear_stack => outcome.ok (clear_stack m)
  | opcode_function.dup => outcome.ok (dup m)
  | opcode_function.print_err => outcome.ok (print_tos m)
  | opcode_function.print_stack => outcome.ok (print_tos m)
  | opcode_function.set_ibase => outcome.of_option (set_ibase m)
  | opcode_function.set_scale => outcome.of_option (set_scale m)
  | opcode_function.load => outcome.ok (load m)
  | opcode_function.pop_printn => outcome.ok (drop m)
  | opcode_function.set_obase => outcome.of_option (set_obase m)
  | opcode_function.print_tos => outcome.ok (print_tos m)
  | opcode_function.quit => quit m
  | opcode_function.swap => outcome.ok (swap m)
  | opcode_function.store => outcome.ok (store m)
  | opcode_function.bsqrt => outcome.of_option (bsqrt fuel m)
  | opcode_function.eval_tos => outcome.ok (eval_tos m)
  | opcode_function.stackdepth => outcome.ok (stackdepth m)
  | opcode_function.lesseq_numbers =>
    outcome.of_option (compare_push bcode_compare.BCODE_NOT_GREATER m)
  | opcode_function.bdivmod => outcome.of_option (bdivmod m)
  | opcode_function.unknown => outcome.ok m

/-- What one round of the loop of `eval` leaves: the loop goes on, `eval`
returns, the process ends with a status, or there is no result. -/
inductive iteration where
  | next (m : bmachine)
  | returned (m : bmachine)
  | exit (status : Nat)
  | no_result
  deriving DecidableEq

/-- One round of the `for (;;)` loop of `eval`. -/
def eval_step (rn : source → Nat → number × source) (fuel : Nat) (m : bmachine) : iteration :=
  let c := readch m
  if c.1 = EOF then
    if c.2.readsp = 0 then iteration.returned c.2
    else iteration.next { src_free c.2 with readsp := c.2.readsp - 1 }
  else if c.2.interrupted = true ∧ c.2.readsp > 0 then
    iteration.next { src_free c.2 with readsp := c.2.readsp - 1 }
  else
    let m1 := if c.2.interrupted = true then { c.2 with interrupted := false } else c.2
    let f := if 0 ≤ c.1 ∧ c.1 < 256 then jump_table c.1.toNat else opcode_function.unknown
    match call rn fuel f m1 with
    | outcome.ok m2 => iteration.next m2
    | outcome.exit status => iteration.exit status
    | outcome.no_result => iteration.no_result

/-- The loop of `eval`, at most `rounds` rounds of it. -/
def eval (rn : source → Nat → number × source) (fuel : Nat) : Nat → bmachine → iteration
  | 0, m => iteration.next m
  | rounds + 1, m =>
    match eval_step rn fuel m with
    | iteration.next m1 => eval rn fuel rounds m1
    | r => r


/-! ## Notions used by the statements -/

/-- The program `a /` run `n` times: each round pushes the Number `a` and runs
`bdiv`, which divides the Number beneath by it. -/
def bdiv_times (a : number) : Nat → bmachine → Option bmachine
  | 0, m => some m
  | n + 1, m => (bdiv (push_number m a)).bind (bdiv_times a n)

/-! ## The invariant of the machine state -/

/-- The part of the machine state the invariant speaks of: `readsp`,
`readstack_sz`, `ibase` and `obase`. -/
def control (m : bmachine) : Nat × Nat × Nat × Nat :=
  (m.readsp, m.readstack_sz, m.ibase, m.obase)

/-- The invariant `0 ≤ readsp < readstack_sz`, `2 ≤ ibase ≤ 16`, `obase ≥ 2`;
`readsp` is a `size_t`, so `0 ≤ readsp` holds by its type. -/
def machine_invariant (m : bmachine) : Prop :=
  m.readsp < m.readstack_sz ∧ 2 ≤ m.ibase ∧ m.ibase ≤ 16 ∧ 2 ≤ m.obase

instance (m : bmachine) : Decidable (machine_invariant m) := by
  unfold machine_invariant
  infer_instance

/-- One round of the `do` loop of `bsqrt`, as it changes `x`: the new `x` is
`y = (x + n / x) / 2`, both divisions truncating. -/
def bsqrt_step (n x : Int) : Int := (x + n.tdiv x).tdiv 2

/-! ## The skip rule of `J`, as the specification words it -/

/-- The result of a scan for the mark: the number of bytes consumed, the mark
included; no mark before the end of the input; or the fuel used up. -/
inductive scan where
  | mark (n : Nat)
  | no_mark
  | no_fuel
  deriving DecidableEq

/-- Stated from the specification: the bytes taken by the register argument of
one of `l L s S : ; < > =`, counted on the bytes `l` after the opcode: the
register byte and, when an `e` comes directly after it, the `e` and the register
byte after the `e`. -/
def spec_register_length (l : List Nat) : Nat :=
  match l with
  | [] => 0
  | [_] => 1
  | _ :: c :: rest => if c = 101 then (if rest = [] then 2 else 3) else 1

/-- Stated from the specification: the bytes taken by a bracketed string whose
opening bracket has been read, the closing bracket included, counted on the
bytes `l` after the opening bracket at the nesting depth `depth`. A string that
is not closed runs to the end of the input. -/
def spec_string_length : List Nat → Nat → Nat
  | [], _ => 0
  | c :: cs, depth =>
    if c = 93 then (if depth = 0 then 1 else spec_string_length cs (depth - 1) + 1)
    else if c = 91 then spec_string_length cs (depth + 1) + 1
    else spec_string_length cs depth + 1

/-- Stated from the specification: the bytes of the rest of a line, the newline
included. -/
def spec_line_length : List Nat → Nat
  | [] => 0
  | c :: cs => if c = 10 then 1 else spec_line_length cs + 1

/-- Stated from the specification: the bytes after the opcode `c` that are not
at an opcode position, counted on the bytes `rest` after `c`. The flag
`as_claimed` selects the reading of a `!` that is not followed by `<`, `>` or
`=`: with it the bytes skipped are the rest of the line after the `!`; without
it they are the byte after the `!` and the rest of the line after that byte. -/
def spec_argument_length (as_claimed : Bool) (c : Nat) (rest : List Nat) : Nat :=
  if c = 108 ∨ c = 76 ∨ c = 115 ∨ c = 83 ∨ c = 58 ∨ c = 59 ∨ c = 60 ∨ c = 62
      ∨ c = 61 then
    spec_register_length rest
  else if c = 91 then spec_string_length rest 0
  else if c = 33 then
    match rest with
    | [] => 0
    | d :: rest2 =>
      if d = 60 ∨ d = 62 ∨ d = 61 then 1 + spec_register_length rest2
      else if as_claimed = true then spec_line_length rest
      else 1 + spec_line_length rest2
  else 0

/-- Stated from the specification: the scan for the first `M` (code `77`) at an
opcode position, one opcode per unit of fuel. -/
def spec_mark_scan (as_claimed : Bool) : Nat → List Nat → scan
  | 0, _ => scan.no_fuel
  | _ + 1, [] => scan.no_mark
  | fuel + 1, c :: rest =>
    if c = 77 then scan.mark 1
    else
      match spec_mark_scan as_claimed fuel (rest.drop (spec_argument_length as_claimed c rest)) with
      | scan.mark n => scan.mark (1 + spec_argument_length as_claimed c rest + n)
      | scan.no_mark => scan.no_mark
      | scan.no_fuel => scan.no_fuel

theorem max_eq (a b : Nat) : max a b = Nat.max a b := by
  unfold max
  split_ifs with h
  · exact (Nat.max_eq_left (le_of_lt h)).symm
  · exact (Nat.max_eq_right (not_lt.mp h)).symm

theorem factors_getD (i : Nat) (h1 : 1 ≤ i) (h2 : i < 10) : factors.getD i 0 = 10 ^ i := by
  interval_cases i <;> rfl

theorem scale_number_of_nonneg (n s : Int) (hs : 0 ≤ s) :
    scale_number n s = some (n * 10 ^ s.toNat) := by
  unfold scale_number
  by_cases h0 : s = 0
  · simp [h0]
  · have hpos : 0 < s := lt_of_le_of_ne hs (Ne.symm h0)
    have hmin : s ≠ -2147483648 := by omega
    simp only [h0, hmin, if_false, hpos, gt_iff_lt, if_true]
    by_cases h10 : s < 10
    · have h1 : 1 ≤ s.toNat := by omega
      have h2 : s.toNat < 10 := by omega
      rw [if_pos h10, factors_getD _ h1 h2]
      push_cast
      rfl
    · rw [if_neg h10]

theorem scale_number_of_neg (n s : Int) (hs : s < 0) (hmin : s ≠ -2147483648) :
    scale_number n s = some (n.tdiv (10 ^ (-s).toNat)) := by
  unfold scale_number
  have h0 : s ≠ 0 := ne_of_lt hs
  have hpos : ¬ (0 < s) := by omega
  simp only [h0, hmin, if_false, hpos, gt_iff_lt]
  by_cases h10 : -s < 10
  · have h1 : 1 ≤ (-s).toNat := by omega
    have h2 : (-s).toNat < 10 := by omega
    rw [if_pos h10, factors_getD _ h1 h2]
    push_cast
    rfl
  · rw [if_neg h10]

/-- The shift `INT_MIN` has no result, whatever the operand. -/
theorem scale_number_int_min (n : Int) : scale_number n (-2147483648) = none := by
  unfold scale_number
  simp

theorem to_int_usub_ge (s a : Nat) (h : a ≤ s) (hs : s < 4294967296)
    (hd : s - a < 2147483648) : to_int (usub s a) = ((s - a : Nat) : Int) := by
  unfold to_int usub
  have e : (s + 4294967296 - a % 4294967296) % 4294967296 = s - a := by omega
  rw [e]
  have e2 : (s - a) % 4294967296 = s - a := by omega
  rw [e2, if_pos hd]

theorem to_int_usub_lt (s a : Nat) (h : s < a) (ha : a < 4294967296)
    (hd : a - s < 2147483648) : to_int (usub s a) = -((a - s : Nat) : Int) := by
  unfold to_int usub
  have e : (s + 4294967296 - a % 4294967296) % 4294967296 = 4294967296 - (a - s) := by omega
  rw [e]
  have e2 : (4294967296 - (a - s)) % 4294967296 = 4294967296 - (a - s) := by omega
  rw [e2]
  have hn : ¬ (4294967296 - (a - s) < 2147483648) := by omega
  rw [if_neg hn]
  omega

theorem normalize_up (n : number) (s : Nat) (h : n.scale ≤ s) (hs : s < 4294967296)
    (hd : s - n.scale < 2147483648) :
    normalize n s = some { number := n.number * 10 ^ (s - n.scale), scale := s } := by
  unfold normalize
  rw [to_int_usub_ge s n.scale h hs hd, scale_number_of_nonneg _ _ (Int.natCast_nonneg _)]
  simp

theorem normalize_down (n : number) (s : Nat) (h : s < n.scale) (hs : n.scale < 4294967296)
    (hd : n.scale - s < 2147483648) :
    normalize n s = some { number := n.number.tdiv (10 ^ (n.scale - s)), scale := s } := by
  unfold normalize
  rw [to_int_usub_lt s n.scale h hs hd]
  have hneg : -(((n.scale - s : Nat)) : Int) < 0 := by omega
  have hmin : -(((n.scale - s : Nat)) : Int) ≠ -2147483648 := by omega
  rw [scale_number_of_neg _ _ hneg hmin]
  simp

theorem trunc_div_nonneg (p q : Int) (hp : 0 ≤ p) (hq : 0 < q) :
    trunc ((p : ℚ) / (q : ℚ)) = p.tdiv q := by
  unfold trunc
  have hnn : (0 : ℚ) ≤ (p : ℚ) / (q : ℚ) := by positivity
  rw [if_pos hnn, Int.tdiv_eq_ediv hp (le_of_lt hq)]
  obtain ⟨d, rfl⟩ := Int.eq_ofNat_of_zero_le (le_of_lt hq)
  have := Rat.floor_intCast_div_natCast p d
  simpa using this

theorem trunc_neg (x : ℚ) : trunc (-x) = - trunc x := by
  unfold trunc
  rcases lt_trichotomy x 0 with h | h | h
  · have h1 : (0 : ℚ) ≤ -x := by linarith
    have h2 : ¬ (0 : ℚ) ≤ x := by linarith
    rw [if_pos h1, if_neg h2, Int.floor_neg]
  · subst h; simp
  · have h1 : ¬ (0 : ℚ) ≤ -x := by linarith
    have h2 : (0 : ℚ) ≤ x := by linarith
    rw [if_neg h1, if_pos h2, Int.ceil_neg]

theorem trunc_div (p q : Int) : trunc ((p : ℚ) / (q : ℚ)) = p.tdiv q := by
  rcases lt_trichotomy q 0 with hq | hq | hq
  · rcases le_or_lt 0 p with hp | hp
    · have hq2 : 0 < -q := by omega
      have := trunc_div_nonneg p (-q) hp hq2
      rw [Int.tdiv_neg] at this
      have e : ((p : ℚ) / ((-q : Int) : ℚ)) = -((p : ℚ) / (q : ℚ)) := by
        push_cast; rw [div_neg]
      rw [e, trunc_neg] at this
      omega
    · have hq2 : 0 < -q := by omega
      have hp2 : 0 ≤ -p := by omega
      have := trunc_div_nonneg (-p) (-q) hp2 hq2
      rw [Int.tdiv_neg, Int.neg_tdiv, neg_neg] at this
      have e : (((-p : Int) : ℚ) / ((-q : Int) : ℚ)) = ((p : ℚ) / (q : ℚ)) := by
        push_cast; rw [neg_div_neg_eq]
      rw [e] at this
      exact this
  · subst hq; simp [trunc]
  · rcases le_or_lt 0 p with hp | hp
    · exact trunc_div_nonneg p q hp hq
    · have hp2 : 0 ≤ -p := by omega
      have := trunc_div_nonneg (-p) q hp2 hq
      rw [Int.neg_tdiv] at this
      have e : (((-p : Int) : ℚ) / (q : ℚ)) = -((p : ℚ) / (q : ℚ)) := by
        push_cast; rw [neg_div]
      rw [e, trunc_neg] at this
      omega


theorem uadd_of_lt (a b : Nat) (h : a + b < 4294967296) : uadd a b = a + b := by
  unfold uadd; omega

theorem max_ge_left (a b : Nat) : a ≤ max a b := by
  rw [max_eq]; exact Nat.le_max_left a b

theorem max_ge_right (a b : Nat) : b ≤ max a b := by
  rw [max_eq]; exact Nat.le_max_right a b

theorem cast_pow_sub (m n : Nat) (h : n ≤ m) :
    ((10 : ℚ) ^ (m - n)) = 10 ^ m / 10 ^ n := by
  rw [pow_sub₀ (10 : ℚ) (by norm_num) h, div_eq_mul_inv]

/-- The quotient of the two normalized operands of `bdiv` is the scaled quotient
of the two values. -/
theorem scaled_quotient (an bn : Int) (as bs S k : Nat) (ha : as ≤ S) (hb : bs ≤ S + k)
    (han : an ≠ 0) :
    (((bn * 10 ^ (S + k - bs) : Int) : ℚ) / ((an * 10 ^ (S - as) : Int) : ℚ))
      = ((bn : ℚ) / 10 ^ bs) / ((an : ℚ) / 10 ^ as) * 10 ^ k := by
  have han2 : (an : ℚ) ≠ 0 := by exact_mod_cast han
  push_cast
  rw [cast_pow_sub _ _ ha, cast_pow_sub _ _ hb, pow_add]
  have h1 : ((10 : ℚ) ^ bs) ≠ 0 := by positivity
  have h2 : ((10 : ℚ) ^ as) ≠ 0 := by positivity
  have h3 : ((10 : ℚ) ^ S) ≠ 0 := by positivity
  field_simp
  ring

theorem trunc_one_mul_pow_ne_zero (K : Nat) :
    trunc (val { number := 1, scale := 0 } / val { number := 1, scale := 0 } * 10 ^ K) ≠ 0 := by
  have e : val { number := 1, scale := 0 } / val { number := 1, scale := 0 } * (10 : ℚ) ^ K
      = (((10 ^ K : Int)) : ℚ) / ((1 : Int) : ℚ) := by
    simp [val]
  rw [e, trunc_div]
  simp

/-! ## C1: `bdiv` -/

/-- C1, as stated, fails: at machine scale `UINT_MAX` the shift `s + k - b.scale`
handed to `scale_number` is `-1` as an `int`, so `1 1 /` pushes `0`, while the
truncated scaled quotient is `10^4294967295`, which is not zero. -/
theorem bdiv_scale_wrap :
    bdiv (machine [value.BCODE_NUMBER { number := 1, scale := 0 },
                   value.BCODE_NUMBER { number := 1, scale := 0 }] 4294967295)
      = some (machine [value.BCODE_NUMBER { number := 0, scale := 4294967295 }] 4294967295)
    ∧ trunc (val { number := 1, scale := 0 } / val { number := 1, scale := 0 }
        * 10 ^ 4294967295) ≠ 0 :=
  ⟨by decide, trunc_one_mul_pow_ne_zero 4294967295⟩

/-- The push itself is not unconditional either: for `a = 1` (scale `0`) on top of
`b = 0` at scale `UINT_MAX`, `normalize(a, UINT_MAX)` shifts by `(int)UINT_MAX = -1`
and makes the divisor `0`; `mpz_tdiv_q` then divides by zero and nothing is pushed. -/
theorem bdiv_divisor_vanishes :
    bdiv (machine [value.BCODE_NUMBER { number := 1, scale := 0 },
                   value.BCODE_NUMBER { number := 0, scale := 4294967295 }] 0)
      = none := by
  decide

/-- C1, amended: with `a` on top of `b` and `k = m.scale`. When `a.n = 0`, `bdiv`
replaces both by one Number of scale `k` and integer `0`. When `a.n ≠ 0` and the
scales fit the C types (`S + k < 2^32`, `S - a.scale < 2^31` and
`S + k - b.scale < 2^31` for `S = max(a.scale, b.scale)`), `bdiv` replaces both
by one Number of scale `k` whose integer is the rational
`(b.n/10^b.scale) / (a.n/10^a.scale) * 10^k` truncated toward zero. Nothing is
said of a non-zero divisor whose scales do not fit. -/
theorem bdiv_quotient (m : bmachine) (a b : number) (rest : List value)
    (hstack : m.stack = value.BCODE_NUMBER a :: value.BCODE_NUMBER b :: rest)
    (hfit : a.number ≠ 0 →
      max a.scale b.scale + m.scale < 4294967296 ∧
      max a.scale b.scale - a.scale < 2147483648 ∧
      max a.scale b.scale + m.scale - b.scale < 2147483648) :
    bdiv m = some { m with stack := (value.BCODE_NUMBER
      { number := if a.number = 0 then 0 else trunc (val b / val a * 10 ^ m.scale),
        scale := m.scale }) :: rest } := by
  unfold bdiv pop_number push_number
  simp only [hstack, bdiv_number]
  by_cases h0 : a.number = 0
  · simp [h0]
  · obtain ⟨hS, ha, hb⟩ := hfit h0
    have hla : a.scale ≤ max a.scale b.scale := max_ge_left _ _
    have hlb : b.scale ≤ max a.scale b.scale := max_ge_right _ _
    rw [uadd_of_lt _ _ hS, normalize_up a _ hla (by omega) ha,
      normalize_up b _ (by omega) hS hb]
    have hne : a.number * 10 ^ (max a.scale b.scale - a.scale) ≠ 0 :=
      mul_ne_zero h0 (by positivity)
    simp only [h0, if_false, mpz_tdiv_q, hne, Option.map_some', Option.some_bind]
    rw [← trunc_div, scaled_quotient _ _ _ _ _ _ hla (by omega) h0]
    rfl

/-- C1, an instance of `bdiv_quotient`: scenario `10k 355 113 /`. -/
theorem bdiv_quotient_witness :
    bdiv (machine [value.BCODE_NUMBER { number := 113, scale := 0 },
                   value.BCODE_NUMBER { number := 355, scale := 0 }] 10)
      = some { (machine [value.BCODE_NUMBER { number := 113, scale := 0 },
                   value.BCODE_NUMBER { number := 355, scale := 0 }] 10) with
          stack := (value.BCODE_NUMBER
            { number := if (113 : Int) = 0 then 0
                else trunc (val { number := 355, scale := 0 }
                  / val { number := 113, scale := 0 } * 10 ^ 10),
              scale := 10 }) :: [] } :=
  bdiv_quotient (machine [value.BCODE_NUMBER { number := 113, scale := 0 },
                   value.BCODE_NUMBER { number := 355, scale := 0 }] 10)
    { number := 113, scale := 0 } { number := 355, scale := 0 } [] rfl
    (fun _ => by decide)

/-- The scenario `10k 355 113 / p` of the specification: the pushed Number is
`31415929203` at scale `10`. -/
theorem bdiv_scenario :
    bdiv (machine [value.BCODE_NUMBER { number := 113, scale := 0 },
                   value.BCODE_NUMBER { number := 355, scale := 0 }] 10)
      = some (machine [value.BCODE_NUMBER { number := 31415929203, scale := 10 }] 10) := by
  decide

/-! ## C2: `bmul` -/

theorem val_zero_number (s : Nat) : val { number := 0, scale := s } = 0 := by
  simp [val]

/-- C2, as stated, fails: for two operands of scale `2^31` the `u_int` sum of the
scales is `0`, so the product `1 * 1` is pushed with scale `0`, while the claimed
scale `min(a.scale + b.scale, max(k, a.scale, b.scale))` is `2^31`. -/
theorem bmul_scale_wrap :
    bmul (machine [value.BCODE_NUMBER { number := 1, scale := 2147483648 },
                   value.BCODE_NUMBER { number := 1, scale := 2147483648 }] 0)
      = some (machine [value.BCODE_NUMBER { number := 1, scale := 0 }] 0)
    ∧ min (2147483648 + 2147483648) (Nat.max 0 (Nat.max 2147483648 2147483648)) ≠ 0 := by
  decide

/-- C2, amended: provided `a.scale + b.scale < 2^32` and the number of dropped
digits is below `2^31`, `bmul` replaces `a` and `b` by one Number `r` with
`r.scale = min(a.scale + b.scale, max(k, a.scale, b.scale))` and
`r.n = a.n * b.n / 10^(a.scale + b.scale - r.scale)` truncated toward zero; the
product is exact whenever `a.scale + b.scale ≤ max(k, a.scale, b.scale)`. -/
theorem bmul_product (m : bmachine) (a b : number) (rest : List value)
    (hstack : m.stack = value.BCODE_NUMBER a :: value.BCODE_NUMBER b :: rest)
    (hsum : a.scale + b.scale < 4294967296)
    (hdrop : a.scale + b.scale - Nat.max m.scale (Nat.max a.scale b.scale) < 2147483648) :
    ∃ r : number,
      bmul m = some { m with stack := value.BCODE_NUMBER r :: rest } ∧
      r.scale = min (a.scale + b.scale) (Nat.max m.scale (Nat.max a.scale b.scale)) ∧
      r.number = trunc (((a.number * b.number : Int) : ℚ)
        / (((10 : Int) ^ (a.scale + b.scale - r.scale) : Int) : ℚ)) ∧
      (a.scale + b.scale ≤ Nat.max m.scale (Nat.max a.scale b.scale) →
        r.number = a.number * b.number) := by
  have hnum : ∃ r : number, bmul_number m.scale a b m.scale = some r ∧
      r.scale = min (a.scale + b.scale) (Nat.max m.scale (Nat.max a.scale b.scale)) ∧
      r.number = trunc (((a.number * b.number : Int) : ℚ)
        / (((10 : Int) ^ (a.scale + b.scale - r.scale) : Int) : ℚ)) ∧
      (a.scale + b.scale ≤ Nat.max m.scale (Nat.max a.scale b.scale) →
        r.number = a.number * b.number) := by
    unfold bmul_number
    simp only [uadd_of_lt _ _ hsum, max_eq]
    by_cases hg : a.scale + b.scale > m.scale ∧ a.scale + b.scale > a.scale
        ∧ a.scale + b.scale > b.scale
    · have hlt : Nat.max m.scale (Nat.max a.scale b.scale) < a.scale + b.scale := by
        simp only [Nat.max_def]; split_ifs <;> omega
      rw [if_pos hg]
      have hn := normalize_down { number := a.number * b.number, scale := a.scale + b.scale }
        (Nat.max m.scale (Nat.max a.scale b.scale)) hlt hsum hdrop
      simp only at hn
      rw [hn]
      refine ⟨_, rfl, (Nat.min_eq_right (le_of_lt hlt)).symm, ?_, fun h => absurd h (by omega)⟩
      simp only
      rw [trunc_div]
    · have hge : a.scale + b.scale ≤ Nat.max m.scale (Nat.max a.scale b.scale) := by
        simp only [Nat.max_def]; split_ifs <;> omega
      rw [if_neg hg]
      refine ⟨_, rfl, (Nat.min_eq_left hge).symm, ?_, fun _ => rfl⟩
      simp only
      rw [trunc_div, Nat.sub_self, pow_zero, Int.tdiv_one]
  obtain ⟨r, hr, h1, h2, h3⟩ := hnum
  refine ⟨r, ?_, h1, h2, h3⟩
  unfold bmul pop_number push_number
  simp only [hstack, hr, Option.map_some']

/-- C2, an instance of `bmul_product`: scenario `20k 1 3 / 3 *`, the operands
being `0.33333333333333333333` and `3`. -/
theorem bmul_product_witness :
    ∃ r : number,
      bmul (machine [value.BCODE_NUMBER { number := 3, scale := 0 },
            value.BCODE_NUMBER { number := 33333333333333333333, scale := 20 }] 20)
        = some { (machine [value.BCODE_NUMBER { number := 3, scale := 0 },
            value.BCODE_NUMBER { number := 33333333333333333333, scale := 20 }] 20) with
            stack := value.BCODE_NUMBER r :: [] } ∧
      r.scale = min (0 + 20) (Nat.max 20 (Nat.max 0 20)) ∧
      r.number = trunc ((((3 : Int) * 33333333333333333333 : Int) : ℚ)
        / (((10 : Int) ^ (0 + 20 - r.scale) : Int) : ℚ)) ∧
      (0 + 20 ≤ Nat.max 20 (Nat.max 0 20) →
        r.number = (3 : Int) * 33333333333333333333) :=
  bmul_product (machine [value.BCODE_NUMBER { number := 3, scale := 0 },
            value.BCODE_NUMBER { number := 33333333333333333333, scale := 20 }] 20)
    { number := 3, scale := 0 } { number := 33333333333333333333, scale := 20 } [] rfl
    (by decide) (by decide)

/-- The scenario `20k 1 3 / 3 * p` of the specification: the pushed Number is
`99999999999999999999` at scale `20`. -/
theorem bmul_scenario :
    (bdiv (machine [value.BCODE_NUMBER { number := 3, scale := 0 },
                    value.BCODE_NUMBER { number := 1, scale := 0 }] 20)).bind
        (fun m => bmul (push_number m { number := 3, scale := 0 }))
      = some (machine [value.BCODE_NUMBER
          { number := 99999999999999999999, scale := 20 }] 20) := by
  decide

/-! ## C3: `badd` -/

theorem val_scale_up (n : Int) (s t : Nat) (h : s ≤ t) :
    val { number := n * 10 ^ (t - s), scale := t } = val { number := n, scale := s } := by
  unfold val
  simp only
  push_cast
  rw [cast_pow_sub _ _ h]
  have h1 : ((10 : ℚ) ^ s) ≠ 0 := by positivity
  have h2 : ((10 : ℚ) ^ t) ≠ 0 := by positivity
  field_simp
  ring

theorem val_add_same_scale (x y : Int) (s : Nat) :
    val { number := x + y, scale := s }
      = val { number := x, scale := s } + val { number := y, scale := s } := by
  unfold val
  simp only
  push_cast
  rw [add_div]

theorem val_one_scale_zero : val { number := 1, scale := 0 } = 1 := by
  simp [val]

theorem badd_wrap_values (K : Nat) :
    val { number := 0, scale := K }
      ≠ val { number := 0, scale := K } + val { number := 1, scale := 0 } := by
  rw [val_zero_number, val_one_scale_zero]
  norm_num

/-- C3, as stated, fails: with `a = 1` (scale `0`) on top of `b = 0` at scale
`UINT_MAX`, `normalize(a, UINT_MAX)` shifts by `(int)UINT_MAX = -1`, so `a`
becomes `0` and the sum pushed is `0`, whose value is not `0 + 1`. -/
theorem badd_scale_gap :
    badd (machine [value.BCODE_NUMBER { number := 1, scale := 0 },
                   value.BCODE_NUMBER { number := 0, scale := 4294967295 }] 0)
      = some (machine [value.BCODE_NUMBER { number := 0, scale := 4294967295 }] 0)
    ∧ val { number := 0, scale := 4294967295 }
      ≠ val { number := 0, scale := 4294967295 } + val { number := 1, scale := 0 } :=
  ⟨by decide, badd_wrap_values 4294967295⟩

/-- C3, amended: for Numbers `a` (top) and `b` whose scales are `u_int` values
less than `2^31` apart, `badd` replaces them by one Number `r` with
`r.scale = max(a.scale, b.scale)` and `val r = val b + val a` exactly, whatever
the machine scale. -/
theorem badd_exact (m : bmachine) (a b : number) (rest : List value)
    (hstack : m.stack = value.BCODE_NUMBER a :: value.BCODE_NUMBER b :: rest)
    (ha : a.scale < 4294967296) (hb : b.scale < 4294967296)
    (hab : a.scale - b.scale < 2147483648) (hba : b.scale - a.scale < 2147483648) :
    ∃ r : number,
      badd m = some { m with stack := value.BCODE_NUMBER r :: rest } ∧
      r.scale = Nat.max a.scale b.scale ∧
      val r = val b + val a := by
  have hnum : ∃ r : number, badd_number a b = some r ∧
      r.scale = Nat.max a.scale b.scale ∧ val r = val b + val a := by
    unfold badd_number
    rcases lt_trichotomy a.scale b.scale with h | h | h
    · rw [if_pos h, normalize_up a b.scale (le_of_lt h) hb hba]
      refine ⟨_, rfl, (Nat.max_eq_right (le_of_lt h)).symm, ?_⟩
      simp only
      rw [val_add_same_scale, val_scale_up _ _ _ (le_of_lt h), add_comm]
    · rw [if_neg (by omega), if_neg (by omega)]
      refine ⟨_, rfl, by simp [h], ?_⟩
      have e : val { number := a.number + b.number, scale := b.scale }
          = val { number := a.number, scale := a.scale }
            + val { number := b.number, scale := b.scale } := by
        rw [h]; exact val_add_same_scale _ _ _
      rw [e, add_comm]
    · rw [if_neg (by omega), if_pos h, normalize_up b a.scale (le_of_lt h) ha hab]
      refine ⟨_, rfl, (Nat.max_eq_left (le_of_lt h)).symm, ?_⟩
      simp only
      rw [val_add_same_scale, val_scale_up _ _ _ (le_of_lt h), add_comm]
  obtain ⟨r, hr, h1, h2⟩ := hnum
  refine ⟨r, ?_, h1, h2⟩
  unfold badd pop_number push_number
  simp only [hstack, hr, Option.map_some']

/-- C3, an instance of `badd_exact`: scenario `2 3 +`. -/
theorem badd_exact_witness :
    ∃ r : number,
      badd (machine [value.BCODE_NUMBER { number := 3, scale := 0 },
                     value.BCODE_NUMBER { number := 2, scale := 0 }] 0)
        = some { (machine [value.BCODE_NUMBER { number := 3, scale := 0 },
                     value.BCODE_NUMBER { number := 2, scale := 0 }] 0) with
            stack := value.BCODE_NUMBER r :: [] } ∧
      r.scale = Nat.max 0 0 ∧
      val r = val { number := 2, scale := 0 } + val { number := 3, scale := 0 } :=
  badd_exact (machine [value.BCODE_NUMBER { number := 3, scale := 0 },
                     value.BCODE_NUMBER { number := 2, scale := 0 }] 0)
    { number := 3, scale := 0 } { number := 2, scale := 0 } [] rfl
    (by decide) (by decide) (by decide) (by decide)

/-- The scenario `2 3 + p` of the specification: the pushed Number is `5`. -/
theorem badd_scenario :
    badd (machine [value.BCODE_NUMBER { number := 3, scale := 0 },
                   value.BCODE_NUMBER { number := 2, scale := 0 }] 0)
      = some (machine [value.BCODE_NUMBER { number := 5, scale := 0 }] 0) := by
  decide

/-! ## C4: `bsqrt`

The source declares `mpz_t x, y, t, o` and initialises `o`, `x` and `y`, but
never `t`; the result `r` comes from `bmalloc`, not from `new_number`, so
`r->number` is not initialised either. The loop is studied twice: as the source
has it (`t = none`), and from a state in which `t` holds a value, which is what
the three sibling variables get. -/

theorem tdiv_of_nonneg (a b : Int) (ha : 0 ≤ a) (hb : 0 ≤ b) : a.tdiv b = a / b :=
  Int.tdiv_eq_ediv ha hb

/-- One Newton step `y = (x + N / x) / 2` from a positive `x`, against the integer
square root `s` of `N`: the step never goes below `s`, it descends from above
`s`, and from `s` itself it stays or rises by one. -/
theorem newton_step (N x s : Int) (hs0 : 0 < s) (hs1 : s * s ≤ N)
    (hs2 : N < (s + 1) * (s + 1)) (hx : 0 < x) :
    s ≤ (x + N.tdiv x).tdiv 2 ∧
    (s < x → (x + N.tdiv x).tdiv 2 < x) ∧
    (x = s → ((x + N.tdiv x).tdiv 2 = s ∨ (x + N.tdiv x).tdiv 2 = s + 1)) := by
  have hN : 0 ≤ N := le_trans (mul_nonneg (le_of_lt hs0) (le_of_lt hs0)) hs1
  rw [tdiv_of_nonneg N x hN (le_of_lt hx)]
  have hq0 : 0 ≤ N / x := Int.ediv_nonneg hN (le_of_lt hx)
  rw [tdiv_of_nonneg _ 2 (by omega) (by norm_num)]
  have hq1 : N / x * x ≤ N := Int.ediv_mul_le N (ne_of_gt hx)
  have hq2 : N < (N / x + 1) * x := Int.lt_ediv_add_one_mul_self N hx
  generalize N / x = q at hq0 hq1 hq2
  have hy1 : 2 * ((x + q) / 2) ≤ x + q := by omega
  have hy2 : x + q < 2 * ((x + q) / 2) + 2 := by omega
  generalize (x + q) / 2 = y at hy1 hy2
  refine ⟨?_, ?_, ?_⟩
  · by_contra hlt
    have h1 : y + 1 ≤ s := by omega
    have h2 : (y + 1) * (y + 1) ≤ s * s := by nlinarith
    have h3 : x + q + 1 ≤ 2 * (y + 1) := by omega
    nlinarith [sq_nonneg (x - q - 1)]
  · intro hsx
    have h1 : N < x * x := by nlinarith
    have h2 : q < x := by
      by_contra h
      have : x ≤ q := by omega
      nlinarith
    omega
  · intro hxs
    subst hxs
    have h1 : x ≤ q := by
      by_contra h
      have : q + 1 ≤ x := by omega
      nlinarith
    have h2 : q ≤ x + 2 := by
      by_contra h
      have : x + 3 ≤ q := by omega
      nlinarith
    omega

/-- With `t` never initialised the loop of `bsqrt` has no result: its first
round ends in `mpz_set(t, x)`, whatever the operand, the seed and the fuel. -/
theorem bsqrt_loop_uninitialised (fuel : Nat) (N x : Int) (oc : Nat) :
    bsqrt_loop fuel N x none oc = none := by
  cases fuel with
  | zero => rfl
  | succ f =>
    rw [bsqrt_loop]
    cases mpz_tdiv_q N x with
    | none => rfl
    | some q => rfl

/-- One round of the loop of `bsqrt` from a state in which `t` holds a value. -/
theorem bsqrt_loop_succ (fuel : Nat) (N x t0 : Int) (oc : Nat) (hx : x ≠ 0) :
    bsqrt_loop (fuel + 1) N x (some t0) oc =
      if (x + N.tdiv x).tdiv 2 - x ≠ 0 then
        if uadd oc (if (x + N.tdiv x).tdiv 2 - x = 1 then 1 else 0) < 2 then
          bsqrt_loop fuel N ((x + N.tdiv x).tdiv 2) (some ((x + N.tdiv x).tdiv 2 - x))
            (uadd oc (if (x + N.tdiv x).tdiv 2 - x = 1 then 1 else 0))
        else some ((x + N.tdiv x).tdiv 2, (x + N.tdiv x).tdiv 2 - x)
      else some ((x + N.tdiv x).tdiv 2, (x + N.tdiv x).tdiv 2 - x) := by
  rw [bsqrt_loop]
  simp only [mpz_tdiv_q, hx, if_false, Option.some_bind, mpz_set]

/-- The loop of `bsqrt` entered at `x ≥ s` with `onecount = 1` and `t`
initialised. -/
theorem bsqrt_loop_one (N s : Int) (hs0 : 0 < s) (hs1 : s * s ≤ N)
    (hs2 : N < (s + 1) * (s + 1)) :
    ∀ (k : Nat) (x : Int), x = s + k → ∀ (fuel : Nat) (t0 : Int), k + 1 ≤ fuel →
      ∃ y d, bsqrt_loop fuel N x (some t0) 1 = some (y, d) ∧ y - d = s := by
  intro k
  induction k using Nat.strong_induction_on with
  | _ k ih =>
    intro x hx fuel t0 hfuel
    obtain ⟨f, rfl⟩ : ∃ f, fuel = f + 1 := ⟨fuel - 1, by omega⟩
    have hxpos : 0 < x := by omega
    obtain ⟨h1, h2, h3⟩ := newton_step N x s hs0 hs1 hs2 hxpos
    rw [bsqrt_loop_succ f N x t0 1 (ne_of_gt hxpos)]
    generalize (x + N.tdiv x).tdiv 2 = y at h1 h2 h3
    by_cases hk : k = 0
    · subst hk
      have hxs : x = s := by simpa using hx
      rcases h3 hxs with hy | hy
      · refine ⟨y, y - x, ?_, by omega⟩
        have : y - x = 0 := by omega
        simp [this]
      · refine ⟨y, y - x, ?_, by omega⟩
        have : y - x = 1 := by omega
        simp [this, uadd]
    · have hsx : s < x := by omega
      have hyx := h2 hsx
      have hd0 : y - x ≠ 0 := by omega
      have hd1 : ¬ (y - x = 1) := by omega
      simp only [hd0, hd1, if_false, ne_eq, not_false_eq_true, if_true]
      have hu : uadd 1 0 = 1 := by decide
      rw [hu]
      simp only [show (1 : Nat) < 2 by norm_num, if_true]
      have hk2 : (y - s).toNat < k := by omega
      exact ih (y - s).toNat hk2 y (by omega) f _ (by omega)

/-- The loop of `bsqrt` entered at `x ≥ s` with `onecount = 0` and `t`
initialised. -/
theorem bsqrt_loop_zero (N s : Int) (hs0 : 0 < s) (hs1 : s * s ≤ N)
    (hs2 : N < (s + 1) * (s + 1)) :
    ∀ (k : Nat) (x : Int), x = s + k → ∀ (fuel : Nat) (t0 : Int), k + 3 ≤ fuel →
      ∃ y d, bsqrt_loop fuel N x (some t0) 0 = some (y, d) ∧ y - d = s := by
  intro k
  induction k using Nat.strong_induction_on with
  | _ k ih =>
    intro x hx fuel t0 hfuel
    obtain ⟨f, rfl⟩ : ∃ f, fuel = f + 1 := ⟨fuel - 1, by omega⟩
    have hxpos : 0 < x := by omega
    obtain ⟨h1, h2, h3⟩ := newton_step N x s hs0 hs1 hs2 hxpos
    rw [bsqrt_loop_succ f N x t0 0 (ne_of_gt hxpos)]
    generalize (x + N.tdiv x).tdiv 2 = y at h1 h2 h3
    by_cases hk : k = 0
    · subst hk
      have hxs : x = s := by simpa using hx
      rcases h3 hxs with hy | hy
      · refine ⟨y, y - x, ?_, by omega⟩
        have : y - x = 0 := by omega
        simp [this]
      · have hd : y - x = 1 := by omega
        have hu : uadd 0 1 = 1 := by decide
        simp only [hd, if_true, hu, ne_eq, one_ne_zero, not_false_eq_true,
          show (1 : Nat) < 2 by norm_num]
        exact bsqrt_loop_one N s hs0 hs1 hs2 1 y (by omega) f _ (by omega)
    · have hsx : s < x := by omega
      have hyx := h2 hsx
      have hd0 : y - x ≠ 0 := by omega
      have hd1 : ¬ (y - x = 1) := by omega
      simp only [hd0, hd1, if_false, ne_eq, not_false_eq_true, if_true]
      have hu : uadd 0 0 = 0 := by decide
      rw [hu]
      simp only [show (0 : Nat) < 2 by norm_num, if_true]
      have hk2 : (y - s).toNat < k := by omega
      exact ih (y - s).toNat hk2 y (by omega) f _ (by omega)

/-- The loop of `bsqrt` from any seed `1 ≤ x ≤ N` and an initialised `t`: with
fuel `N + 4` or more it ends, and `x - y` at its end is the integer square root
`s` of `N`. -/
theorem bsqrt_loop_result (N s x t0 : Int) (hs0 : 0 < s) (hs1 : s * s ≤ N)
    (hs2 : N < (s + 1) * (s + 1)) (hx1 : 0 < x) (hx2 : x ≤ N)
    (fuel : Nat) (hfuel : N.toNat + 4 ≤ fuel) :
    ∃ y d, bsqrt_loop fuel N x (some t0) 0 = some (y, d) ∧ y - d = s := by
  have hsN : s ≤ N := by nlinarith
  rcases le_or_lt s x with hsx | hxs
  · exact bsqrt_loop_zero N s hs0 hs1 hs2 (x - s).toNat x (by omega) fuel t0 (by omega)
  · obtain ⟨f, rfl⟩ : ∃ f, fuel = f + 1 := ⟨fuel - 1, by omega⟩
    obtain ⟨h1, -, -⟩ := newton_step N x s hs0 hs1 hs2 hx1
    have hyN : (x + N.tdiv x).tdiv 2 ≤ N := by
      have hN : 0 ≤ N := by omega
      rw [tdiv_of_nonneg N x hN (le_of_lt hx1)]
      have hq0 : 0 ≤ N / x := Int.ediv_nonneg hN (le_of_lt hx1)
      rw [tdiv_of_nonneg _ 2 (by omega) (by norm_num)]
      have hq : N / x ≤ N := Int.ediv_le_self x hN
      omega
    rw [bsqrt_loop_succ f N x t0 0 (ne_of_gt hx1)]
    generalize (x + N.tdiv x).tdiv 2 = y at h1 hyN
    have hd0 : y - x ≠ 0 := by omega
    simp only [hd0, ne_eq, not_false_eq_true, if_true]
    by_cases hd1 : y - x = 1
    · have hu : uadd 0 1 = 1 := by decide
      simp only [hd1, if_true, hu, show (1 : Nat) < 2 by norm_num]
      exact bsqrt_loop_one N s hs0 hs1 hs2 (y - s).toNat y (by omega) f _ (by omega)
    · have hu : uadd 0 0 = 0 := by decide
      simp only [hd1, if_false, hu, show (0 : Nat) < 2 by norm_num, if_true]
      exact bsqrt_loop_zero N s hs0 hs1 hs2 (y - s).toNat y (by omega) f _ (by omega)


theorem bit_count_bounds : ∀ (fuel x : Nat), x ≤ fuel → 0 < x →
    1 ≤ bit_count fuel x ∧ 2 ^ (bit_count fuel x - 1) ≤ x ∧ x < 2 ^ (bit_count fuel x) := by
  intro fuel
  induction fuel with
  | zero => intro x h hx; omega
  | succ f ih =>
    intro x h hx
    have hx0 : x ≠ 0 := by omega
    rw [bit_count]
    simp only [hx0, if_false]
    by_cases h2 : x / 2 = 0
    · have hx1 : x = 1 := by omega
      subst hx1
      have : bit_count f (1 / 2) = 0 := by
        cases f with
        | zero => rfl
        | succ g => rw [bit_count]; simp
      rw [this]
      simp
    · have hpos : 0 < x / 2 := Nat.pos_of_ne_zero h2
      obtain ⟨a, b, c⟩ := ih (x / 2) (by omega) hpos
      refine ⟨by omega, ?_, ?_⟩
      · have e : bit_count f (x / 2) + 1 - 1 = (bit_count f (x / 2) - 1) + 1 := by omega
        rw [e, pow_succ]
        omega
      · rw [pow_succ]
        omega

theorem sizeinbase2_bounds (N : Int) (hN : 0 < N) :
    1 ≤ sizeinbase2 N ∧ (2 : Int) ^ (sizeinbase2 N - 1) ≤ N ∧ N < (2 : Int) ^ (sizeinbase2 N) := by
  unfold sizeinbase2
  rw [if_neg (ne_of_gt hN)]
  have hpos : 0 < N.natAbs := Int.natAbs_pos.mpr (ne_of_gt hN)
  obtain ⟨a, b, c⟩ := bit_count_bounds N.natAbs N.natAbs le_rfl hpos
  have hcast : ((N.natAbs : Nat) : Int) = N := Int.natAbs_of_nonneg (le_of_lt hN)
  refine ⟨a, ?_, ?_⟩
  · have : ((2 ^ (bit_count N.natAbs N.natAbs - 1) : Nat) : Int) ≤ ((N.natAbs : Nat) : Int) := by
      exact_mod_cast b
    rw [hcast] at this
    simpa using this
  · have : ((N.natAbs : Nat) : Int) < ((2 ^ (bit_count N.natAbs N.natAbs) : Nat) : Int) := by
      exact_mod_cast c
    rw [hcast] at this
    simpa using this

/-- The seed `N >> (bits(N) / 2)` of the loop of `bsqrt` lies in `[1, N]`. -/
theorem bsqrt_seed (N : Int) (hN : 0 < N) :
    0 < N.tdiv (2 ^ (sizeinbase2 N / 2)) ∧ N.tdiv (2 ^ (sizeinbase2 N / 2)) ≤ N := by
  obtain ⟨a, b, _⟩ := sizeinbase2_bounds N hN
  have hp : (0 : Int) < 2 ^ (sizeinbase2 N / 2) := by positivity
  rw [tdiv_of_nonneg N _ (le_of_lt hN) (le_of_lt hp)]
  constructor
  · have hle : (2 : Int) ^ (sizeinbase2 N / 2) ≤ 2 ^ (sizeinbase2 N - 1) :=
      pow_le_pow_right₀ (by norm_num) (by omega)
    have : (1 : Int) ≤ N / 2 ^ (sizeinbase2 N / 2) :=
      Int.le_ediv_of_mul_le hp (by linarith)
    omega
  · exact Int.ediv_le_self _ (le_of_lt hN)

theorem exists_isqrt (N : Int) (hN : 0 < N) :
    ∃ s : Int, 0 < s ∧ s * s ≤ N ∧ N < (s + 1) * (s + 1) := by
  refine ⟨(Nat.sqrt N.toNat : Int), ?_, ?_, ?_⟩
  · have : 0 < Nat.sqrt N.toNat := Nat.sqrt_pos.mpr (by omega)
    exact_mod_cast this
  · have h := Nat.sqrt_le N.toNat
    have : ((Nat.sqrt N.toNat * Nat.sqrt N.toNat : Nat) : Int) ≤ (N.toNat : Int) := by
      exact_mod_cast h
    rw [Int.toNat_of_nonneg (le_of_lt hN)] at this
    simpa using this
  · have h := Nat.lt_succ_sqrt N.toNat
    have : ((N.toNat : Nat) : Int) < (((Nat.sqrt N.toNat).succ * (Nat.sqrt N.toNat).succ : Nat) : Int) := by
      exact_mod_cast h
    rw [Int.toNat_of_nonneg (le_of_lt hN)] at this
    simpa using this

theorem umul_of_lt (a b : Nat) (h : a * b < 4294967296) : umul a b = a * b := by
  unfold umul; omega

/-- On a positive operand `bsqrt` has no result, whatever the machine scale and
the fuel: `normalize` aborts, or the first round of the loop ends in
`mpz_set(t, x)` on the uninitialised `t`. -/
theorem bsqrt_positive_no_result (m : bmachine) (n : number) (rest : List value)
    (hstack : m.stack = value.BCODE_NUMBER n :: rest) (hpos : 0 < n.number) (fuel : Nat) :
    bsqrt fuel m = none := by
  unfold bsqrt pop_number
  simp only [hstack, ne_of_gt hpos, if_false, not_lt.mpr (le_of_lt hpos)]
  cases normalize n (umul 2 (max m.scale n.scale)) with
  | none => rfl
  | some n1 => simp only [Option.some_bind, bsqrt_loop_uninitialised, Option.none_bind]

/-- On zero `bsqrt` pushes zero, and on a negative operand it pushes nothing:
these two paths do not reach the loop. -/
theorem bsqrt_nonpositive (m : bmachine) (n : number) (rest : List value)
    (hstack : m.stack = value.BCODE_NUMBER n :: rest) (fuel : Nat) :
    (n.number = 0 →
      bsqrt fuel m = some { m with
        stack := value.BCODE_NUMBER { number := 0, scale := 0 } :: rest })
    ∧ (n.number < 0 → bsqrt fuel m = some { m with stack := rest }) := by
  constructor
  · intro h0
    unfold bsqrt pop_number push_number new_number
    simp [hstack, h0]
  · intro hneg
    unfold bsqrt pop_number
    simp [hstack, ne_of_lt hneg, hneg]

/-- The loop of `bsqrt` from its own seed and an initialised `t`, for the operand
`N > 0`: with fuel `N + 4` or more it ends, and `x - y` at its end is the integer
square root of `N`. -/
theorem bsqrt_loop_isqrt (N t0 : Int) (hN : 0 < N) (fuel : Nat) (hfuel : N.toNat + 4 ≤ fuel) :
    ∃ y d, bsqrt_loop fuel N (N.tdiv (2 ^ (sizeinbase2 N / 2))) (some t0) 0 = some (y, d) ∧
      0 ≤ y - d ∧ (y - d) ^ 2 ≤ N ∧ N < (y - d + 1) ^ 2 := by
  obtain ⟨s, hs0, hs1, hs2⟩ := exists_isqrt N hN
  obtain ⟨hx1, hx2⟩ := bsqrt_seed N hN
  obtain ⟨y, d, hloop, hyd⟩ := bsqrt_loop_result N s _ t0 hs0 hs1 hs2 hx1 hx2 fuel hfuel
  refine ⟨y, d, hloop, ?_, ?_, ?_⟩
  · omega
  · rw [hyd]; simpa [sq] using hs1
  · rw [hyd]; simpa [sq] using hs2

/-- C4 fails on the code. On `10k 2 v` the operand is normalized to
`N = 2 * 10^20` and the loop is entered with the seed `N >> (bits(N) / 2)`, but
for every fuel `bsqrt` has no result: the first round of the loop calls
`mpz_set(t, x)` on the local `t`, which was never initialised (and the result
would be stored by `mpz_set(r->number, y)` into memory from a bare `bmalloc`).
The claim asks for the push of `14142135623` at scale `10`, and that is what the
loop computes once `t` holds a value: from the same seed it ends within `100`
rounds with `x = 14142135623` and `y = 0`, so `x - y = 14142135623`. -/
theorem bsqrt_uninitialised_operand :
    (∀ fuel : Nat,
      bsqrt fuel (machine [value.BCODE_NUMBER { number := 2, scale := 0 }] 10) = none)
    ∧ normalize { number := 2, scale := 0 } (umul 2 (max 10 0))
        = some { number := 200000000000000000000, scale := 20 }
    ∧ (∀ fuel : Nat, bsqrt_loop fuel 200000000000000000000
        ((200000000000000000000 : Int).tdiv (2 ^ (sizeinbase2 200000000000000000000 / 2)))
        none 0 = none)
    ∧ bsqrt_loop 100 200000000000000000000
        ((200000000000000000000 : Int).tdiv (2 ^ (sizeinbase2 200000000000000000000 / 2)))
        (some 0) 0 = some (14142135623, 0) :=
  ⟨fun fuel => bsqrt_positive_no_result _ { number := 2, scale := 0 } [] rfl (by decide) fuel,
    by decide,
    fun fuel => bsqrt_loop_uninitialised fuel _ _ _,
    by decide⟩

/-! ## C5: `bexp` on a base of scale zero -/

theorem normalize_same (n : number) : normalize n n.scale = some n := by
  unfold normalize
  have h : usub n.scale n.scale = 0 := by unfold usub; omega
  rw [h]
  have h2 : to_int 0 = 0 := by decide
  rw [h2]
  simp [scale_number]

theorem bmul_number_scale_zero (k : Nat) (x y : number) (sc : Nat)
    (hx : x.scale = 0) (hy : y.scale = 0) :
    bmul_number k x y sc = some { number := x.number * y.number, scale := 0 } := by
  unfold bmul_number
  simp [hx, hy, uadd]

theorem tstbit0_iff (p : Nat) : tstbit0 p = true ↔ p % 2 = 1 := by
  unfold tstbit0; simp

/-- The first loop of `bexp` on a base of scale zero keeps `a^p` and ends on an
odd `p`. -/
theorem bexp_loop1_scale_zero (k : Nat) : ∀ (fuel p : Nat) (a : number),
    a.scale = 0 → 0 < p → p ≤ fuel →
    ∃ s1 : number × Nat × Nat, bexp_loop1 fuel k a 0 p = some s1 ∧
      s1.1.scale = 0 ∧ s1.2.1 = 0 ∧ s1.2.2 % 2 = 1 ∧
      s1.1.number ^ s1.2.2 = a.number ^ p := by
  intro fuel
  induction fuel with
  | zero => intro p a _ hp hle; omega
  | succ f ih =>
    intro p a ha hp hle
    rw [bexp_loop1]
    by_cases hodd : p % 2 = 1
    · rw [if_pos ((tstbit0_iff p).mpr hodd)]
      exact ⟨_, rfl, ha, rfl, hodd, rfl⟩
    · have hne : ¬ (tstbit0 p = true) := fun h => hodd ((tstbit0_iff p).mp h)
      rw [if_neg hne]
      have hu : umul 0 2 = 0 := by decide
      simp only [hu]
      rw [bmul_number_scale_zero k a a 0 ha ha, Option.some_bind]
      obtain ⟨s1, h0, h1, h2, h3, h4⟩ :=
        ih (p / 2) { number := a.number * a.number, scale := 0 } rfl (by omega) (by omega)
      refine ⟨s1, h0, h1, h2, h3, ?_⟩
      rw [h4]
      simp only
      have e : p = 2 * (p / 2) := by omega
      conv_rhs => rw [e, pow_mul, sq]

/-- The second loop of `bexp` on operands of scale zero multiplies `r` by
`(a^2)^p`. -/
theorem bexp_loop2_scale_zero (k : Nat) : ∀ (fuel p : Nat) (a r : number),
    a.scale = 0 → r.scale = 0 → p < fuel →
    bexp_loop2 fuel k a r 0 0 p
      = some { number := r.number * (a.number * a.number) ^ p, scale := 0 } := by
  intro fuel
  induction fuel with
  | zero => intro p a r _ _ hlt; omega
  | succ f ih =>
    intro p a r ha hr hlt
    rw [bexp_loop2]
    by_cases hp : p = 0
    · subst hp
      simp only [if_true, pow_zero, mul_one]
      cases r
      simp only at hr
      subst hr
      rfl
    · rw [if_neg hp]
      have hu : umul 0 2 = 0 := by decide
      have hu2 : uadd 0 0 = 0 := by decide
      simp only [hu, hu2]
      rw [bmul_number_scale_zero k a a 0 ha ha, Option.some_bind]
      by_cases hodd : p % 2 = 1
      · rw [if_pos ((tstbit0_iff p).mpr hodd)]
        rw [bmul_number_scale_zero k r _ 0 hr rfl, Option.some_bind]
        rw [ih (p / 2) _ _ rfl rfl (by omega)]
        simp only
        have e : p = 2 * (p / 2) + 1 := by omega
        conv_rhs => rw [e, pow_succ, pow_mul, sq]
        congr 2
        ring
      · have hne : ¬ (tstbit0 p = true) := fun h => hodd ((tstbit0_iff p).mp h)
        rw [if_neg hne]
        rw [ih (p / 2) _ _ rfl hr (by omega)]
        simp only
        have e : p = 2 * (p / 2) := by omega
        conv_rhs => rw [e, pow_mul, sq]

/-- The integer exponent read by `bexp` from a Number whose value is the
integer `e`. -/
theorem bexp_exponent_of_integer (p : number) (e : Int)
    (hp : p.number = e * 10 ^ p.scale) : bexp_exponent p = e := by
  unfold bexp_exponent split_number
  by_cases h0 : p.scale = 0
  · simp [h0, hp]
  · simp only [h0, ne_eq, not_false_eq_true, if_true, if_false]
    by_cases h10 : p.scale < 10
    · rw [if_pos h10]
      simp only
      rw [factors_getD _ (by omega) h10, hp]
      push_cast
      exact Int.mul_tdiv_cancel _ (by positivity)
    · rw [if_neg h10]
      simp only
      rw [hp]
      exact Int.mul_tdiv_cancel _ (by positivity)

/-- C5: for a base `a` of scale `0` (below the exponent `p` on the stack) and an
exponent whose value is the integer `e ≥ 0`, of any size and any scale, `bexp`
replaces both by the Number of scale `0` and integer `a.n^e`; in particular
`a^0 = 1`, also for `a = 0`. -/
theorem bexp_integer_power (m : bmachine) (a p : number) (e : Nat) (rest : List value)
    (hstack : m.stack = value.BCODE_NUMBER p :: value.BCODE_NUMBER a :: rest)
    (ha : a.scale = 0) (hp : p.number = (e : Int) * 10 ^ p.scale) :
    bexp m = some { m with stack := (value.BCODE_NUMBER
      { number := a.number ^ e, scale := 0 }) :: rest } := by
  have hexp := bexp_exponent_of_integer p e hp
  have hrs : bexp_rscale m.scale a (e : Int) = 0 := by
    unfold bexp_rscale
    simp [ha, umul]
  have hnum : bexp_number m.scale a p = some { number := a.number ^ e, scale := 0 } := by
    unfold bexp_number
    simp only [hexp, hrs, Int.natAbs_ofNat]
    by_cases he : e = 0
    · subst he
      simp only [if_true, pow_zero]
      exact normalize_same { number := 1, scale := 0 }
    · rw [if_neg he]
      have hneg : ¬ ((e : Int) < 0) := by omega
      simp only [hneg, decide_False, Bool.false_eq_true, if_false, ha]
      obtain ⟨s1, h0, h1, h2, h3, h4⟩ :=
        bexp_loop1_scale_zero m.scale e e a ha (by omega) le_rfl
      rw [h0, Option.some_bind, h2]
      rw [bexp_loop2_scale_zero m.scale _ _ _ _ h1 (by simp [dup_number, h1]) (by omega),
        Option.some_bind]
      have hn := normalize_same
        { number := (dup_number s1.1).number * (s1.1.number * s1.1.number) ^ (s1.2.2 / 2),
          scale := 0 }
      simp only at hn
      rw [hn, ← h4]
      congr 2
      simp only [dup_number]
      have e2 : s1.2.2 = 2 * (s1.2.2 / 2) + 1 := by omega
      conv_rhs => rw [e2, pow_succ, pow_mul, sq]
      exact mul_comm _ _
  unfold bexp pop_number push_number
  simp only [hstack, hnum, Option.map_some']

/-- C5, an instance of `bexp_integer_power`: `0^0 = 1`, the exponent being
written `0.0`. -/
theorem bexp_integer_power_witness :
    bexp (machine [value.BCODE_NUMBER { number := 0, scale := 1 },
                   value.BCODE_NUMBER { number := 0, scale := 0 }] 0)
      = some { (machine [value.BCODE_NUMBER { number := 0, scale := 1 },
                   value.BCODE_NUMBER { number := 0, scale := 0 }] 0) with
          stack := value.BCODE_NUMBER { number := (0 : Int) ^ 0, scale := 0 } :: [] } :=
  bexp_integer_power (machine [value.BCODE_NUMBER { number := 0, scale := 1 },
                   value.BCODE_NUMBER { number := 0, scale := 0 }] 0)
    { number := 0, scale := 0 } { number := 0, scale := 1 } 0 [] rfl rfl (by decide)

/-- The scenario `2 10 ^ p` of the specification: the pushed Number is `1024`. -/
theorem bexp_scenario :
    bexp (machine [value.BCODE_NUMBER { number := 10, scale := 0 },
                   value.BCODE_NUMBER { number := 2, scale := 0 }] 0)
      = some (machine [value.BCODE_NUMBER { number := 1024, scale := 0 }] 0) := by
  decide

/-! ## C6: the scale of the result of `bexp` -/

/-- The Number left by `normalize` carries the target scale. -/
theorem normalize_scale (n r : number) (s : Nat) (h : normalize n s = some r) :
    r.scale = s := by
  unfold normalize at h
  simp only [Option.map_eq_some'] at h
  obtain ⟨x, _, hx⟩ := h
  rw [← hx]

/-- The Number computed by `bexp` always carries the scale `rscale`. -/
theorem bexp_number_scale (k : Nat) (a p r : number) (h : bexp_number k a p = some r) :
    r.scale = bexp_rscale k a (bexp_exponent p) := by
  unfold bexp_number at h
  simp only at h
  by_cases he : (bexp_exponent p).natAbs = 0
  · rw [if_pos he] at h
    exact normalize_scale _ _ _ h
  · rw [if_neg he] at h
    simp only [Option.bind_eq_some] at h
    obtain ⟨s1, _, r1, _, h⟩ := h
    by_cases hneg : decide (bexp_exponent p < 0) = true
    · rw [if_pos hneg] at h
      simp only [Option.map_eq_some'] at h
      obtain ⟨one, _, h⟩ := h
      rw [← h]
      split_ifs <;> rfl
    · rw [if_neg hneg] at h
      exact normalize_scale _ _ _ h

theorem bexp_on_two_numbers (m : bmachine) (a p : number) (rest : List value)
    (hstack : m.stack = value.BCODE_NUMBER p :: value.BCODE_NUMBER a :: rest) :
    bexp m = (bexp_number m.scale a p).map
      (fun r => { m with stack := value.BCODE_NUMBER r :: rest }) := by
  unfold bexp pop_number push_number
  simp only [hstack]

/-- Squaring inside the loops of `bexp`: the target scale `2 * a.scale` is the
scale of the product, so `normalize` shifts by zero and the product is exact. -/
theorem bmul_number_square (k : Nat) (a : number) :
    bmul_number k a a (umul a.scale 2)
      = some { number := a.number * a.number, scale := umul a.scale 2 } := by
  unfold bmul_number
  have e : uadd a.scale a.scale = umul a.scale 2 := by unfold uadd umul; omega
  simp only [e]
  by_cases hg : umul a.scale 2 > k ∧ umul a.scale 2 > a.scale ∧ umul a.scale 2 > a.scale
  · rw [if_pos hg]
    have hm : max (umul a.scale 2) (max a.scale a.scale) = umul a.scale 2 := by
      unfold max
      have h1 : ¬ (a.scale > a.scale) := lt_irrefl _
      rw [if_neg h1, if_pos hg.2.1]
    rw [hm]
    exact normalize_same { number := a.number * a.number, scale := umul a.scale 2 }
  · rw [if_neg hg]

/-- The first loop of `bexp` on the exponent `2^j`: `j` squarings, the scale
doubling in `u_int` each time. -/
theorem bexp_loop1_pow_two (k : Nat) : ∀ (j fuel : Nat) (a : number),
    j < fuel → a.scale < 4294967296 →
    bexp_loop1 fuel k a a.scale (2 ^ j)
      = some ({ number := a.number ^ (2 ^ j), scale := (a.scale * 2 ^ j) % 4294967296 },
          (a.scale * 2 ^ j) % 4294967296, 1) := by
  intro j
  induction j with
  | zero =>
    intro fuel a hf ha
    obtain ⟨f, rfl⟩ : ∃ f, fuel = f + 1 := ⟨fuel - 1, by omega⟩
    rw [bexp_loop1]
    have ht : tstbit0 (2 ^ 0) = true := by decide
    rw [if_pos ht]
    have e : a.scale * 2 ^ 0 % 4294967296 = a.scale := by
      rw [pow_zero, Nat.mul_one]; exact Nat.mod_eq_of_lt ha
    rw [e, pow_zero, pow_one]
  | succ j ih =>
    intro fuel a hf ha
    obtain ⟨f, rfl⟩ : ∃ f, fuel = f + 1 := ⟨fuel - 1, by omega⟩
    rw [bexp_loop1]
    have hne : ¬ (tstbit0 (2 ^ (j + 1)) = true) := by
      rw [tstbit0_iff, pow_succ]
      omega
    rw [if_neg hne]
    simp only
    rw [bmul_number_square, Option.some_bind]
    have hhalf : 2 ^ (j + 1) / 2 = 2 ^ j := by rw [pow_succ]; omega
    have hs : umul a.scale 2 < 4294967296 := by unfold umul; omega
    have h := ih f { number := a.number * a.number, scale := umul a.scale 2 } (by omega) hs
    simp only at h
    rw [hhalf, h]
    have e1 : umul a.scale 2 * 2 ^ j % 4294967296 = a.scale * 2 ^ (j + 1) % 4294967296 := by
      unfold umul
      rw [Nat.mod_mul_mod, pow_succ]
      congr 1
      ring
    have e2 : (a.number * a.number) ^ (2 ^ j) = a.number ^ (2 ^ (j + 1)) := by
      rw [← sq, ← pow_mul, pow_succ, Nat.mul_comm]
    rw [e1, e2]

/-- The Number computed by `bexp` for the base `0.1` and the exponent `2^64` at
machine scale `0`: the loops square `64` times, the scale wraps to `0`. -/
theorem bexp_number_large_exponent :
    bexp_number 0 { number := 1, scale := 1 } { number := 18446744073709551616, scale := 0 }
      = some { number := 1, scale := 0 } := by
  have hexp : bexp_exponent { number := 18446744073709551616, scale := 0 }
      = 18446744073709551616 := by decide
  have hrs : bexp_rscale 0 { number := 1, scale := 1 } 18446744073709551616 = 0 := by decide
  have hp : (18446744073709551616 : Nat) = 2 ^ 64 := by norm_num
  have hl := bexp_loop1_pow_two 0 64 (2 ^ 64) { number := 1, scale := 1 }
    (by norm_num) (by norm_num)
  simp only [one_pow, Nat.one_mul] at hl
  have hm : 2 ^ 64 % 4294967296 = 0 := by norm_num
  rw [hm] at hl
  unfold bexp_number
  simp only [hexp, hrs]
  have hna : (18446744073709551616 : Int).natAbs = 2 ^ 64 := by norm_num
  rw [hna]
  have hne : ¬ ((2 : Nat) ^ 64 = 0) := by norm_num
  rw [if_neg hne, hl, Option.some_bind]
  have hneg : ¬ ((18446744073709551616 : Int) < 0) := by norm_num
  simp only [hneg, decide_False, Bool.false_eq_true, if_false, dup_number]
  have h2 : bexp_loop2 (1 / 2 + 1) 0 { number := 1, scale := 0 } { number := 1, scale := 0 }
      0 0 (1 / 2) = some { number := 1, scale := 0 } := by decide
  rw [h2, Option.some_bind]
  exact normalize_same { number := 1, scale := 0 }

/-- C6 fails on the code: for the base `0.1` (scale `1`) and the exponent `2^64`
at machine scale `0`, `mpz_get_ui` returns the low limb `0` of the exponent, so
`rscale = 1 * 0 = 0` passes the guard and the Number pushed by `bexp` has scale
`0`; the claimed scale `min(a.scale * e, max(a.scale, k))` is `1`. -/
theorem bexp_scale_large_exponent :
    ∃ r : number,
      bexp (machine [value.BCODE_NUMBER { number := 18446744073709551616, scale := 0 },
                     value.BCODE_NUMBER { number := 1, scale := 1 }] 0)
        = some (machine [value.BCODE_NUMBER r] 0)
      ∧ r.scale = 0
      ∧ min (1 * 18446744073709551616) (Nat.max 1 0) = 1 :=
  ⟨{ number := 1, scale := 0 },
    (bexp_on_two_numbers _ _ _ [] rfl).trans
      (by rw [show (machine [value.BCODE_NUMBER { number := 18446744073709551616, scale := 0 },
            value.BCODE_NUMBER { number := 1, scale := 1 }] 0).scale = 0 from rfl,
          bexp_number_large_exponent]; rfl),
    rfl, by decide⟩

/-- The `u_int` product `a.scale * (u_int)b` of `bexp` wraps as well: for a base of
scale `65536` and the exponent `65536` at machine scale `0` the result scale is
`0`, while `min(a.scale * e, max(a.scale, k))` is `65536`. -/
theorem bexp_scale_product_wrap :
    (bexp_number 0 { number := 1, scale := 65536 } { number := 65536, scale := 0 }).map
        (fun r => r.scale) = some 0
    ∧ min (65536 * 65536) (Nat.max 65536 0) = 65536 := by
  decide

/-! ## C7: `bmod` -/

/-- C7, as stated, fails: at machine scale `UINT_MAX` and `a.scale = 1` the
`u_int` sum `a.scale + k` is `0`, so `1 0.1 %` pushes a Number of scale `0`,
while `max(b.scale, a.scale + k)` is `2^32`. -/
theorem bmod_scale_wrap :
    bmod (machine [value.BCODE_NUMBER { number := 1, scale := 1 },
                   value.BCODE_NUMBER { number := 1, scale := 0 }] 4294967295)
      = some (machine [value.BCODE_NUMBER { number := 0, scale := 0 }] 4294967295)
    ∧ Nat.max 0 (1 + 4294967295) ≠ 0 := by
  decide

theorem tmod_eq_sub_trunc (b a : Int) :
    b.tmod a = b - trunc ((b : ℚ) / (a : ℚ)) * a := by
  rw [trunc_div]
  have := Int.tmod_add_tdiv b a
  linarith

/-- The push itself is not unconditional either: for `a = 1` (scale `0`) on top of
`b = 0` at scale `UINT_MAX`, `normalize(a, UINT_MAX)` shifts by `(int)UINT_MAX = -1`
and makes the divisor `0`; `mpz_tdiv_r` then divides by zero and nothing is pushed. -/
theorem bmod_divisor_vanishes :
    bmod (machine [value.BCODE_NUMBER { number := 1, scale := 0 },
                   value.BCODE_NUMBER { number := 0, scale := 4294967295 }] 0)
      = none := by
  decide

/-- C7, amended: with `a` on top of `b`, `k = m.scale` and `a.scale + k < 2^32`.
When `a.n = 0`, `bmod` replaces both by one Number of scale
`max(b.scale, a.scale + k)` and integer `0`. When `a.n ≠ 0` and the scales fit
the C types (`S + k < 2^32`, `S - a.scale < 2^31`, `S + k - b.scale < 2^31`,
`S = max(a.scale, b.scale)`), `bmod` replaces both by one Number `r` with
`r.scale = max(b.scale, a.scale + k)` and `r.n = b1 - trunc(b1 / a1) * a1` for
`a1 = a.n * 10^(S - a.scale)` and `b1 = b.n * 10^(S + k - b.scale)`. Nothing is
said of a non-zero divisor whose scales do not fit. -/
theorem bmod_remainder (m : bmachine) (a b : number) (rest : List value)
    (hstack : m.stack = value.BCODE_NUMBER a :: value.BCODE_NUMBER b :: rest)
    (hk : a.scale + m.scale < 4294967296)
    (hfit : a.number ≠ 0 →
      Nat.max a.scale b.scale + m.scale < 4294967296 ∧
      Nat.max a.scale b.scale - a.scale < 2147483648 ∧
      Nat.max a.scale b.scale + m.scale - b.scale < 2147483648) :
    bmod m = some { m with stack := (value.BCODE_NUMBER
      { number :=
          if a.number = 0 then 0
          else
            b.number * 10 ^ (Nat.max a.scale b.scale + m.scale - b.scale)
              - trunc (((b.number * 10 ^ (Nat.max a.scale b.scale + m.scale - b.scale) : Int) : ℚ)
                  / ((a.number * 10 ^ (Nat.max a.scale b.scale - a.scale) : Int) : ℚ))
                * (a.number * 10 ^ (Nat.max a.scale b.scale - a.scale)),
        scale := Nat.max b.scale (a.scale + m.scale) }) :: rest } := by
  unfold bmod pop_number push_number
  simp only [hstack, bmod_number, max_eq, uadd_of_lt _ _ hk]
  by_cases h0 : a.number = 0
  · simp [h0]
  · obtain ⟨hS, ha, hb⟩ := hfit h0
    have hla : a.scale ≤ Nat.max a.scale b.scale := Nat.le_max_left _ _
    have hlb : b.scale ≤ Nat.max a.scale b.scale := Nat.le_max_right _ _
    rw [uadd_of_lt _ _ hS, normalize_up a _ hla (by omega) ha,
      normalize_up b _ (by omega) hS hb]
    have hne : a.number * 10 ^ (Nat.max a.scale b.scale - a.scale) ≠ 0 :=
      mul_ne_zero h0 (by positivity)
    simp only [h0, if_false, mpz_tdiv_r, hne, Option.map_some', Option.some_bind]
    rw [← tmod_eq_sub_trunc]

/-- C7, an instance of `bmod_remainder`: `7 2 %` at machine scale `3`. -/
theorem bmod_remainder_witness :
    bmod (machine [value.BCODE_NUMBER { number := 2, scale := 0 },
                   value.BCODE_NUMBER { number := 7, scale := 0 }] 3)
      = some { (machine [value.BCODE_NUMBER { number := 2, scale := 0 },
                   value.BCODE_NUMBER { number := 7, scale := 0 }] 3) with
          stack := (value.BCODE_NUMBER
            { number :=
                if (2 : Int) = 0 then 0
                else
                  (7 : Int) * 10 ^ (Nat.max 0 0 + 3 - 0)
                    - trunc ((((7 : Int) * 10 ^ (Nat.max 0 0 + 3 - 0) : Int) : ℚ)
                        / (((2 : Int) * 10 ^ (Nat.max 0 0 - 0) : Int) : ℚ))
                      * ((2 : Int) * 10 ^ (Nat.max 0 0 - 0)),
              scale := Nat.max 0 (0 + 3) }) :: [] } :=
  bmod_remainder (machine [value.BCODE_NUMBER { number := 2, scale := 0 },
                   value.BCODE_NUMBER { number := 7, scale := 0 }] 3)
    { number := 2, scale := 0 } { number := 7, scale := 0 } [] rfl
    (by decide) (fun _ => by decide)

/-! ## C8: `bdivmod` against `bdiv` and `bmod` -/

/-- C8, as stated, fails: for `a = 1` (scale `0`) on top of `b = 0` at scale
`UINT_MAX`, `normalize(a, UINT_MAX)` shifts by `(int)UINT_MAX = -1` and makes the
divisor `0`; `mpz_tdiv_qr` then divides by zero and nothing is pushed. -/
theorem bdivmod_divisor_vanishes :
    bdivmod (machine [value.BCODE_NUMBER { number := 1, scale := 0 },
                      value.BCODE_NUMBER { number := 0, scale := 4294967295 }] 0)
      = none := by
  decide

/-- The three opcodes also end without a push on a shift of exactly `INT_MIN`:
at machine scale `2^31`, `normalize(b, 2^31)` of `1 1 ~` hands `scale_number`
the shift `(int)2^31 = INT_MIN`, and GMP aborts. -/
theorem bdivmod_shift_int_min :
    bdiv (machine [value.BCODE_NUMBER { number := 1, scale := 0 },
                   value.BCODE_NUMBER { number := 1, scale := 0 }] 2147483648) = none
    ∧ bmod (machine [value.BCODE_NUMBER { number := 1, scale := 0 },
                     value.BCODE_NUMBER { number := 1, scale := 0 }] 2147483648) = none
    ∧ bdivmod (machine [value.BCODE_NUMBER { number := 1, scale := 0 },
                        value.BCODE_NUMBER { number := 1, scale := 0 }] 2147483648) = none := by
  decide

/-- C8, amended: for every machine state with `a` on top of `b`, `k = m.scale`
and `S = max(a.scale, b.scale)`, one of two cases holds. Either the divisor is
not zero and the process ends inside GMP, in `bdiv`, in `bmod` and in `bdivmod`
alike, so that none of them pushes: `normalize(a, S)` or `normalize(b, S + k)`
is handed the shift `INT_MIN`, or `a` becomes zero when normalized to `S` and
the division divides by zero. Or `bdivmod` leaves `r` on top of `q` on top of the
rest, where `q` is the Number pushed by `bdiv` and `r` the Number pushed by
`bmod` for the same operands and scale (for `a.n = 0` both have the integer
zero). The first case needs a shift that does not fit an `int` or is `INT_MIN`:
it is excluded when `S + k < 2^32`, `S - a.scale < 2^31` and
`S + k - b.scale < 2^31`. -/
theorem bdivmod_pairs_bdiv_bmod (m : bmachine) (a b : number) (rest : List value)
    (hstack : m.stack = value.BCODE_NUMBER a :: value.BCODE_NUMBER b :: rest) :
    ((a.number ≠ 0 ∧
      (normalize a (max a.scale b.scale) = none ∨
        normalize b (uadd (max a.scale b.scale) m.scale) = none ∨
        ∃ a1 : number, normalize a (max a.scale b.scale) = some a1 ∧ a1.number = 0) ∧
      bdiv m = none ∧ bmod m = none ∧ bdivmod m = none)
    ∨ (∃ q r : number,
        bdiv m = some { m with stack := value.BCODE_NUMBER q :: rest } ∧
        bmod m = some { m with stack := value.BCODE_NUMBER r :: rest } ∧
        bdivmod m = some { m with
          stack := value.BCODE_NUMBER r :: value.BCODE_NUMBER q :: rest } ∧
        (a.number = 0 → q.number = 0 ∧ r.number = 0)))
    ∧ (max a.scale b.scale + m.scale < 4294967296 →
        max a.scale b.scale - a.scale < 2147483648 →
        max a.scale b.scale + m.scale - b.scale < 2147483648 →
        ¬ (a.number ≠ 0 ∧
          (normalize a (max a.scale b.scale) = none ∨
            normalize b (uadd (max a.scale b.scale) m.scale) = none ∨
            ∃ a1 : number, normalize a (max a.scale b.scale) = some a1 ∧ a1.number = 0))) := by
  constructor
  · unfold bdiv bmod bdivmod pop_number push_number
    simp only [hstack, bdiv_number, bmod_number, bdivmod_number, mpz_tdiv_q, mpz_tdiv_r]
    by_cases h0 : a.number = 0
    · right
      simp only [h0, if_true, Option.map_some']
      exact ⟨_, _, rfl, rfl, rfl, fun _ => ⟨rfl, rfl⟩⟩
    · cases hna : normalize a (max a.scale b.scale) with
      | none =>
        left
        simp [h0]
      | some a1 =>
        cases hnb : normalize b (uadd (max a.scale b.scale) m.scale) with
        | none =>
          left
          simp [h0]
        | some b1 =>
          by_cases h1 : a1.number = 0
          · left
            simp [h0, h1]
          · right
            simp only [h0, h1, if_false, Option.map_some', Option.some_bind]
            exact ⟨_, _, rfl, rfl, rfl, fun h => h.elim⟩
  · intro hS hd hb hbad
    obtain ⟨h0, h1⟩ := hbad
    have hla : a.scale ≤ max a.scale b.scale := max_ge_left _ _
    have hlb : b.scale ≤ max a.scale b.scale := max_ge_right _ _
    rw [uadd_of_lt _ _ hS, normalize_up a _ hla (by omega) hd,
      normalize_up b _ (by omega) hS hb] at h1
    rcases h1 with h1 | h1 | ⟨a1, h1, h2⟩
    · exact Option.noConfusion h1
    · exact Option.noConfusion h1
    · have e := Option.some.inj h1
      rw [← e] at h2
      exact mul_ne_zero h0 (by positivity) h2

/-- C8, an instance of `bdivmod_pairs_bdiv_bmod`: `7 2 ~` at machine scale `0`,
where the scales fit and `bdivmod` pushes what `bdiv` and `bmod` push. -/
theorem bdivmod_pairs_bdiv_bmod_witness :
    ∃ q r : number,
      bdiv (machine [value.BCODE_NUMBER { number := 2, scale := 0 },
                     value.BCODE_NUMBER { number := 7, scale := 0 }] 0)
        = some { (machine [value.BCODE_NUMBER { number := 2, scale := 0 },
                     value.BCODE_NUMBER { number := 7, scale := 0 }] 0) with
            stack := value.BCODE_NUMBER q :: [] } ∧
      bmod (machine [value.BCODE_NUMBER { number := 2, scale := 0 },
                     value.BCODE_NUMBER { number := 7, scale := 0 }] 0)
        = some { (machine [value.BCODE_NUMBER { number := 2, scale := 0 },
                     value.BCODE_NUMBER { number := 7, scale := 0 }] 0) with
            stack := value.BCODE_NUMBER r :: [] } ∧
      bdivmod (machine [value.BCODE_NUMBER { number := 2, scale := 0 },
                     value.BCODE_NUMBER { number := 7, scale := 0 }] 0)
        = some { (machine [value.BCODE_NUMBER { number := 2, scale := 0 },
                     value.BCODE_NUMBER { number := 7, scale := 0 }] 0) with
            stack := value.BCODE_NUMBER r :: value.BCODE_NUMBER q :: [] } ∧
      ((2 : Int) = 0 → q.number = 0 ∧ r.number = 0) :=
  ((bdivmod_pairs_bdiv_bmod (machine [value.BCODE_NUMBER { number := 2, scale := 0 },
                     value.BCODE_NUMBER { number := 7, scale := 0 }] 0)
    { number := 2, scale := 0 } { number := 7, scale := 0 } [] rfl).1).resolve_left
    ((bdivmod_pairs_bdiv_bmod (machine [value.BCODE_NUMBER { number := 2, scale := 0 },
                     value.BCODE_NUMBER { number := 7, scale := 0 }] 0)
      { number := 2, scale := 0 } { number := 7, scale := 0 } [] rfl).2
        (by decide) (by decide) (by decide) ∘ fun h => ⟨h.1, h.2.1⟩)

/-- The scenario `7 2 ~` at machine scale `0`: quotient `3` below remainder `1`. -/
theorem bdivmod_scenario :
    bdivmod (machine [value.BCODE_NUMBER { number := 2, scale := 0 },
                      value.BCODE_NUMBER { number := 7, scale := 0 }] 0)
      = some (machine [value.BCODE_NUMBER { number := 1, scale := 0 },
                       value.BCODE_NUMBER { number := 3, scale := 0 }] 0) := by
  decide

/-! ## C9: `count_digits` -/

theorem split_number_fst (n : number) :
    (split_number n).1 = n.number.tdiv (10 ^ n.scale) := by
  unfold split_number
  by_cases h0 : n.scale = 0
  · simp [h0]
  · rw [if_neg h0]
    by_cases h10 : n.scale < 10
    · rw [if_pos h10]
      simp only
      rw [factors_getD _ (by omega) h10]
      push_cast
      rfl
    · rw [if_neg h10]

theorem toDigitsCore_length_log : ∀ (fuel n : Nat) (ds : List Char), n < fuel →
    (Nat.toDigitsCore 10 fuel n ds).length = ds.length + (Nat.log 10 n + 1) := by
  intro fuel
  induction fuel with
  | zero => intro n ds h; omega
  | succ f ih =>
    intro n ds h
    rw [Nat.toDigitsCore]
    by_cases hq : n / 10 = 0
    · simp only [hq, if_true, List.length_cons]
      have hlt : n < 10 := by omega
      rw [Nat.log_of_lt hlt]
    · simp only [hq, if_false]
      have hge : 10 ≤ n := by omega
      rw [ih (n / 10) _ (by omega), List.length_cons,
        Nat.log_of_one_lt_of_le (by norm_num) hge]
      omega

/-- The decimal string of `x` has `log10(x) + 1` characters (one for `x = 0`). -/
theorem decimal_length_eq (x : Nat) : decimal_length x = Nat.log 10 x + 1 := by
  unfold decimal_length Nat.toDigits
  rw [toDigitsCore_length_log (x + 1) x [] (by omega)]
  simp

/-- A positive `x` with `10^(L-1) ≤ x < 10^L` has `L` decimal digits. -/
theorem decimal_length_of_bounds (x L : Nat) (hL : 1 ≤ L)
    (h1 : 10 ^ (L - 1) ≤ x) (h2 : x < 10 ^ L) : decimal_length x = L := by
  rw [decimal_length_eq]
  have hx : x ≠ 0 := by
    have : 0 < 10 ^ (L - 1) := by positivity
    omega
  have a : L - 1 ≤ Nat.log 10 x := (Nat.pow_le_iff_le_log (by norm_num) hx).mp h1
  have b : Nat.log 10 x < L := (Nat.lt_pow_iff_log_lt (by norm_num) hx).mp h2
  omega

set_option exponentiation.threshold 100000 in
theorem pow10_le_pow2 : (10 : Nat) ^ 21306 ≤ 2 ^ 70777 := by decide

set_option exponentiation.threshold 100000 in
theorem pow2_lt_pow10 : (2 : Nat) ^ 42039 < 10 ^ 12655 := by decide

set_option exponentiation.threshold 100000 in
/-- The estimate `floor(c * m / 2^32)` never exceeds the decimal exponent of
`2^m`. -/
theorem estimate_lower (m : Nat) : 10 ^ (1292913986 * m / 4294967296) ≤ 2 ^ m := by
  have hd : 1292913986 * m / 4294967296 * 70777 ≤ 21306 * m := by omega
  generalize 1292913986 * m / 4294967296 = d at hd
  by_contra hlt
  have h1 : 2 ^ m < 10 ^ d := by omega
  have h2 : (2 ^ m) ^ 70777 < (10 ^ d) ^ 70777 := Nat.pow_lt_pow_left h1 (by decide)
  have h3 : (10 ^ d) ^ 70777 ≤ (10 ^ 21306) ^ m := by
    rw [← pow_mul, ← pow_mul]
    exact Nat.pow_le_pow_right (by norm_num) hd
  have h4 : (10 ^ 21306) ^ m ≤ (2 ^ 70777) ^ m := Nat.pow_le_pow_left pow10_le_pow2 m
  have h5 : (2 ^ 70777) ^ m = (2 ^ m) ^ 70777 := by
    rw [← pow_mul, ← pow_mul, mul_comm]
  omega

set_option exponentiation.threshold 100000 in
/-- Below `70777` bits the estimate plus one bounds the decimal exponent of
`2^b`. -/
theorem estimate_upper (b : Nat) (hb : b < 70777) :
    2 ^ b ≤ 10 ^ (1292913986 * b / 4294967296 + 1) := by
  have hA : 8651 * b + 1 ≤ 28738 * (1292913986 * b / 4294967296 + 1) := by omega
  have hB : b * 12655 ≤ (1292913986 * b / 4294967296 + 1) * 42039 := by omega
  generalize 1292913986 * b / 4294967296 + 1 = M at hA hB
  by_contra hlt
  have h1 : 10 ^ M < 2 ^ b := by omega
  have h2 : (10 ^ M) ^ 42039 < (2 ^ b) ^ 42039 := Nat.pow_lt_pow_left h1 (by decide)
  have h3 : (2 ^ b) ^ 42039 = (2 ^ 42039) ^ b := by
    rw [← pow_mul, ← pow_mul, mul_comm]
  have h4 : (2 ^ 42039) ^ b ≤ (10 ^ 12655) ^ b :=
    Nat.pow_le_pow_left (le_of_lt pow2_lt_pow10) b
  have h5 : (10 ^ 12655) ^ b ≤ (10 ^ M) ^ 42039 := by
    rw [← pow_mul, ← pow_mul]
    exact Nat.pow_le_pow_right (by norm_num) (by omega)
  omega


theorem to_int_small (b : Nat) (hb : b < 2147483648) : to_int b = (b : Int) := by
  unfold to_int
  have e : b % 4294967296 = b := by omega
  rw [e, if_pos hb]

theorem to_u64_small (x : Nat) (hx : x < 18446744073709551616) :
    to_u64 (x : Int) = x := by
  unfold to_u64
  omega

/-- The value computed by `count_digits` for a non-zero Number, in terms of the
absolute integer part `x` and its GMP bit count `b` below `2^31`. -/
theorem count_digits_formula (n : number) (hn : n.number ≠ 0) (b : Nat)
    (hb : sizeinbase2 (n.number.tdiv (10 ^ n.scale)) = b)
    (hb1 : 1 ≤ b) (hb2 : b < 2147483648) :
    count_digits n =
      if 1292913986 * b / 4294967296 ≠ 1292913986 * (b - 1) / 4294967296 then
        if (n.number.tdiv (10 ^ n.scale)).natAbs ≥ 10 ^ (1292913986 * b / 4294967296) then
          uadd (uadd (1292913986 * b / 4294967296) 1) n.scale
        else uadd (1292913986 * b / 4294967296) n.scale
      else uadd (uadd (1292913986 * b / 4294967296) 1) n.scale := by
  unfold count_digits
  simp only [hn, if_false, split_number_fst, hb, to_int_small b hb2]
  have hbz : ¬ ((b : Int) = 0) := by omega
  simp only [hbz, if_false]
  have e1 : (1292913986 : Int) * (b : Int) = ((1292913986 * b : Nat) : Int) := by push_cast; ring
  have e2 : (1292913986 : Int) * ((b : Int) - 1) = ((1292913986 * (b - 1) : Nat) : Int) := by
    have : ((b - 1 : Nat) : Int) = (b : Int) - 1 := by omega
    push_cast
    rw [this]
  rw [e1, e2, to_u64_small _ (by omega), to_u64_small _ (by omega)]
  have e3 : 1292913986 * b / 4294967296 % 4294967296 = 1292913986 * b / 4294967296 := by omega
  rw [e3]

/-- C9 on a Number whose integer part is zero: GMP reports one bit for zero, and
`count_digits` returns `1 + n.scale` as a `u_int`. -/
theorem count_digits_zero_int_part (n : number) (hn : n.number ≠ 0)
    (h0 : n.number.tdiv (10 ^ n.scale) = 0) :
    count_digits n = uadd 1 n.scale := by
  have hb : sizeinbase2 (n.number.tdiv (10 ^ n.scale)) = 1 := by rw [h0]; rfl
  rw [count_digits_formula n hn 1 hb (by norm_num) (by norm_num)]
  have e : ¬ (1292913986 * 1 / 4294967296 ≠ 1292913986 * (1 - 1) / 4294967296) := by decide
  rw [if_neg e]
  rfl


theorem trunc_val (n : number) : trunc (val n) = n.number.tdiv (10 ^ n.scale) := by
  unfold val
  have e : ((10 : ℚ) ^ n.scale) = (((10 : Int) ^ n.scale : Int) : ℚ) := by push_cast; rfl
  rw [e, trunc_div]

theorem uadd_one_of_lt (d s : Nat) (h : d + 1 + s < 4294967296) :
    uadd (uadd d 1) s = d + 1 + s := by
  unfold uadd; omega

/-- C9, as stated, fails: the result of `count_digits` is a `u_int`. For the
Number `1` at scale `UINT_MAX` the integer part is `0`, its decimal string `0`
has one character, and `1 + UINT_MAX` wraps to `0`, not `2^32`. -/
theorem count_digits_result_wrap_general (K : Nat) (hK : 1 ≤ K) :
    count_digits { number := 1, scale := K } = uadd 1 K
    ∧ decimal_length (trunc (val { number := 1, scale := K })).natAbs + K = 1 + K := by
  have h10 : (1 : Int) < 10 ^ K := by
    have h : (10 : Int) ^ 1 ≤ 10 ^ K := pow_le_pow_right₀ (by norm_num) hK
    have h2 : (10 : Int) ≤ 10 ^ K := by simpa using h
    omega
  have h0 : (1 : Int).tdiv (10 ^ K) = 0 := Int.tdiv_eq_zero_of_lt (by norm_num) h10
  constructor
  · exact count_digits_zero_int_part { number := 1, scale := K } (by simp) h0
  · rw [trunc_val]
    simp only
    rw [h0]
    rfl

/-- C9 counterexample at a concrete Number: `count_digits` of `1` at scale
`UINT_MAX` is `0`, while the digit count of the integer part plus the scale is
`2^32`. -/
theorem count_digits_result_wrap :
    count_digits { number := 1, scale := 4294967295 } = 0
    ∧ decimal_length (trunc (val { number := 1, scale := 4294967295 })).natAbs + 4294967295
        = 4294967296 :=
  ⟨(count_digits_result_wrap_general 4294967295 (by decide)).1.trans (by decide),
   (count_digits_result_wrap_general 4294967295 (by decide)).2.trans (by decide)⟩

set_option exponentiation.threshold 100000 in
/-- C9, amended: `count_digits` returns `n.scale` when `n.n = 0`; and when
`n.n ≠ 0`, the absolute integer part `x = |trunc(n.n / 10^n.scale)|` is below
`2^70776`, and the sum fits a `u_int`, it returns the length of the decimal
string of `x` plus `n.scale`. -/
theorem count_digits_exact (n : number) :
    (n.number = 0 → count_digits n = n.scale) ∧
    (n.number ≠ 0 → (trunc (val n)).natAbs < 2 ^ 70776 →
      decimal_length (trunc (val n)).natAbs + n.scale < 4294967296 →
      count_digits n = decimal_length (trunc (val n)).natAbs + n.scale) := by
  constructor
  · intro h0
    unfold count_digits
    simp [h0]
  · intro hn hsmall hfit
    rw [trunc_val] at hsmall hfit ⊢
    by_cases hip : n.number.tdiv (10 ^ n.scale) = 0
    · rw [count_digits_zero_int_part n hn hip]
      rw [hip] at hfit ⊢
      have e : decimal_length (0 : Int).natAbs = 1 := by decide
      rw [e] at hfit ⊢
      unfold uadd
      omega
    · have hxpos : 0 < (n.number.tdiv (10 ^ n.scale)).natAbs := Int.natAbs_pos.mpr hip
      have hb : sizeinbase2 (n.number.tdiv (10 ^ n.scale))
          = bit_count (n.number.tdiv (10 ^ n.scale)).natAbs
              (n.number.tdiv (10 ^ n.scale)).natAbs := by
        unfold sizeinbase2
        rw [if_neg hip]
      obtain ⟨hb1, hb2, hb3⟩ := bit_count_bounds _ _ le_rfl hxpos
      obtain ⟨x, hxdef⟩ : ∃ x, (n.number.tdiv (10 ^ n.scale)).natAbs = x := ⟨_, rfl⟩
      rw [hxdef] at hsmall hfit hb hb1 hb2 hb3 hxpos ⊢
      generalize bit_count x x = b at hb hb1 hb2 hb3
      have hb4 : b < 70777 := by
        by_contra hge
        have : (2 : Nat) ^ 70776 ≤ 2 ^ (b - 1) := Nat.pow_le_pow_right (by norm_num) (by omega)
        omega
      rw [count_digits_formula n hn b hb hb1 (by omega), hxdef]
      have hlow := estimate_lower (b - 1)
      have hup := estimate_upper b hb4
      have hdd : 1292913986 * (b - 1) / 4294967296 ≤ 1292913986 * b / 4294967296 ∧
          1292913986 * b / 4294967296 ≤ 1292913986 * (b - 1) / 4294967296 + 1 := by omega
      generalize 1292913986 * b / 4294967296 = d at hup hdd ⊢
      generalize 1292913986 * (b - 1) / 4294967296 = d1 at hlow hdd ⊢
      have hx1 : 10 ^ d1 ≤ x := le_trans hlow hb2
      have hx2 : x < 10 ^ (d + 1) := lt_of_lt_of_le hb3 hup
      by_cases hne : d ≠ d1
      · have hd : d = d1 + 1 := by omega
        rw [if_pos hne]
        by_cases hge : x ≥ 10 ^ d
        · rw [if_pos hge]
          have hL := decimal_length_of_bounds x (d + 1) (by omega) (by simpa using hge) hx2
          rw [hL] at hfit ⊢
          exact uadd_one_of_lt d n.scale hfit
        · rw [if_neg hge]
          have hL := decimal_length_of_bounds x d (by omega)
            (by rw [hd]; simpa using hx1) (by omega)
          rw [hL] at hfit ⊢
          exact uadd_of_lt d n.scale hfit
      · have hd : d = d1 := by omega
        rw [if_neg hne]
        have hL := decimal_length_of_bounds x (d + 1) (by omega)
          (by rw [hd]; simpa using hx1) hx2
        rw [hL] at hfit ⊢
        exact uadd_one_of_lt d n.scale hfit

set_option exponentiation.threshold 100000 in
/-- C9, an instance of `count_digits_exact`: `123.45` has `3 + 2` digits. -/
theorem count_digits_exact_witness :
    count_digits { number := 12345, scale := 2 }
      = decimal_length (trunc (val { number := 12345, scale := 2 })).natAbs + 2 :=
  (count_digits_exact { number := 12345, scale := 2 }).2 (by decide)
    (by
      rw [trunc_val]
      exact lt_of_lt_of_le (by decide : (Int.tdiv 12345 (10 ^ 2)).natAbs < 2 ^ 7)
        (Nat.pow_le_pow_right (by norm_num) (by norm_num)))
    (by rw [trunc_val]; decide)

theorem bit_count_unique (x b : Nat) (hb : 1 ≤ b) (h1 : 2 ^ (b - 1) ≤ x) (h2 : x < 2 ^ b) :
    bit_count x x = b := by
  have hx : 0 < x := lt_of_lt_of_le (by positivity) h1
  obtain ⟨c1, c2, c3⟩ := bit_count_bounds x x le_rfl hx
  generalize bit_count x x = b2 at c1 c2 c3
  rcases lt_trichotomy b2 b with h | h | h
  · have : (2 : Nat) ^ b2 ≤ 2 ^ (b - 1) := Nat.pow_le_pow_right (by norm_num) (by omega)
    omega
  · exact h
  · have : (2 : Nat) ^ b ≤ 2 ^ (b2 - 1) := Nat.pow_le_pow_right (by norm_num) (by omega)
    omega

set_option exponentiation.threshold 100000 in
theorem pow2_le_pow10 : (2 : Nat) ^ 70776 ≤ 10 ^ 21306 := by decide

set_option exponentiation.threshold 100000 in
theorem pow10_lt_pow2 : (10 : Nat) ^ 21306 < 2 ^ 70777 := by decide

set_option exponentiation.threshold 100000 in
/-- Every integer `X` of `70777` bits gets the digit count `21306` from
`count_digits`, also when it has `21307` decimal digits. -/
theorem count_digits_estimate_slip_general (X : Nat) (h1 : 2 ^ 70776 ≤ X) (h2 : X < 2 ^ 70777) :
    count_digits { number := (X : Int), scale := 0 } = 21306 := by
  have hpos : 0 < X := lt_of_lt_of_le (by positivity) h1
  have hn : (X : Int) ≠ 0 := by omega
  have hip : (X : Int).tdiv (10 ^ 0) = (X : Int) := by simp
  have hb : sizeinbase2 ((X : Int).tdiv (10 ^ 0)) = 70777 := by
    rw [hip]
    unfold sizeinbase2
    rw [if_neg hn, Int.natAbs_ofNat]
    exact bit_count_unique X 70777 (by norm_num) h1 h2
  have hf := count_digits_formula { number := (X : Int), scale := 0 } hn 70777 hb
    (by norm_num) (by norm_num)
  rw [hf]
  have e : ¬ (1292913986 * 70777 / 4294967296 ≠ 1292913986 * (70777 - 1) / 4294967296) := by
    decide
  rw [if_neg e]
  show uadd (uadd (1292913986 * 70777 / 4294967296) 1) 0 = 21306
  decide

set_option exponentiation.threshold 100000 in
/-- The digit estimate of `count_digits` is one short from `70777` bits on: the
integer `10^21306` has `70777` bits and `21307` decimal digits, and
`count_digits` returns `21306`. -/
theorem count_digits_estimate_slip :
    count_digits { number := ((10 ^ 21306 : Nat) : Int), scale := 0 } = 21306
    ∧ decimal_length (10 ^ 21306) = 21307 :=
  ⟨count_digits_estimate_slip_general (10 ^ 21306) pow2_le_pow10 pow10_lt_pow2,
   (decimal_length_eq _).trans
     (congrArg (fun t => t + 1) (Nat.log_pow (by decide : 1 < 10) 21306))⟩

/-! ## C10: `compare_numbers` -/

theorem val_lt_same_scale (x y : Int) (s : Nat) :
    val { number := x, scale := s } < val { number := y, scale := s } ↔ x < y := by
  unfold val
  simp only
  have hp : (0 : ℚ) < 10 ^ s := by positivity
  rw [div_lt_div_iff_of_pos_right hp]
  exact Int.cast_lt

theorem val_eq_same_scale (x y : Int) (s : Nat) :
    val { number := x, scale := s } = val { number := y, scale := s } ↔ x = y := by
  unfold val
  simp only
  have hp : ((10 : ℚ) ^ s) ≠ 0 := by positivity
  rw [div_left_inj' hp]
  exact Int.cast_inj

theorem compare_wrap_values (K : Nat) :
    val { number := 1, scale := 0 } ≠ val { number := 0, scale := K } := by
  rw [val_zero_number, val_one_scale_zero]
  norm_num

/-- C10, as stated, fails: `1` (scale `0`) and `0` at scale `UINT_MAX` compare
equal, because `normalize(a, UINT_MAX)` shifts `a` by `(int)UINT_MAX = -1` and
makes it `0`; the two values are `1` and `0`. -/
theorem compare_numbers_scale_gap :
    compare_numbers bcode_compare.BCODE_EQUAL { number := 1, scale := 0 }
      { number := 0, scale := 4294967295 } = some true
    ∧ val { number := 1, scale := 0 } ≠ val { number := 0, scale := 4294967295 } :=
  ⟨by decide, compare_wrap_values 4294967295⟩

/-- The two integers compared by `compare_numbers` when the scales are less than
`2^31` apart: both operands brought to the larger scale, values unchanged. -/
theorem compare_numbers_aligned (a b : number)
    (ha : a.scale < 4294967296) (hb : b.scale < 4294967296)
    (hab : a.scale - b.scale < 2147483648) (hba : b.scale - a.scale < 2147483648) :
    ∃ (x y : Int) (s : Nat),
      (∀ type, compare_numbers type a b =
        match type with
        | bcode_compare.BCODE_EQUAL => some (decide (mpz_cmp x y = 0))
        | bcode_compare.BCODE_NOT_EQUAL => some (decide (mpz_cmp x y ≠ 0))
        | bcode_compare.BCODE_LESS => some (decide (mpz_cmp x y < 0))
        | bcode_compare.BCODE_NOT_LESS => some (decide (mpz_cmp x y ≥ 0))
        | bcode_compare.BCODE_GREATER => some (decide (mpz_cmp x y > 0))
        | bcode_compare.BCODE_NOT_GREATER => some (decide (mpz_cmp x y ≤ 0))) ∧
      val { number := x, scale := s } = val a ∧ val { number := y, scale := s } = val b := by
  rcases lt_trichotomy a.scale b.scale with h | h | h
  · refine ⟨a.number * 10 ^ (b.scale - a.scale), b.number, b.scale, ?_,
      val_scale_up _ _ _ (le_of_lt h), rfl⟩
    intro type
    unfold compare_numbers
    have hm : max a.scale b.scale = b.scale := by rw [max_eq]; exact Nat.max_eq_right (le_of_lt h)
    simp only [hm, gt_iff_lt, h, if_true, normalize_up a b.scale (le_of_lt h) hb hba,
      Option.some_bind]
  · refine ⟨a.number, b.number, a.scale, ?_, rfl, by rw [h]⟩
    intro type
    unfold compare_numbers
    have hm : max a.scale b.scale = a.scale := by rw [max_eq, h]; exact Nat.max_self _
    have hm2 : ¬ (b.scale < a.scale) := by omega
    simp only [hm, gt_iff_lt, lt_irrefl, if_false, hm2, Option.some_bind]
  · refine ⟨a.number, b.number * 10 ^ (a.scale - b.scale), a.scale, ?_, rfl,
      val_scale_up _ _ _ (le_of_lt h)⟩
    intro type
    unfold compare_numbers
    have hm : max a.scale b.scale = a.scale := by rw [max_eq]; exact Nat.max_eq_left (le_of_lt h)
    simp only [hm, gt_iff_lt, lt_irrefl, if_false, h, if_true,
      normalize_up b a.scale (le_of_lt h) ha hab, Option.some_bind]

theorem mpz_cmp_sign (x y : Int) :
    (mpz_cmp x y = 0 ↔ x = y) ∧ (mpz_cmp x y < 0 ↔ x < y) ∧ (mpz_cmp x y > 0 ↔ y < x) := by
  unfold mpz_cmp
  rcases lt_trichotomy x y with h | h | h
  · simp [h, ne_of_lt h]; omega
  · simp [h]
  · have h1 : ¬ x < y := by omega
    have h2 : ¬ x = y := by omega
    simp [h1, h2, h]

/-- C10, amended: for Numbers `a`, `b` whose scales are `u_int` values less than
`2^31` apart, `compare_numbers(type, a, b)` returns, and its result is the truth
of the relation between the rationals `val a` and `val b`: `EQUAL` iff equal,
`LESS` iff `a < b`, `GREATER` iff `a > b`, and `NOT_EQUAL`, `NOT_LESS`,
`NOT_GREATER` their negations. -/
theorem compare_numbers_order (a b : number)
    (ha : a.scale < 4294967296) (hb : b.scale < 4294967296)
    (hab : a.scale - b.scale < 2147483648) (hba : b.scale - a.scale < 2147483648) :
    (∀ type, ∃ r : Bool, compare_numbers type a b = some r) ∧
    (compare_numbers bcode_compare.BCODE_EQUAL a b = some true ↔ val a = val b) ∧
    (compare_numbers bcode_compare.BCODE_NOT_EQUAL a b = some true ↔ ¬ val a = val b) ∧
    (compare_numbers bcode_compare.BCODE_LESS a b = some true ↔ val a < val b) ∧
    (compare_numbers bcode_compare.BCODE_NOT_LESS a b = some true ↔ ¬ val a < val b) ∧
    (compare_numbers bcode_compare.BCODE_GREATER a b = some true ↔ val a > val b) ∧
    (compare_numbers bcode_compare.BCODE_NOT_GREATER a b = some true ↔ ¬ val a > val b) := by
  obtain ⟨x, y, s, hc, hx, hy⟩ := compare_numbers_aligned a b ha hb hab hba
  obtain ⟨h0, h1, h2⟩ := mpz_cmp_sign x y
  refine ⟨fun type => ?_, ?_⟩
  · rw [hc type]
    cases type <;> exact ⟨_, rfl⟩
  rw [← hx, ← hy]
  have e1 := hc bcode_compare.BCODE_EQUAL
  have e2 := hc bcode_compare.BCODE_NOT_EQUAL
  have e3 := hc bcode_compare.BCODE_LESS
  have e4 := hc bcode_compare.BCODE_NOT_LESS
  have e5 := hc bcode_compare.BCODE_GREATER
  have e6 := hc bcode_compare.BCODE_NOT_GREATER
  simp only at e1 e2 e3 e4 e5 e6
  rw [e1, e2, e3, e4, e5, e6]
  simp only [Option.some.injEq, decide_eq_true_eq, val_eq_same_scale, val_lt_same_scale,
    gt_iff_lt]
  refine ⟨h0, ?_, h1, ?_, h2, ?_⟩
  · rw [← h0]
  · rw [← h1]; omega
  · rw [← h2]; omega

/-- C10, an instance of `compare_numbers_order`: `1.50` against `1.5`, equal in
value and different in scale. -/
theorem compare_numbers_order_witness :
    (∀ type, ∃ r : Bool, compare_numbers type { number := 150, scale := 2 }
        { number := 15, scale := 1 } = some r) ∧
    (compare_numbers bcode_compare.BCODE_EQUAL { number := 150, scale := 2 }
        { number := 15, scale := 1 } = some true
      ↔ val { number := 150, scale := 2 } = val { number := 15, scale := 1 }) ∧
    (compare_numbers bcode_compare.BCODE_NOT_EQUAL { number := 150, scale := 2 }
        { number := 15, scale := 1 } = some true
      ↔ ¬ val { number := 150, scale := 2 } = val { number := 15, scale := 1 }) ∧
    (compare_numbers bcode_compare.BCODE_LESS { number := 150, scale := 2 }
        { number := 15, scale := 1 } = some true
      ↔ val { number := 150, scale := 2 } < val { number := 15, scale := 1 }) ∧
    (compare_numbers bcode_compare.BCODE_NOT_LESS { number := 150, scale := 2 }
        { number := 15, scale := 1 } = some true
      ↔ ¬ val { number := 150, scale := 2 } < val { number := 15, scale := 1 }) ∧
    (compare_numbers bcode_compare.BCODE_GREATER { number := 150, scale := 2 }
        { number := 15, scale := 1 } = some true
      ↔ val { number := 150, scale := 2 } > val { number := 15, scale := 1 }) ∧
    (compare_numbers bcode_compare.BCODE_NOT_GREATER { number := 150, scale := 2 }
        { number := 15, scale := 1 } = some true
      ↔ ¬ val { number := 150, scale := 2 } > val { number := 15, scale := 1 }) :=
  compare_numbers_order { number := 150, scale := 2 } { number := 15, scale := 1 }
    (by decide) (by decide) (by decide) (by decide)

/-- Numbers of equal value and different scale compare equal: `1.50 = 1.5`. -/
theorem compare_numbers_scenario :
    compare_numbers bcode_compare.BCODE_EQUAL { number := 150, scale := 2 }
      { number := 15, scale := 1 } = some true := by
  decide

/-! ## C19: arithmetic opcodes on a stack of fewer than two values -/

theorem short_stack_cases (m : bmachine) (h : m.stack.length < 2) :
    m.stack = [] ∨ ∃ v, m.stack = [v] := by
  cases hs : m.stack with
  | nil => exact Or.inl rfl
  | cons v rest =>
    cases rest with
    | nil => exact Or.inr ⟨v, rfl⟩
    | cons w rest2 =>
      rw [hs] at h
      simp only [List.length_cons] at h
      omega

theorem with_stack_self (m : bmachine) (s : List value) (h : m.stack = s) :
    { m with stack := s } = m := by
  cases m
  simp only at h
  subst h
  rfl

/-- C19: when the main stack holds fewer than two values (it is empty, or holds
one Number, or one other Value), each of `badd`, `bsub`, `bmul`, `bdiv`,
`bmod`, `bdivmod` and `bexp` returns and leaves the whole machine state as it
was: the stack, and with it `scale`, `ibase`, `obase` and the registers. -/
theorem arithmetic_opcodes_short_stack (m : bmachine) (h : m.stack.length < 2) :
    badd m = some m ∧ bsub m = some m ∧ bmul m = some m ∧ bdiv m = some m ∧
    bmod m = some m ∧ bdivmod m = some m ∧ bexp m = some m := by
  rcases short_stack_cases m h with h0 | ⟨v, hv⟩
  · unfold badd bsub bmul bdiv bmod bdivmod bexp pop_number
    simp [h0]
  · cases v with
    | BCODE_NONE =>
      unfold badd bsub bmul bdiv bmod bdivmod bexp pop_number
      simp [hv]
    | BCODE_STRING s =>
      unfold badd bsub bmul bdiv bmod bdivmod bexp pop_number
      simp [hv]
    | BCODE_NUMBER n =>
      have e : { m with stack := [value.BCODE_NUMBER n] } = m := with_stack_self m _ hv
      unfold badd bsub bmul bdiv bmod bdivmod bexp pop_number push_number
      simp [hv, e]

/-- C19, an instance of `arithmetic_opcodes_short_stack`: the stack holding the
one Number `7`. -/
theorem arithmetic_opcodes_short_stack_witness :
    badd (machine [value.BCODE_NUMBER { number := 7, scale := 0 }] 3)
      = some (machine [value.BCODE_NUMBER { number := 7, scale := 0 }] 3) ∧
    bsub (machine [value.BCODE_NUMBER { number := 7, scale := 0 }] 3)
      = some (machine [value.BCODE_NUMBER { number := 7, scale := 0 }] 3) ∧
    bmul (machine [value.BCODE_NUMBER { number := 7, scale := 0 }] 3)
      = some (machine [value.BCODE_NUMBER { number := 7, scale := 0 }] 3) ∧
    bdiv (machine [value.BCODE_NUMBER { number := 7, scale := 0 }] 3)
      = some (machine [value.BCODE_NUMBER { number := 7, scale := 0 }] 3) ∧
    bmod (machine [value.BCODE_NUMBER { number := 7, scale := 0 }] 3)
      = some (machine [value.BCODE_NUMBER { number := 7, scale := 0 }] 3) ∧
    bdivmod (machine [value.BCODE_NUMBER { number := 7, scale := 0 }] 3)
      = some (machine [value.BCODE_NUMBER { number := 7, scale := 0 }] 3) ∧
    bexp (machine [value.BCODE_NUMBER { number := 7, scale := 0 }] 3)
      = some (machine [value.BCODE_NUMBER { number := 7, scale := 0 }] 3) :=
  arithmetic_opcodes_short_stack
    (machine [value.BCODE_NUMBER { number := 7, scale := 0 }] 3) (by decide)

/-! ## C13: `badd` followed by `bsub` -/

theorem val_sub_same_scale (x y : Int) (s : Nat) :
    val { number := x - y, scale := s }
      = val { number := x, scale := s } - val { number := y, scale := s } := by
  unfold val
  simp only
  push_cast
  rw [sub_div]

/-- The sum computed by `badd` for scales less than `2^31` apart. -/
theorem badd_number_val (a b : number)
    (ha : a.scale < 4294967296) (hb : b.scale < 4294967296)
    (hab : a.scale - b.scale < 2147483648) (hba : b.scale - a.scale < 2147483648) :
    ∃ r : number, badd_number a b = some r ∧
      r.scale = Nat.max a.scale b.scale ∧ val r = val b + val a := by
  unfold badd_number
  rcases lt_trichotomy a.scale b.scale with h | h | h
  · rw [if_pos h, normalize_up a b.scale (le_of_lt h) hb hba]
    refine ⟨_, rfl, (Nat.max_eq_right (le_of_lt h)).symm, ?_⟩
    simp only
    rw [val_add_same_scale, val_scale_up _ _ _ (le_of_lt h), add_comm]
  · rw [if_neg (by omega), if_neg (by omega)]
    refine ⟨_, rfl, by simp [h], ?_⟩
    have e : val { number := a.number + b.number, scale := b.scale }
        = val { number := a.number, scale := a.scale }
          + val { number := b.number, scale := b.scale } := by
      rw [h]; exact val_add_same_scale _ _ _
    rw [e, add_comm]
  · rw [if_neg (by omega), if_pos h, normalize_up b a.scale (le_of_lt h) ha hab]
    refine ⟨_, rfl, (Nat.max_eq_left (le_of_lt h)).symm, ?_⟩
    simp only
    rw [val_add_same_scale, val_scale_up _ _ _ (le_of_lt h), add_comm]

/-- The difference computed by `bsub` for scales less than `2^31` apart. -/
theorem bsub_number_val (a b : number)
    (ha : a.scale < 4294967296) (hb : b.scale < 4294967296)
    (hab : a.scale - b.scale < 2147483648) (hba : b.scale - a.scale < 2147483648) :
    ∃ r : number, bsub_number a b = some r ∧
      r.scale = Nat.max a.scale b.scale ∧ val r = val b - val a := by
  unfold bsub_number
  rcases lt_trichotomy a.scale b.scale with h | h | h
  · rw [if_pos h, normalize_up a b.scale (le_of_lt h) hb hba]
    refine ⟨_, rfl, (Nat.max_eq_right (le_of_lt h)).symm, ?_⟩
    simp only
    rw [val_sub_same_scale, val_scale_up _ _ _ (le_of_lt h)]
  · rw [if_neg (by omega), if_neg (by omega)]
    refine ⟨_, rfl, by simp [h], ?_⟩
    have e : val { number := b.number - a.number, scale := b.scale }
        = val { number := b.number, scale := b.scale }
          - val { number := a.number, scale := a.scale } := by
      rw [h]; exact val_sub_same_scale _ _ _
    rw [e]
  · rw [if_neg (by omega), if_pos h, normalize_up b a.scale (le_of_lt h) ha hab]
    refine ⟨_, rfl, (Nat.max_eq_left (le_of_lt h)).symm, ?_⟩
    simp only
    rw [val_sub_same_scale, val_scale_up _ _ _ (le_of_lt h)]

/-- C13: for Numbers `a` and `b` with scales at most `20`, at machine scale `20`
as at any other, with `a` pushed first and `b` on top: `badd`, pushing `b`
again and `bsub` both return and leave on top, over the rest of the stack, a
Number of scale `max(a.scale, b.scale)` whose value is the value of `a`. -/
theorem badd_then_bsub (m : bmachine) (a b : number) (rest : List value)
    (hstack : m.stack = value.BCODE_NUMBER b :: value.BCODE_NUMBER a :: rest)
    (ha : a.scale ≤ 20) (hb : b.scale ≤ 20) :
    ∃ r : number,
      (badd m).bind (fun m1 => bsub (push_number m1 b))
        = some { m with stack := value.BCODE_NUMBER r :: rest } ∧
      r.scale = Nat.max a.scale b.scale ∧ val r = val a := by
  obtain ⟨s, hs, h1, h2⟩ := badd_number_val b a (by omega) (by omega) (by omega) (by omega)
  have hmax : Nat.max b.scale a.scale ≤ 20 := Nat.max_le.mpr ⟨hb, ha⟩
  obtain ⟨r, hr, h3, h4⟩ := bsub_number_val b s (by omega) (by omega) (by omega) (by omega)
  refine ⟨r, ?_, ?_, ?_⟩
  · unfold bsub badd pop_number push_number
    simp only [hstack, hs, Option.map_some', Option.some_bind, hr]
  · rw [h3, h1]
    simp only [Nat.max_def]
    split_ifs <;> omega
  · rw [h4, h2]
    ring

/-- C13, an instance of `badd_then_bsub`: `a = 1.5`, `b = 0.25`. -/
theorem badd_then_bsub_witness :
    ∃ r : number,
      (badd (machine [value.BCODE_NUMBER { number := 25, scale := 2 },
          value.BCODE_NUMBER { number := 15, scale := 1 }] 20)).bind
          (fun m1 => bsub (push_number m1 { number := 25, scale := 2 }))
        = some { (machine [value.BCODE_NUMBER { number := 25, scale := 2 },
          value.BCODE_NUMBER { number := 15, scale := 1 }] 20) with
            stack := value.BCODE_NUMBER r :: [] } ∧
      r.scale = Nat.max 1 2 ∧ val r = val { number := 15, scale := 1 } :=
  badd_then_bsub (machine [value.BCODE_NUMBER { number := 25, scale := 2 },
          value.BCODE_NUMBER { number := 15, scale := 1 }] 20)
    { number := 15, scale := 1 } { number := 25, scale := 2 } [] rfl
    (by decide) (by decide)

/-! ## The integer read by `get_ulong` -/

/-- For a scale below `2^31`, `normalize(n, 0)` leaves the integer part of `n`,
truncated toward zero. -/
theorem normalize_zero (n : number) (h : n.scale < 2147483648) :
    normalize n 0 = some { number := trunc (val n), scale := 0 } := by
  rw [trunc_val]
  by_cases h0 : n.scale = 0
  · have e := normalize_same n
    rw [h0] at e
    rw [e, h0]
    cases n
    simp only at h0
    subst h0
    simp
  · have e := normalize_down n 0 (Nat.pos_of_ne_zero h0) (by omega) (by omega)
    rw [e]
    simp

theorem get_ulong_of_small_scale (n : number) (h : n.scale < 2147483648) :
    get_ulong n = some ((trunc (val n)).natAbs % 18446744073709551616,
      { number := trunc (val n), scale := 0 }) := by
  unfold get_ulong mpz_get_ui
  rw [normalize_zero n h]
  rfl

/-- At the scale `2^31` the shift of `normalize(n, 0)` is `INT_MIN`, and
`get_ulong` has no result. -/
theorem get_ulong_int_min (x : Int) :
    get_ulong { number := x, scale := 2147483648 } = none := by
  unfold get_ulong normalize
  have e : to_int (usub 0 2147483648) = -2147483648 := by decide
  rw [e, scale_number_int_min]
  rfl

/-- The integer part of the Number `1` at a scale of at least one is zero. -/
theorem trunc_val_one_scaled (K : Nat) (hK : 1 ≤ K) :
    trunc (val { number := 1, scale := K }) = 0 := by
  rw [trunc_val]
  have h10 : (1 : Int) < 10 ^ K := by
    have h : (10 : Int) ^ 1 ≤ 10 ^ K := pow_le_pow_right₀ (by norm_num) hK
    have h2 : (10 : Int) ≤ 10 ^ K := by simpa using h
    omega
  exact Int.tdiv_eq_zero_of_lt (by norm_num) h10

/-! ## C18: `to_ascii` -/

/-- C18, as stated, fails: `256 a` leaves a String of no byte at all, because
the byte `256 mod 256 = 0` is the terminator of the C string that `bstrdup`
copies. -/
theorem to_ascii_zero_byte :
    to_ascii (machine [value.BCODE_NUMBER { number := 256, scale := 0 }] 0)
      = some (machine [value.BCODE_STRING []] 0)
    ∧ ([] : List Nat).length ≠ 1 := by
  decide

/-- C18, amended: `to_ascii` replaces the Value on top of the stack as follows.
A Number `n` (of scale below `2^31`, with integer part `i ≥ 0`) is replaced by
the String made of the byte `i mod 256`, and a String by the String made of
its first byte (`0` for the empty String); the String made of the byte `0` is
the empty String, every other one has exactly one byte. A `BCODE_NONE` Value
is removed and nothing is pushed. -/
theorem to_ascii_byte (m : bmachine) (v : value) (rest : List value)
    (hstack : m.stack = v :: rest) :
    (∀ n, v = value.BCODE_NUMBER n → n.scale < 2147483648 → 0 ≤ trunc (val n) →
      to_ascii m = some { m with
        stack := (value.BCODE_STRING (one_byte_string ((trunc (val n)).toNat % 256))) :: rest }) ∧
    (∀ s, v = value.BCODE_STRING s →
      to_ascii m = some { m with
        stack := (value.BCODE_STRING (one_byte_string (s.headD 0))) :: rest }) ∧
    (v = value.BCODE_NONE → to_ascii m = some { m with stack := rest }) ∧
    (∀ b, b ≠ 0 → one_byte_string b = [b]) ∧ one_byte_string 0 = [] := by
  refine ⟨?_, ?_, ?_, ?_, rfl⟩
  · intro n hv hn hnn
    subst hv
    unfold to_ascii pop push_string
    simp only [hstack, get_ulong_of_small_scale n hn, Option.map_some']
    have e : (trunc (val n)).natAbs % 18446744073709551616 % 256
        = (trunc (val n)).toNat % 256 := by omega
    rw [e]
  · intro s hv
    subst hv
    unfold to_ascii pop push_string
    simp only [hstack]
  · intro hv
    subst hv
    unfold to_ascii pop
    simp only [hstack]
  · intro b hb
    unfold one_byte_string
    rw [if_neg hb]

/-- C18, an instance of `to_ascii_byte`: scenario `99 a`, which leaves the
String `c`. -/
theorem to_ascii_byte_witness :
    to_ascii (machine [value.BCODE_NUMBER { number := 99, scale := 0 }] 0)
      = some { (machine [value.BCODE_NUMBER { number := 99, scale := 0 }] 0) with
          stack := (value.BCODE_STRING
            (one_byte_string ((trunc (val { number := 99, scale := 0 })).toNat % 256))) :: [] } :=
  (to_ascii_byte (machine [value.BCODE_NUMBER { number := 99, scale := 0 }] 0)
    (value.BCODE_NUMBER { number := 99, scale := 0 }) [] rfl).1
    { number := 99, scale := 0 } rfl (by decide) (by rw [trunc_val]; decide)

/-- The scenario `99 a p` of the specification: the String left is the one byte
`99`, the letter `c`. -/
theorem to_ascii_scenario :
    to_ascii (machine [value.BCODE_NUMBER { number := 99, scale := 0 }] 0)
      = some (machine [value.BCODE_STRING [99]] 0) := by
  decide

/-- The byte taken by `to_ascii` from a negative Number is that of its absolute
value: `-1` gives the byte `1`. -/
theorem to_ascii_negative :
    to_ascii (machine [value.BCODE_NUMBER { number := -1, scale := 0 }] 0)
      = some (machine [value.BCODE_STRING [1]] 0) := by
  decide

/-! ## C17: `eval_string` -/

/-- C17, as stated, fails: on the outermost frame (`readsp = 0`) `eval_string`
does not look for a tail call. With that frame at EOF it still pushes a new
frame, and `readsp` becomes `1`. -/
theorem eval_string_outermost_frame :
    (src_readchar (cur_source (machine [] 0))).1 = EOF
    ∧ (eval_string (machine [] 0) [49, 112]).readsp = 1
    ∧ (machine [] 0).readsp = 0 := by
  decide

theorem src_readchar_eof (s : source) (h : s.buf[s.pos]? = none) :
    src_readchar s = (EOF, { s with lastchar := EOF }) := by
  unfold src_readchar
  rw [h]

theorem src_readchar_some (s : source) (c : Nat) (h : s.buf[s.pos]? = some c) :
    src_readchar s = ((c : Int), { s with pos := s.pos + 1, lastchar := (c : Int) }) := by
  unfold src_readchar
  rw [h]

theorem src_unread_after_read (s : source) (c : Nat) (h : s.buf[s.pos]? = some c) :
    src_unreadchar (src_readchar s).2 = { s with lastchar := (c : Int) } := by
  rw [src_readchar_some s c h]
  unfold src_unreadchar EOF
  have h1 : ¬ (((c : Int) = -1) ∨ s.pos + 1 = 0) := by omega
  simp only [h1, if_false, Nat.add_sub_cancel]

theorem getD_set_self (l : List source) (i : Nat) (s d : source) (h : i < l.length) :
    (l.set i s).getD i d = s := by
  rw [List.getD_eq_getElem?_getD, List.getElem?_set_self h]
  rfl

theorem getD_set_other (l : List source) (i j : Nat) (s d : source) (h : i ≠ j) :
    (l.set i s).getD j d = l.getD j d := by
  rw [List.getD_eq_getElem?_getD, List.getD_eq_getElem?_getD, List.getElem?_set_ne h]

/-- C17, amended: on a machine whose read stack has `readstack_sz` frames, the
active one at index `readsp < readstack_sz`. If `readsp > 0` and the active
frame is at EOF, `readsp` stays and the active frame is replaced in place by a
source over `p`, nothing else changing (tail call). Otherwise, that is on the
outermost frame or when the active frame has an unread character, `readsp`
grows by exactly one, the new active frame is a source over `p`, and the frame
below keeps its bytes and its read position. -/
theorem eval_string_frames (m : bmachine) (p : List Nat)
    (hlen : m.readstack.length = m.readstack_sz) (hsp : m.readsp < m.readstack_sz) :
    (m.readsp > 0 → (cur_source m).buf[(cur_source m).pos]? = none →
      eval_string m p = { m with readstack := m.readstack.set m.readsp (src_setstring p) }) ∧
    ((m.readsp = 0 ∨ ∃ c, (cur_source m).buf[(cur_source m).pos]? = some c) →
      (eval_string m p).readsp = m.readsp + 1 ∧
      cur_source (eval_string m p) = src_setstring p ∧
      ((eval_string m p).readstack.getD m.readsp zero_source).buf = (cur_source m).buf ∧
      ((eval_string m p).readstack.getD m.readsp zero_source).pos = (cur_source m).pos) := by
  constructor
  · intro hpos heof
    unfold eval_string readch src_free set_source
    rw [src_readchar_eof _ heof]
    simp only [hpos, true_and, if_true, List.set_set]
  · intro hcase
    have hnot : ¬ (m.readsp > 0 ∧ (readch m).1 = EOF) := by
      rcases hcase with h0 | ⟨c, hc⟩
      · omega
      · intro h
        have := h.2
        unfold readch at this
        rw [src_readchar_some _ c hc] at this
        unfold EOF at this
        simp only at this
        omega
    unfold eval_string
    rw [if_neg hnot]
    -- the machine after the look-ahead
    obtain ⟨m1, hm1, h1sp, h1sz, h1len, h1buf, h1pos⟩ :
        ∃ m1, (if m.readsp > 0 then unreadch (readch m).2 else m) = m1 ∧
          m1.readsp = m.readsp ∧ m1.readstack_sz = m.readstack_sz ∧
          m1.readstack.length = m.readstack_sz ∧
          (m1.readstack.getD m.readsp zero_source).buf = (cur_source m).buf ∧
          (m1.readstack.getD m.readsp zero_source).pos = (cur_source m).pos := by
      by_cases hp : m.readsp > 0
      · rcases hcase with h0 | ⟨c, hc⟩
        · omega
        · refine ⟨_, rfl, ?_⟩
          rw [if_pos hp]
          unfold unreadch readch
          have hcur : cur_source (set_source m (src_readchar (cur_source m)).2)
              = (src_readchar (cur_source m)).2 := by
            unfold cur_source set_source
            exact getD_set_self _ _ _ _ (by omega)
          rw [hcur, src_unread_after_read _ c hc]
          unfold set_source
          simp only [List.set_set, List.length_set]
          refine ⟨trivial, trivial, hlen, ?_, ?_⟩
          · rw [getD_set_self _ _ _ _ (by omega)]
          · rw [getD_set_self _ _ _ _ (by omega)]
      · refine ⟨m, ?_, rfl, rfl, hlen, rfl, rfl⟩
        rw [if_neg hp]
    simp only [hm1]
    by_cases hg : m1.readsp = m1.readstack_sz - 1
    · rw [if_pos hg]
      dsimp only
      have hl : m1.readsp + 1
          < (m1.readstack ++ List.replicate m1.readstack_sz zero_source).length := by
        rw [List.length_append, List.length_replicate]; omega
      refine ⟨by omega, ?_, ?_, ?_⟩
      · unfold cur_source
        simp only
        exact getD_set_self _ _ _ _ hl
      · rw [getD_set_other _ _ _ _ _ (by omega), ← h1buf,
          List.getD_append _ _ _ _ (by omega)]
      · rw [getD_set_other _ _ _ _ _ (by omega), ← h1pos,
          List.getD_append _ _ _ _ (by omega)]
    · rw [if_neg hg]
      have hl : m1.readsp + 1 < m1.readstack.length := by omega
      refine ⟨by omega, ?_, ?_, ?_⟩
      · unfold cur_source
        simp only
        exact getD_set_self _ _ _ _ hl
      · rw [getD_set_other _ _ _ _ _ (by omega), ← h1buf]
      · rw [getD_set_other _ _ _ _ _ (by omega), ← h1pos]


/-- C17, an instance of `eval_string_frames`: a tail call on frame `1`, which is
at EOF. -/
theorem eval_string_frames_witness :
    eval_string { (machine [] 0) with readsp := 1 } [49, 112]
      = { ({ (machine [] 0) with readsp := 1 } : bmachine) with
          readstack := ({ (machine [] 0) with readsp := 1 } : bmachine).readstack.set
            ({ (machine [] 0) with readsp := 1 } : bmachine).readsp (src_setstring [49, 112]) } :=
  (eval_string_frames { (machine [] 0) with readsp := 1 } [49, 112]
    (by decide) (by decide)).1 (by decide) (by decide)

/-! ## Reading from the active frame changes the read stack only -/

theorem readch_frame (m : bmachine) :
    (readch m).2 = { m with readstack := (readch m).2.readstack } := by
  unfold readch set_source
  rfl

theorem unreadch_frame (m : bmachine) :
    unreadch m = { m with readstack := (unreadch m).readstack } := by
  unfold unreadch set_source
  rfl

theorem readline_frame (m : bmachine) :
    (readline m).2 = { m with readstack := (readline m).2.readstack } := by
  unfold readline set_source
  rfl

theorem read_string_frame (m : bmachine) :
    (read_string m).2 = { m with readstack := (read_string m).2.readstack } := by
  unfold read_string set_source
  rfl

theorem frame_trans (m m1 m2 : bmachine) (h1 : m1 = { m with readstack := m1.readstack })
    (h2 : m2 = { m1 with readstack := m2.readstack }) :
    m2 = { m with readstack := m2.readstack } := by
  rw [h2, h1]

theorem readreg_frame (m : bmachine) :
    (readreg m).2 = { m with readstack := (readreg m).2.readstack } := by
  have h1 := readch_frame m
  have h2 := readch_frame (readch m).2
  have h3 := readch_frame (readch (readch m).2).2
  have h12 := frame_trans m _ _ h1 h2
  have h123 := frame_trans m _ _ h12 h3
  unfold readreg
  dsimp only
  split_ifs <;> first | exact h1 | exact h123

theorem readreg_stack (m : bmachine) :
    (readreg m).2.stack = m.stack ∧ (readreg m).2.reg = m.reg ∧
    (readreg m).2.readsp = m.readsp ∧ (readreg m).2.scale = m.scale ∧
    (readreg m).2.ibase = m.ibase ∧ (readreg m).2.obase = m.obase := by
  have h := readreg_frame m
  generalize (readreg m).2 = m1 at h
  rw [h]
  exact ⟨rfl, rfl, rfl, rfl, rfl, rfl⟩

/-! ## C16: `quitN` -/

theorem natAbs_mod_of_small (i : Int) (h0 : 0 ≤ i) (h1 : i < 18446744073709551616) :
    i.natAbs % 18446744073709551616 = i.toNat := by
  omega

/-- C16, as stated, fails: `get_ulong` normalizes with an `int` shift. The
Number `1` at scale `UINT_MAX` has the integer part `0`, but the shift
`(int)(0 - UINT_MAX) = 1` turns it into `10`, and `quitN` drops ten frames. -/
theorem quitN_scale_wrap :
    (quitN { (machine [value.BCODE_NUMBER { number := 1, scale := 4294967295 }] 0) with
        readsp := 10, readstack_sz := 16,
        readstack := List.replicate 16 zero_source }).map (fun m1 => m1.readsp) = some 0
    ∧ trunc (val { number := 1, scale := 4294967295 }) = 0 :=
  ⟨by decide, trunc_val_one_scaled 4294967295 (by decide)⟩

/-- C16, amended: for a popped Number of scale below `2^31` whose integer part
`i` satisfies `0 ≤ i < 2^64`, `quitN` removes the Number, decreases `readsp` by
exactly `i` when `1 ≤ i ≤ readsp`, and otherwise leaves `readsp` as it is; the
frames of the macro-execution stack are not changed in either case. -/
theorem quitN_frames (m : bmachine) (n : number) (rest : List value)
    (hstack : m.stack = value.BCODE_NUMBER n :: rest)
    (hscale : n.scale < 2147483648)
    (h0 : 0 ≤ trunc (val n)) (h1 : trunc (val n) < 18446744073709551616)
    (hsp : m.readsp < 18446744073709551615) :
    quitN m = some { m with
      stack := rest,
      readsp := if 1 ≤ trunc (val n) ∧ trunc (val n) ≤ (m.readsp : Int)
        then m.readsp - (trunc (val n)).toNat else m.readsp } := by
  unfold quitN pop_number
  simp only [hstack, get_ulong_of_small_scale n hscale, natAbs_mod_of_small _ h0 h1,
    GMP_NUMB_MASK, Option.map_some']
  generalize trunc (val n) = i at h0 h1
  by_cases hz : i.toNat = 18446744073709551615 ∨ i.toNat = 0
  · rw [if_pos hz]
    have hc : ¬ (1 ≤ i ∧ i ≤ (m.readsp : Int)) := by omega
    rw [if_neg hc]
  · rw [if_neg hz]
    by_cases hlt : m.readsp < i.toNat
    · rw [if_pos hlt]
      have hc : ¬ (1 ≤ i ∧ i ≤ (m.readsp : Int)) := by omega
      rw [if_neg hc]
    · rw [if_neg hlt]
      have hc : 1 ≤ i ∧ i ≤ (m.readsp : Int) := by omega
      rw [if_pos hc]

/-- C16, an instance of `quitN_frames`: `2 Q` at `readsp = 3`. -/
theorem quitN_frames_witness :
    quitN { (machine [value.BCODE_NUMBER { number := 2, scale := 0 }] 0) with readsp := 3 }
      = some { ({ (machine [value.BCODE_NUMBER { number := 2, scale := 0 }] 0) with
              readsp := 3 } : bmachine) with
          stack := [],
          readsp := if 1 ≤ trunc (val { number := 2, scale := 0 })
              ∧ trunc (val { number := 2, scale := 0 }) ≤ ((3 : Nat) : Int)
            then 3 - (trunc (val { number := 2, scale := 0 })).toNat else 3 } :=
  quitN_frames { (machine [value.BCODE_NUMBER { number := 2, scale := 0 }] 0) with readsp := 3 }
    { number := 2, scale := 0 } [] rfl (by decide)
    (by rw [trunc_val]; decide) (by rw [trunc_val]; decide) (by decide)

/-- The sign of the count is lost in `get_ulong`: `_1 Q` at `readsp = 1` drops
one frame. -/
theorem quitN_negative_count :
    (quitN { (machine [value.BCODE_NUMBER { number := -1, scale := 0 }] 0) with
        readsp := 1 }).map (fun m1 => m1.readsp) = some 0 := by
  decide

/-- Only the low limb of the count is read by `get_ulong`: the count `2^64 + 1`
at `readsp = 1` drops one frame. -/
theorem quitN_large_count :
    (quitN { (machine [value.BCODE_NUMBER
        { number := 18446744073709551617, scale := 0 }] 0) with readsp := 1 }).map
      (fun m1 => m1.readsp) = some 0 := by
  decide

/-! ## C12: `set_scale`, `set_ibase`, `set_obase` -/

/-- C12, as stated, fails: `get_ulong` normalizes with an `int` shift. The
Number `1` at scale `UINT_MAX` has the integer part `0`, outside `[2, 16]`, but
`set_ibase` reads it as `10` and changes the input base from `16` to `10`. -/
theorem set_ibase_scale_wrap :
    (set_ibase { (machine [value.BCODE_NUMBER { number := 1, scale := 4294967295 }] 0) with
        ibase := 16 }).map (fun m1 => m1.ibase) = some 10
    ∧ trunc (val { number := 1, scale := 4294967295 }) = 0 :=
  ⟨by decide, trunc_val_one_scaled 4294967295 (by decide)⟩

/-- C12, amended: for a popped Number `n` of scale below `2^31` with integer
part `i`. `set_scale` removes `n` and changes nothing else when `i < 0` or
`UINT_MAX < i < 2^64`; `set_ibase` does so when `0 ≤ i < 2^64` and `i` is
outside `[2, 16]`; `set_obase` does so when `0 ≤ i < 2`. -/
theorem base_setters_reject (m : bmachine) (n : number) (rest : List value)
    (hstack : m.stack = value.BCODE_NUMBER n :: rest)
    (hscale : n.scale < 2147483648) :
    ((trunc (val n) < 0 ∨
        (4294967295 < trunc (val n) ∧ trunc (val n) < 18446744073709551616)) →
      set_scale m = some { m with stack := rest }) ∧
    ((0 ≤ trunc (val n) ∧ trunc (val n) < 18446744073709551616 ∧
        (trunc (val n) < 2 ∨ 16 < trunc (val n))) →
      set_ibase m = some { m with stack := rest }) ∧
    ((0 ≤ trunc (val n) ∧ trunc (val n) < 2) →
      set_obase m = some { m with stack := rest }) := by
  refine ⟨?_, ?_, ?_⟩
  · intro h
    unfold set_scale pop_number
    simp only [hstack]
    by_cases hneg : n.number < 0
    · rw [if_pos hneg]
    · rw [if_neg hneg]
      simp only [get_ulong_of_small_scale n hscale, GMP_NUMB_MASK, UINT_MAX,
        Option.map_some']
      have hnn : 0 ≤ trunc (val n) := by
        rw [trunc_val]
        exact Int.tdiv_nonneg (by omega) (by positivity)
      have hrange : 4294967295 < trunc (val n) ∧ trunc (val n) < 18446744073709551616 := by
        rcases h with h | h
        · omega
        · exact h
      rw [natAbs_mod_of_small _ hnn hrange.2]
      have hc : ¬ ((trunc (val n)).toNat ≠ 18446744073709551615
          ∧ (trunc (val n)).toNat ≤ 4294967295) := by omega
      rw [if_neg hc]
  · intro h
    unfold set_ibase pop_number
    simp only [hstack, get_ulong_of_small_scale n hscale, GMP_NUMB_MASK,
      natAbs_mod_of_small _ h.1 h.2.1, Option.map_some']
    have hc : ¬ ((trunc (val n)).toNat ≠ 18446744073709551615 ∧ 2 ≤ (trunc (val n)).toNat
        ∧ (trunc (val n)).toNat ≤ 16) := by omega
    rw [if_neg hc]
  · intro h
    unfold set_obase pop_number
    simp only [hstack, get_ulong_of_small_scale n hscale, GMP_NUMB_MASK, UINT_MAX,
      natAbs_mod_of_small _ h.1 (by omega), Option.map_some']
    have hc : ¬ ((trunc (val n)).toNat ≠ 18446744073709551615 ∧ (trunc (val n)).toNat > 1
        ∧ (trunc (val n)).toNat ≤ 4294967295) := by omega
    rw [if_neg hc]

/-- C12, an instance of `base_setters_reject`: `17 i` is rejected. -/
theorem base_setters_reject_witness :
    set_ibase (machine [value.BCODE_NUMBER { number := 17, scale := 0 }] 0)
      = some { (machine [value.BCODE_NUMBER { number := 17, scale := 0 }] 0) with stack := [] } :=
  (base_setters_reject (machine [value.BCODE_NUMBER { number := 17, scale := 0 }] 0)
    { number := 17, scale := 0 } [] rfl (by decide)).2.1
    ⟨by rw [trunc_val]; decide, by rw [trunc_val]; decide,
      Or.inr (by rw [trunc_val]; decide)⟩

/-- The sign of the base is lost in `get_ulong`: `_10 i` sets the input base
`10`, and `_5 o` the output base `5`. -/
theorem set_base_negative :
    (set_ibase { (machine [value.BCODE_NUMBER { number := -10, scale := 0 }] 0) with
        ibase := 16 }).map (fun m1 => m1.ibase) = some 10
    ∧ (set_obase (machine [value.BCODE_NUMBER { number := -5, scale := 0 }] 0)).map
        (fun m1 => m1.obase) = some 5 := by
  decide

/-- Only the low limb is read by `get_ulong`: `2^64 + 5` is accepted by
`set_scale` as the scale `5`, although it exceeds `UINT_MAX`. -/
theorem set_scale_large :
    (set_scale (machine [value.BCODE_NUMBER
      { number := 18446744073709551621, scale := 0 }] 0)).map (fun m1 => m1.scale)
      = some 5 := by
  decide

/-! ## C15: `store_array` -/

/-- C15, as stated, fails: `get_ulong` normalizes with an `int` shift. The index
`1` at scale `UINT_MAX` has the integer part `0`, but the shift
`(int)(0 - UINT_MAX) = 1` turns it into `10`, and `store_array` writes the Value
`7` at slot `10` of the register `a` (code `97`), leaving slot `0` without a
Value. -/
theorem store_array_scale_wrap :
    (store_array
      { (machine [value.BCODE_NUMBER { number := 1, scale := 4294967295 },
                  value.BCODE_NUMBER { number := 7, scale := 0 }] 0) with
        readstack := [{ buf := [97], pos := 0, lastchar := 0 }] ++
          List.replicate 7 zero_source }).map
        (fun m1 => frame_retrieve (reg_stack m1 97) 10)
      = some (some (value.BCODE_NUMBER { number := 7, scale := 0 }))
    ∧ (store_array
      { (machine [value.BCODE_NUMBER { number := 1, scale := 4294967295 },
                  value.BCODE_NUMBER { number := 7, scale := 0 }] 0) with
        readstack := [{ buf := [97], pos := 0, lastchar := 0 }] ++
          List.replicate 7 zero_source }).map
        (fun m1 => frame_retrieve (reg_stack m1 97) 0)
      = some (some value.BCODE_NONE)
    ∧ trunc (val { number := 1, scale := 4294967295 }) = 0 :=
  ⟨by decide, by decide, trunc_val_one_scaled 4294967295 (by decide)⟩

/-- Only the low limb of the index is read by `get_ulong`, and the test against
`GMP_NUMB_MASK` does not notice: the index `2^64`, far above `MAX_ARRAY_INDEX`,
stores the Value `7` at slot `0` of the register `a` (code `97`). -/
theorem store_array_large_index :
    (store_array
      { (machine [value.BCODE_NUMBER { number := 18446744073709551616, scale := 0 },
                  value.BCODE_NUMBER { number := 7, scale := 0 }] 0) with
        readstack := [{ buf := [97], pos := 0, lastchar := 0 }] ++
          List.replicate 7 zero_source }).map
        (fun m1 => frame_retrieve (reg_stack m1 97) 0)
      = some (some (value.BCODE_NUMBER { number := 7, scale := 0 }))
    ∧ (machine [] 0).reg = [] := by
  decide

/-- C15, amended: for a register `R` read from the active frame, an index of
scale below `2^31` on top of a Value `v`, and the integer part `i` of the index.
When `i < 0` or `2048 < i < 2^64`, `store_array` consumes both and leaves all
registers as they were; when `0 ≤ i ≤ 2048` it assigns `v` at slot `i` of the
frame of register `R`. -/
theorem store_array_index (m : bmachine) (R : Nat) (inumber : number) (v : value)
    (rest : List value)
    (hreg : (readreg m).1 = (R : Int))
    (hstack : m.stack = value.BCODE_NUMBER inumber :: v :: rest)
    (hscale : inumber.scale < 2147483648) :
    ((trunc (val inumber) < 0 ∨
        (2048 < trunc (val inumber) ∧ trunc (val inumber) < 18446744073709551616)) →
      store_array m = some { (readreg m).2 with stack := rest } ∧
      (store_array m).map (fun m1 => m1.reg) = some m.reg) ∧
    ((0 ≤ trunc (val inumber) ∧ trunc (val inumber) ≤ 2048) →
      store_array m = some (set_reg { (readreg m).2 with stack := rest } R
        (frame_assign (reg_stack m R) (trunc (val inumber)).toNat v))) := by
  obtain ⟨hs, hr, -⟩ := readreg_stack m
  have hge : (readreg m).1 ≥ 0 := by rw [hreg]; omega
  have hR : (readreg m).1.toNat = R := by rw [hreg]; simp
  have hpop : pop_number (readreg m).2
      = some (inumber, { (readreg m).2 with stack := v :: rest }) := by
    unfold pop_number
    rw [hs, hstack]
  constructor
  · intro h
    have hres : store_array m = some { (readreg m).2 with stack := rest } := by
      unfold store_array
      simp only [hge, if_true, hpop, pop, get_ulong_of_small_scale inumber hscale,
        GMP_NUMB_MASK, MAX_ARRAY_INDEX, Option.map_some']
      rcases h with h | h
      · rw [if_pos h]
      · rw [if_neg (by omega), natAbs_mod_of_small _ (by omega) h.2]
        have hc : (trunc (val inumber)).toNat = 18446744073709551615
            ∨ (trunc (val inumber)).toNat > 2048 := by omega
        rw [if_pos hc]
    refine ⟨hres, ?_⟩
    rw [hres, Option.map_some']
    exact congrArg some hr
  · intro h
    unfold store_array
    simp only [hge, if_true, hpop, pop, get_ulong_of_small_scale inumber hscale,
      GMP_NUMB_MASK, MAX_ARRAY_INDEX, hR, Option.map_some']
    rw [if_neg (by omega), natAbs_mod_of_small _ h.1 (by omega)]
    have hc : ¬ ((trunc (val inumber)).toNat = 18446744073709551615
        ∨ (trunc (val inumber)).toNat > 2048) := by omega
    rw [if_neg hc]
    have e : reg_stack { (readreg m).2 with stack := rest } R = reg_stack m R := by
      unfold reg_stack
      rw [show ({ (readreg m).2 with stack := rest } : bmachine).reg = (readreg m).2.reg from rfl,
        hr]
    rw [e]

/-- C15, an instance of `store_array_index`: `7 3 :a` assigns at slot `3`. -/
theorem store_array_index_witness :
    store_array
        { (machine [value.BCODE_NUMBER { number := 3, scale := 0 },
                    value.BCODE_NUMBER { number := 7, scale := 0 }] 0) with
          readstack := [{ buf := [97], pos := 0, lastchar := 0 }] ++
            List.replicate 7 zero_source }
      = some (set_reg
          { (readreg
              { (machine [value.BCODE_NUMBER { number := 3, scale := 0 },
                          value.BCODE_NUMBER { number := 7, scale := 0 }] 0) with
                readstack := [{ buf := [97], pos := 0, lastchar := 0 }] ++
                  List.replicate 7 zero_source }).2 with stack := [] } 97
          (frame_assign
            (reg_stack
              { (machine [value.BCODE_NUMBER { number := 3, scale := 0 },
                          value.BCODE_NUMBER { number := 7, scale := 0 }] 0) with
                readstack := [{ buf := [97], pos := 0, lastchar := 0 }] ++
                  List.replicate 7 zero_source } 97)
            (trunc (val { number := 3, scale := 0 })).toNat
            (value.BCODE_NUMBER { number := 7, scale := 0 }))) :=
  (store_array_index
    { (machine [value.BCODE_NUMBER { number := 3, scale := 0 },
                value.BCODE_NUMBER { number := 7, scale := 0 }] 0) with
      readstack := [{ buf := [97], pos := 0, lastchar := 0 }] ++
        List.replicate 7 zero_source }
    97 { number := 3, scale := 0 } (value.BCODE_NUMBER { number := 7, scale := 0 }) []
    (by decide) rfl (by decide)).2
    ⟨by rw [trunc_val]; decide, by rw [trunc_val]; decide⟩

/-! ## C11: the conditional `<R` -/

theorem compare_less_iff (a b : number)
    (ha : a.scale < 4294967296) (hb : b.scale < 4294967296)
    (hab : a.scale - b.scale < 2147483648) (hba : b.scale - a.scale < 2147483648) :
    compare_numbers bcode_compare.BCODE_LESS a b = some (decide (val a < val b)) := by
  obtain ⟨x, y, s, hc, hx, hy⟩ := compare_numbers_aligned a b ha hb hab hba
  obtain ⟨-, h1, -⟩ := mpz_cmp_sign x y
  rw [← hx, ← hy]
  have e3 := hc bcode_compare.BCODE_LESS
  simp only at e3
  rw [e3]
  congr 1
  rw [decide_eq_decide, val_lt_same_scale]
  exact h1

/-- C11, as stated, fails: with `x = 1` pushed first and `y = 2` on top, and the
macro `3` on top of register `a` (code `97`), the conditional `<a` (the source
frame holds `a p` after the opcode) pops both numbers and does not start the
macro, although `x < y`: the read stack pointer stays `0`, the frame is left at
the blank before `p`, and the stack is empty where the claim wants `3`. -/
theorem compare_less_second_below_top :
    val { number := 1, scale := 0 } < val { number := 2, scale := 0 } ∧
    compare bcode_compare.BCODE_LESS
      { (machine [value.BCODE_NUMBER { number := 2, scale := 0 },
                  value.BCODE_NUMBER { number := 1, scale := 0 }] 0) with
        reg := List.replicate 97 [] ++
          [[{ val := value.BCODE_STRING [51], array := [] }],
           [{ val := value.BCODE_STRING [50], array := [] }]],
        readstack := [{ buf := [97, 32, 112], pos := 0, lastchar := 0 }] ++
          List.replicate 7 zero_source }
      = some { (machine [] 0) with
          reg := List.replicate 97 [] ++
            [[{ val := value.BCODE_STRING [51], array := [] }],
             [{ val := value.BCODE_STRING [50], array := [] }]],
          readstack := [{ buf := [97, 32, 112], pos := 1, lastchar := 32 }] ++
            List.replicate 7 zero_source } := by
  refine ⟨?_, ?_⟩
  · rw [val_lt_same_scale]; decide
  · decide

/-- C11, amended: for Numbers `x` and `y` pushed in that order (`y` on top, the
scales less than `2^31` apart) and a register `R` whose top is the String `s`,
the conditional `<R` with no else arm pops both numbers and then starts the
macro `s` with `eval_string` exactly when `y < x`, the value on top being less
than the one beneath it; otherwise nothing more happens. -/
theorem compare_less_top_below_second (m : bmachine) (R : Nat) (x y : number)
    (s : List Nat) (arr : List value) (tl : List slot) (rest : List value)
    (hreg : (readreg m).1 = (R : Int))
    (hnoelse : (readch (readreg m).2).1 ≠ 101)
    (hstack : m.stack = value.BCODE_NUMBER y :: value.BCODE_NUMBER x :: rest)
    (htop : reg_stack m R = { val := value.BCODE_STRING s, array := arr } :: tl)
    (hx : x.scale < 4294967296) (hy : y.scale < 4294967296)
    (hxy : x.scale - y.scale < 2147483648) (hyx : y.scale - x.scale < 2147483648) :
    compare bcode_compare.BCODE_LESS m =
      some (if val y < val x then
        eval_string { (unreadch (readch (readreg m).2).2) with stack := rest } s
      else { (unreadch (readch (readreg m).2).2) with stack := rest }) := by
  have hf : unreadch (readch (readreg m).2).2
      = { m with readstack := (unreadch (readch (readreg m).2).2).readstack } :=
    frame_trans m _ _ (frame_trans m _ _ (readreg_frame m) (readch_frame _)) (unreadch_frame _)
  have hc := compare_less_iff y x hy hx hyx hxy
  unfold compare
  simp only [if_neg hnoelse]
  generalize unreadch (readch (readreg m).2).2 = mp at hf
  have hs : mp.stack = value.BCODE_NUMBER y :: value.BCODE_NUMBER x :: rest := by
    rw [hf]; exact hstack
  have hr : reg_stack { mp with stack := rest } R = reg_stack m R := by
    rw [hf]; rfl
  have hR : (readreg m).1.toNat = R := by rw [hreg]; simp
  have hge : (readreg m).1 ≥ 0 := by rw [hreg]; omega
  unfold pop_number
  simp only [hs, hc, Option.map_some']
  by_cases hlt : val y < val x
  · simp only [hlt, decide_True, Bool.true_eq_false, false_and, if_false, true_or, and_true,
      hge, if_true, hR, hr, htop]
  · simp only [hlt, decide_False, Bool.false_eq_true, ne_eq, not_true_eq_false, and_false,
      if_false, or_self]

/-- C11, an instance of `compare_less_top_below_second`: `2 1 <a` with the macro
`3` on top of register `a`. -/
theorem compare_less_top_below_second_witness :
    compare bcode_compare.BCODE_LESS
      { (machine [value.BCODE_NUMBER { number := 1, scale := 0 },
                  value.BCODE_NUMBER { number := 2, scale := 0 }] 0) with
        reg := List.replicate 97 [] ++ [[{ val := value.BCODE_STRING [51], array := [] }]],
        readstack := [{ buf := [97, 32, 112], pos := 0, lastchar := 0 }] ++
          List.replicate 7 zero_source }
      = some (if val { number := 1, scale := 0 } < val { number := 2, scale := 0 } then
          eval_string
            { (unreadch (readch (readreg
                { (machine [value.BCODE_NUMBER { number := 1, scale := 0 },
                            value.BCODE_NUMBER { number := 2, scale := 0 }] 0) with
                  reg := List.replicate 97 [] ++
                    [[{ val := value.BCODE_STRING [51], array := [] }]],
                  readstack := [{ buf := [97, 32, 112], pos := 0, lastchar := 0 }] ++
                    List.replicate 7 zero_source }).2).2) with stack := [] } [51]
        else
          { (unreadch (readch (readreg
                { (machine [value.BCODE_NUMBER { number := 1, scale := 0 },
                            value.BCODE_NUMBER { number := 2, scale := 0 }] 0) with
                  reg := List.replicate 97 [] ++
                    [[{ val := value.BCODE_STRING [51], array := [] }]],
                  readstack := [{ buf := [97, 32, 112], pos := 0, lastchar := 0 }] ++
                    List.replicate 7 zero_source }).2).2) with stack := [] }) :=
  compare_less_top_below_second
    { (machine [value.BCODE_NUMBER { number := 1, scale := 0 },
                value.BCODE_NUMBER { number := 2, scale := 0 }] 0) with
      reg := List.replicate 97 [] ++ [[{ val := value.BCODE_STRING [51], array := [] }]],
      readstack := [{ buf := [97, 32, 112], pos := 0, lastchar := 0 }] ++
        List.replicate 7 zero_source }
    97 { number := 2, scale := 0 } { number := 1, scale := 0 } [51] [] [] []
    (by decide) (by decide) rfl (by decide) (by decide) (by decide) (by decide) (by decide)

/-- The macro does start when the top is the smaller one: after `2 1 <a` the
read stack pointer is `1` and the new frame holds the macro `3`. -/
theorem compare_less_scenario :
    (compare bcode_compare.BCODE_LESS
      { (machine [value.BCODE_NUMBER { number := 1, scale := 0 },
                  value.BCODE_NUMBER { number := 2, scale := 0 }] 0) with
        reg := List.replicate 97 [] ++ [[{ val := value.BCODE_STRING [51], array := [] }]],
        readstack := [{ buf := [97, 32, 112], pos := 0, lastchar := 0 }] ++
          List.replicate 7 zero_source }).map (fun m1 => m1.readsp) = some 1 ∧
    (compare bcode_compare.BCODE_LESS
      { (machine [value.BCODE_NUMBER { number := 1, scale := 0 },
                  value.BCODE_NUMBER { number := 2, scale := 0 }] 0) with
        reg := List.replicate 97 [] ++ [[{ val := value.BCODE_STRING [51], array := [] }]],
        readstack := [{ buf := [97, 32, 112], pos := 0, lastchar := 0 }] ++
          List.replicate 7 zero_source }).map cur_source = some (src_setstring [51]) := by
  decide

/-! ## C14: `bexp`, then as many divisions -/

theorem bmul_number_exact (k : Nat) (x y : number) (sc : Nat)
    (h : x.scale + y.scale ≤ k) (hk : k < 4294967296) :
    bmul_number k x y sc
      = some { number := x.number * y.number, scale := x.scale + y.scale } := by
  unfold bmul_number
  simp only
  rw [uadd_of_lt _ _ (by omega)]
  have hg : ¬ (x.scale + y.scale > k ∧ x.scale + y.scale > x.scale ∧
      x.scale + y.scale > y.scale) := by omega
  rw [if_neg hg]

/-- The first loop of `bexp`, when every product stays within the machine scale
`k`: it keeps `a^p`, the scale included, and ends on an odd `p`. -/
theorem bexp_loop1_exact (k : Nat) (hk : k < 4294967296) : ∀ (fuel p : Nat) (a : number),
    0 < p → p ≤ fuel → a.scale * p ≤ k →
    ∃ s1 : number × Nat × Nat, bexp_loop1 fuel k a a.scale p = some s1 ∧
      s1.2.1 = s1.1.scale ∧ s1.2.2 % 2 = 1 ∧
      s1.1.number ^ s1.2.2 = a.number ^ p ∧
      s1.1.scale * s1.2.2 = a.scale * p := by
  intro fuel
  induction fuel with
  | zero => intro p a hp hle; omega
  | succ f ih =>
    intro p a hp hle hs
    rw [bexp_loop1]
    by_cases hodd : p % 2 = 1
    · rw [if_pos ((tstbit0_iff p).mpr hodd)]
      exact ⟨_, rfl, rfl, hodd, rfl, rfl⟩
    · have hne : ¬ (tstbit0 p = true) := fun h => hodd ((tstbit0_iff p).mp h)
      rw [if_neg hne]
      have e : p = 2 * (p / 2) := by omega
      have hs2 : a.scale * 2 * (p / 2) ≤ k := by
        have : a.scale * 2 * (p / 2) = a.scale * p := by
          conv_rhs => rw [e]
          ring
        omega
      have h2 : a.scale + a.scale ≤ k := by
        have hp2 : 1 ≤ p / 2 := by omega
        have : a.scale * 2 * 1 ≤ a.scale * 2 * (p / 2) := Nat.mul_le_mul_left _ hp2
        omega
      have hu : umul a.scale 2 = a.scale + a.scale := by
        rw [umul_of_lt _ _ (by omega)]
        omega
      simp only [hu]
      rw [bmul_number_exact k a a _ h2 hk, Option.some_bind]
      obtain ⟨s1, h0, h1, h3, h4, h5⟩ := ih (p / 2)
        { number := a.number * a.number, scale := a.scale + a.scale }
        (by omega) (by omega) (by simp only; rw [← Nat.mul_two]; exact hs2)
      simp only at h0 h1 h3 h4 h5
      refine ⟨s1, h0, h1, h3, ?_, ?_⟩
      · rw [h4]
        conv_rhs => rw [e, pow_mul, sq]
      · rw [h5]
        conv_rhs => rw [e]
        ring

/-- The second loop of `bexp`, when every product stays within the machine
scale `k`: it multiplies `r` by `(a^2)^p`, the scale included. -/
theorem bexp_loop2_exact (k : Nat) (hk : k < 4294967296) : ∀ (fuel p : Nat) (a r : number),
    p < fuel → r.scale + 2 * a.scale * p ≤ k →
    bexp_loop2 fuel k a r a.scale r.scale p
      = some { number := r.number * (a.number * a.number) ^ p,
               scale := r.scale + 2 * a.scale * p } := by
  intro fuel
  induction fuel with
  | zero => intro p a r hlt; omega
  | succ f ih =>
    intro p a r hlt hs
    rw [bexp_loop2]
    by_cases hp : p = 0
    · subst hp
      simp only [if_true, pow_zero, mul_one, Nat.mul_zero, Nat.add_zero]
    · rw [if_neg hp]
      have h2 : a.scale + a.scale ≤ k := by
        have hp1 : 1 ≤ p := by omega
        have : 2 * a.scale * 1 ≤ 2 * a.scale * p := Nat.mul_le_mul_left _ hp1
        omega
      have hu : umul a.scale 2 = a.scale + a.scale := by
        rw [umul_of_lt _ _ (by omega)]
        omega
      simp only [hu]
      rw [bmul_number_exact k a a _ h2 hk, Option.some_bind]
      by_cases hodd : p % 2 = 1
      · rw [if_pos ((tstbit0_iff p).mpr hodd)]
        have e : p = 2 * (p / 2) + 1 := by omega
        have hsc : r.scale + 2 * a.scale * p
            = r.scale + (a.scale + a.scale) + 2 * (a.scale + a.scale) * (p / 2) := by
          conv_lhs => rw [e]
          ring
        have h3 : r.scale + (a.scale + a.scale) ≤ k := by omega
        rw [uadd_of_lt _ _ (by omega)]
        rw [bmul_number_exact k r { number := a.number * a.number, scale := a.scale + a.scale }
          _ h3 hk, Option.some_bind]
        have hi := ih (p / 2) { number := a.number * a.number, scale := a.scale + a.scale }
          { number := r.number * (a.number * a.number), scale := r.scale + (a.scale + a.scale) }
          (by omega) (by simp only; omega)
        simp only at hi
        rw [hi, hsc]
        congr 2
        conv_rhs => rw [e, pow_succ, pow_mul, sq]
        ring
      · have hne : ¬ (tstbit0 p = true) := fun h => hodd ((tstbit0_iff p).mp h)
        rw [if_neg hne]
        have e : p = 2 * (p / 2) := by omega
        have hsc : r.scale + 2 * a.scale * p
            = r.scale + 2 * (a.scale + a.scale) * (p / 2) := by
          conv_lhs => rw [e]
          ring
        have hi := ih (p / 2) { number := a.number * a.number, scale := a.scale + a.scale } r
          (by omega) (by simp only; omega)
        simp only at hi
        rw [hi, hsc]
        congr 2
        conv_rhs => rw [e, pow_mul, sq]

/-- The Number computed by `bexp` for an exponent of value `e ≥ 1`, when
`a.scale * e` stays within the machine scale `k`: the exact power. -/
theorem bexp_number_exact (k : Nat) (a p : number) (e : Nat)
    (hk : k < 2147483648) (he : 1 ≤ e) (hp : p.number = (e : Int) * 10 ^ p.scale)
    (hs : a.scale * e ≤ k) :
    bexp_number k a p = some { number := a.number ^ e, scale := a.scale * e } := by
  have hexp := bexp_exponent_of_integer p e hp
  have hsk : a.scale ≤ k := by
    have : a.scale * 1 ≤ a.scale * e := Nat.mul_le_mul_left _ he
    omega
  have hrs : bexp_rscale k a (e : Int) = a.scale * e := by
    unfold bexp_rscale
    have hneg : ¬ ((e : Int) < 0) := by omega
    rw [if_neg hneg]
    simp only
    have hm : max a.scale k = k := by
      rw [max_eq]
      exact Nat.max_eq_right hsk
    rw [hm]
    by_cases h0 : a.scale = 0
    · have hu : ∀ x, umul a.scale x = 0 := by
        intro x
        unfold umul
        rw [h0]
        simp
      rw [hu]
      have hg : ¬ (0 > k ∨ (a.scale > 0 ∧ (mpz_get_ui (e : Int) = GMP_NUMB_MASK ∨
          mpz_get_ui (e : Int) > UINT_MAX))) := by omega
      rw [if_neg hg, h0]
      simp
    · have hek : e ≤ k := by
        have : 1 * e ≤ a.scale * e := Nat.mul_le_mul_right _ (by omega)
        omega
      have hb : mpz_get_ui (e : Int) = e := by
        unfold mpz_get_ui
        rw [Int.natAbs_ofNat]
        omega
      rw [hb]
      have hmod : e % 4294967296 = e := by omega
      rw [hmod, umul_of_lt _ _ (by omega)]
      have hg : ¬ (a.scale * e > k ∨
          (a.scale > 0 ∧ (e = GMP_NUMB_MASK ∨ e > UINT_MAX))) := by
        unfold GMP_NUMB_MASK UINT_MAX
        omega
      rw [if_neg hg]
  unfold bexp_number
  simp only [hexp, hrs, Int.natAbs_ofNat]
  rw [if_neg (by omega)]
  have hneg : ¬ ((e : Int) < 0) := by omega
  simp only [hneg, decide_False, Bool.false_eq_true, if_false]
  obtain ⟨s1, h0, h1, h2, h3, h4⟩ :=
    bexp_loop1_exact k (by omega) e e a (by omega) le_rfl hs
  rw [h0, Option.some_bind]
  have e2 : s1.2.2 = 2 * (s1.2.2 / 2) + 1 := by omega
  have hsc : (dup_number s1.1).scale + 2 * s1.1.scale * (s1.2.2 / 2) = a.scale * e := by
    rw [← h4]
    conv_rhs => rw [e2]
    simp only [dup_number]
    ring
  rw [h1]
  have hl := bexp_loop2_exact k (by omega) (s1.2.2 / 2 + 1) (s1.2.2 / 2) s1.1 (dup_number s1.1)
    (by omega) (by rw [hsc]; exact hs)
  have hd : (dup_number s1.1).scale = s1.1.scale := rfl
  rw [hd] at hl hsc
  rw [hl, hsc, Option.some_bind]
  have hn := normalize_same
    { number := (dup_number s1.1).number * (s1.1.number * s1.1.number) ^ (s1.2.2 / 2),
      scale := a.scale * e }
  simp only at hn
  rw [hn]
  congr 2
  rw [← h3]
  simp only [dup_number]
  conv_rhs => rw [e2, pow_succ, pow_mul, sq]
  exact mul_comm _ _

/-- One division by `a` of a Number holding `a^j` at the scale `T`, when
`a.scale * j ≤ T ≤ k`: the quotient is `a^(j-1)` at the machine scale `k`,
nothing being cut off. -/
theorem bdiv_number_power (k : Nat) (a : number) (j T : Nat)
    (ha : a.number ≠ 0) (hk : k < 2147483648) (hj : 1 ≤ j)
    (hT : a.scale * j ≤ T) (hTk : T ≤ k) :
    bdiv_number k a { number := a.number ^ j * 10 ^ (T - a.scale * j), scale := T }
      = some { number := a.number ^ (j - 1) * 10 ^ (k - a.scale * (j - 1)), scale := k } := by
  have hsT : a.scale ≤ T := by
    have : a.scale * 1 ≤ a.scale * j := Nat.mul_le_mul_left _ hj
    omega
  have hj1 : a.scale * (j - 1) + a.scale = a.scale * j := by
    have : j = (j - 1) + 1 := by omega
    conv_rhs => rw [this, Nat.mul_add, Nat.mul_one]
  unfold bdiv_number
  simp only
  have hm : max a.scale T = T := by
    rw [max_eq]
    exact Nat.max_eq_right hsT
  rw [hm, if_neg ha, uadd_of_lt _ _ (by omega),
    normalize_up a T hsT (by omega) (by omega),
    normalize_up { number := a.number ^ j * 10 ^ (T - a.scale * j), scale := T } (T + k)
      (by simp only; omega) (by omega) (by simp only; omega)]
  simp only [Option.some_bind]
  have hne : a.number * 10 ^ (T - a.scale) ≠ 0 := mul_ne_zero ha (by positivity)
  unfold mpz_tdiv_q
  rw [if_neg hne]
  simp only [Option.map_some', Option.some.injEq, number.mk.injEq, and_true]
  have hpow : a.number ^ j = a.number ^ (j - 1) * a.number := by
    have : j = (j - 1) + 1 := by omega
    conv_lhs => rw [this, pow_succ]
  have hexp : (T - a.scale * j) + (T + k - T) = (k - a.scale * (j - 1)) + (T - a.scale) := by
    omega
  have hnum : a.number ^ j * 10 ^ (T - a.scale * j) * 10 ^ (T + k - T)
      = a.number ^ (j - 1) * 10 ^ (k - a.scale * (j - 1)) * (a.number * 10 ^ (T - a.scale)) := by
    rw [mul_assoc, ← pow_add, hexp, pow_add, hpow]
    ring
  rw [hnum]
  exact Int.mul_tdiv_cancel _ hne

theorem bdiv_on_two_numbers (m : bmachine) (a b : number) (rest : List value)
    (hstack : m.stack = value.BCODE_NUMBER a :: value.BCODE_NUMBER b :: rest) :
    bdiv m = (bdiv_number m.scale a b).map
      (fun r => { m with stack := value.BCODE_NUMBER r :: rest }) := by
  unfold bdiv pop_number push_number
  simp only [hstack]

/-- The program `a /` run `j` times on a Number holding `a^j` at the machine
scale, when `a.scale * j` stays within that scale: it ends on `10^k` at the
scale `k`. -/
theorem bdiv_times_power (a : number) (ha : a.number ≠ 0) : ∀ (j : Nat) (m : bmachine)
    (rest : List value), m.scale < 2147483648 → a.scale * j ≤ m.scale →
    m.stack = value.BCODE_NUMBER
      { number := a.number ^ j * 10 ^ (m.scale - a.scale * j), scale := m.scale } :: rest →
    bdiv_times a j m = some { m with
      stack := (value.BCODE_NUMBER { number := 10 ^ m.scale, scale := m.scale }) :: rest } := by
  intro j
  induction j with
  | zero =>
    intro m rest hk hs hstack
    simp only [bdiv_times]
    congr 1
    cases m
    simp only at hstack ⊢
    rw [hstack]
    simp
  | succ j ih =>
    intro m rest hk hs hstack
    rw [bdiv_times]
    rw [bdiv_on_two_numbers (push_number m a) a
      { number := a.number ^ (j + 1) * 10 ^ (m.scale - a.scale * (j + 1)), scale := m.scale }
      rest (by unfold push_number; simp only [hstack])]
    have hd := bdiv_number_power m.scale a (j + 1) m.scale ha hk (by omega) hs le_rfl
    have hsc : (push_number m a).scale = m.scale := rfl
    rw [hsc, hd]
    simp only [Option.map_some', Option.some_bind, Nat.add_sub_cancel]
    have hs2 : a.scale * j ≤ m.scale := by
      have : a.scale * j ≤ a.scale * (j + 1) := Nat.mul_le_mul_left _ (by omega)
      omega
    exact ih _ rest hk hs2 rfl

theorem val_pow_ten_scale (k : Nat) : val { number := 10 ^ k, scale := k } = 1 := by
  unfold val
  simp only
  push_cast
  exact div_self (by positivity)

/-- C14, as stated, fails: for `a = 0.5` at machine scale `0` and `e = 2`, `bexp`
keeps one digit of `0.25`, and the two divisions by `0.5` end on `0`, not `1`. -/
theorem bexp_then_bdiv_truncates :
    (bexp (machine [value.BCODE_NUMBER { number := 2, scale := 0 },
                    value.BCODE_NUMBER { number := 5, scale := 1 }] 0)).bind
        (bdiv_times { number := 5, scale := 1 } 2)
      = some (machine [value.BCODE_NUMBER { number := 0, scale := 0 }] 0)
    ∧ val { number := 0, scale := 0 } ≠ 1 := by
  refine ⟨by decide, ?_⟩
  rw [val_zero_number]
  norm_num

/-- For the exponent `0` no division follows, and the `1` left by `bexp` has the
scale `0`, whatever the machine scale: here `3 0 ^` at machine scale `2`. -/
theorem bexp_zero_exponent_scale :
    (bexp (machine [value.BCODE_NUMBER { number := 0, scale := 0 },
                    value.BCODE_NUMBER { number := 3, scale := 0 }] 2)).bind
        (bdiv_times { number := 3, scale := 0 } 0)
      = some (machine [value.BCODE_NUMBER { number := 1, scale := 0 }] 2) := by
  decide

/-- C14, amended: for a Number `a ≠ 0`, a machine scale `k < 2^31` and an
exponent of integer value `e ≥ 1` such that `a.scale * e ≤ k` (every `e` when
`a` is an integer), `bexp` followed by `e` rounds of the program `a /` leaves the
Number `10^k` of scale `k`, whose value is `1`. For `e = 0` the result of `bexp`
alone stands: the Number `1` of scale `0`. -/
theorem bexp_then_bdiv (m : bmachine) (a p : number) (e : Nat) (rest : List value)
    (hstack : m.stack = value.BCODE_NUMBER p :: value.BCODE_NUMBER a :: rest)
    (ha : a.number ≠ 0) (hk : m.scale < 2147483648)
    (hp : p.number = (e : Int) * 10 ^ p.scale) (hs : a.scale * e ≤ m.scale) :
    (1 ≤ e → (bexp m).bind (bdiv_times a e) = some { m with
        stack := (value.BCODE_NUMBER { number := 10 ^ m.scale, scale := m.scale }) :: rest }) ∧
    (e = 0 → (bexp m).bind (bdiv_times a e) = some { m with
        stack := (value.BCODE_NUMBER { number := 1, scale := 0 }) :: rest }) ∧
    val { number := 10 ^ m.scale, scale := m.scale } = 1 := by
  refine ⟨?_, ?_, val_pow_ten_scale _⟩
  · intro he
    rw [bexp_on_two_numbers m a p rest hstack, bexp_number_exact m.scale a p e hk he hp hs,
      Option.map_some', Option.some_bind]
    have hj : e = (e - 1) + 1 := by omega
    rw [hj, bdiv_times]
    rw [← hj]
    rw [bdiv_on_two_numbers _ a { number := a.number ^ e, scale := a.scale * e } rest
      (by unfold push_number; rfl)]
    have hd := bdiv_number_power m.scale a e (a.scale * e) ha hk he le_rfl hs
    simp only [Nat.sub_self, pow_zero, mul_one] at hd
    have hsc : (push_number { m with
        stack := (value.BCODE_NUMBER { number := a.number ^ e, scale := a.scale * e }) :: rest }
        a).scale = m.scale := rfl
    rw [hsc, hd]
    simp only [Option.map_some', Option.some_bind]
    have hs2 : a.scale * (e - 1) ≤ m.scale := by
      have : a.scale * (e - 1) ≤ a.scale * e := Nat.mul_le_mul_left _ (by omega)
      omega
    exact bdiv_times_power a ha (e - 1) _ rest hk hs2 rfl
  · intro he
    subst he
    rw [bexp_on_two_numbers m a p rest hstack]
    have hexp := bexp_exponent_of_integer p 0 (by simpa using hp)
    have hrs : bexp_rscale m.scale a 0 = 0 := by
      unfold bexp_rscale
      simp [umul, mpz_get_ui, GMP_NUMB_MASK, UINT_MAX]
    have hnum : bexp_number m.scale a p = some { number := 1, scale := 0 } := by
      unfold bexp_number
      simp only [hexp, hrs, Int.natAbs_zero, if_true]
      exact normalize_same { number := 1, scale := 0 }
    rw [hnum]
    rfl

/-- C14, an instance of `bexp_then_bdiv`: `a = 1.5`, `e = 2` at machine scale `2`. -/
theorem bexp_then_bdiv_witness :
    (bexp (machine [value.BCODE_NUMBER { number := 2, scale := 0 },
                    value.BCODE_NUMBER { number := 15, scale := 1 }] 2)).bind
        (bdiv_times { number := 15, scale := 1 } 2)
      = some { (machine [value.BCODE_NUMBER { number := 2, scale := 0 },
                         value.BCODE_NUMBER { number := 15, scale := 1 }] 2) with
          stack := (value.BCODE_NUMBER
            { number := 10 ^ (machine [value.BCODE_NUMBER { number := 2, scale := 0 },
                value.BCODE_NUMBER { number := 15, scale := 1 }] 2).scale,
              scale := (machine [value.BCODE_NUMBER { number := 2, scale := 0 },
                value.BCODE_NUMBER { number := 15, scale := 1 }] 2).scale }) :: [] } :=
  (bexp_then_bdiv (machine [value.BCODE_NUMBER { number := 2, scale := 0 },
                            value.BCODE_NUMBER { number := 15, scale := 1 }] 2)
    { number := 15, scale := 1 } { number := 2, scale := 0 } 2 [] rfl (by decide) (by decide)
    (by decide) (by decide)).1 (by decide)

/-! ## C20: the invariant of the machine state -/

theorem invariant_of_control (m m1 : bmachine) (h : control m1 = control m)
    (hi : machine_invariant m) : machine_invariant m1 := by
  unfold control at h
  simp only [Prod.mk.injEq] at h
  obtain ⟨h1, h2, h3, h4⟩ := h
  unfold machine_invariant at hi ⊢
  rw [h1, h2, h3, h4]
  exact hi

theorem readreg_control (m : bmachine) : control (readreg m).2 = control m := by
  have h := readreg_frame m
  generalize (readreg m).2 = m1 at h
  rw [h]
  rfl

theorem readreg_readsp (m : bmachine) : (readreg m).2.readsp = m.readsp :=
  congrArg (fun x => x.1) (readreg_control m)

theorem readreg_readstack_sz (m : bmachine) : (readreg m).2.readstack_sz = m.readstack_sz :=
  congrArg (fun x => x.2.1) (readreg_control m)

theorem readreg_ibase (m : bmachine) : (readreg m).2.ibase = m.ibase :=
  congrArg (fun x => x.2.2.1) (readreg_control m)

theorem readreg_obase (m : bmachine) : (readreg m).2.obase = m.obase :=
  congrArg (fun x => x.2.2.2) (readreg_control m)

theorem set_reg_control (m : bmachine) (i : Nat) (s : List slot) :
    control (set_reg m i s) = control m := by
  unfold set_reg
  split <;> rfl

theorem set_reg_readsp (m : bmachine) (i : Nat) (s : List slot) :
    (set_reg m i s).readsp = m.readsp :=
  congrArg (fun x => x.1) (set_reg_control m i s)

theorem set_reg_readstack_sz (m : bmachine) (i : Nat) (s : List slot) :
    (set_reg m i s).readstack_sz = m.readstack_sz :=
  congrArg (fun x => x.2.1) (set_reg_control m i s)

theorem set_reg_ibase (m : bmachine) (i : Nat) (s : List slot) :
    (set_reg m i s).ibase = m.ibase :=
  congrArg (fun x => x.2.2.1) (set_reg_control m i s)

theorem set_reg_obase (m : bmachine) (i : Nat) (s : List slot) :
    (set_reg m i s).obase = m.obase :=
  congrArg (fun x => x.2.2.2) (set_reg_control m i s)

theorem readreg_stack_eq (m : bmachine) : (readreg m).2.stack = m.stack :=
  (readreg_stack m).1

theorem readch_control (m : bmachine) : control (readch m).2 = control m := rfl

theorem unreadch_control (m : bmachine) : control (unreadch m) = control m := rfl

theorem readline_control (m : bmachine) : control (readline m).2 = control m := rfl

theorem read_string_control (m : bmachine) : control (read_string m).2 = control m := rfl

theorem badd_control (m m1 : bmachine) (h : badd m = some m1) :
    control m1 = control m := by
  rcases hs : m.stack with _ | ⟨_ | _ | _, _ | ⟨_ | _ | _, _⟩⟩ <;>
    simp [badd, pop_number, push_number, hs] at h <;>
    first
    | (subst h; simp [control])
    | (obtain ⟨r, -, h⟩ := h; subst h; simp [control])

theorem bsub_control (m m1 : bmachine) (h : bsub m = some m1) :
    control m1 = control m := by
  rcases hs : m.stack with _ | ⟨_ | _ | _, _ | ⟨_ | _ | _, _⟩⟩ <;>
    simp [bsub, pop_number, push_number, hs] at h <;>
    first
    | (subst h; simp [control])
    | (obtain ⟨r, -, h⟩ := h; subst h; simp [control])

theorem bmul_control (m m1 : bmachine) (h : bmul m = some m1) :
    control m1 = control m := by
  rcases hs : m.stack with _ | ⟨_ | _ | _, _ | ⟨_ | _ | _, _⟩⟩ <;>
    simp [bmul, pop_number, push_number, hs] at h <;>
    first
    | (subst h; simp [control])
    | (obtain ⟨r, -, h⟩ := h; subst h; simp [control])

theorem bexp_control (m m1 : bmachine) (h : bexp m = some m1) :
    control m1 = control m := by
  rcases hs : m.stack with _ | ⟨_ | _ | _, _ | ⟨_ | _ | _, _⟩⟩ <;>
    simp [bexp, pop_number, push_number, hs] at h <;>
    first
    | (subst h; simp [control])
    | (obtain ⟨r, -, h⟩ := h; subst h; simp [control])

theorem not_control (m : bmachine) : control (not m) = control m := by
  rcases hs : m.stack with _ | ⟨_ | _ | _, _ | ⟨_ | _ | _, _⟩⟩ <;>
    simp [not, pop_number, pop, push_number, push, push_string, control, hs]

theorem drop_control (m : bmachine) : control (drop m) = control m := by
  rcases hs : m.stack with _ | ⟨_ | _ | _, _ | ⟨_ | _ | _, _⟩⟩ <;>
    simp [drop, pop_number, pop, push_number, push, push_string, control, hs]

theorem dup_control (m : bmachine) : control (dup m) = control m := by
  rcases hs : m.stack with _ | ⟨_ | _ | _, _ | ⟨_ | _ | _, _⟩⟩ <;>
    simp [dup, pop_number, pop, push_number, push, push_string, control, hs]

theorem swap_control (m : bmachine) : control (swap m) = control m := by
  rcases hs : m.stack with _ | ⟨_ | _ | _, _ | ⟨_ | _ | _, _⟩⟩ <;>
    simp [swap, pop_number, pop, push_number, push, push_string, control, hs]

theorem push_scale_control (m : bmachine) : control (push_scale m) = control m := by
  rcases hs : m.stack with _ | ⟨_ | _ | _, _ | ⟨_ | _ | _, _⟩⟩ <;>
    simp [push_scale, pop_number, pop, push_number, push, push_string, control, hs]

theorem num_digits_control (m : bmachine) : control (num_digits m) = control m := by
  rcases hs : m.stack with _ | ⟨_ | _ | _, _ | ⟨_ | _ | _, _⟩⟩ <;>
    simp [num_digits, pop_number, pop, push_number, push, push_string, control, hs]

/-- A handler that maps a function keeping `control` over an `Option`. -/
theorem map_control {α : Type} (r : Option α) (f : α → bmachine) (m m1 : bmachine)
    (hf : ∀ x, control (f x) = control m) (h : r.map f = some m1) :
    control m1 = control m := by
  cases r with
  | none => exact Option.noConfusion h
  | some x =>
    rw [Option.map_some'] at h
    rw [← Option.some.inj h]
    exact hf x

theorem to_ascii_control (m m1 : bmachine) (h : to_ascii m = some m1) :
    control m1 = control m := by
  rcases hs : m.stack with _ | ⟨_ | n | _, _⟩ <;>
    simp only [to_ascii, pop, hs] at h
  · obtain rfl := Option.some.inj h
    rfl
  · obtain rfl := Option.some.inj h
    rfl
  · refine map_control _ _ m m1 ?_ h
    intro g
    rfl
  · obtain rfl := Option.some.inj h
    rfl

theorem compare_push_control (type : bcode_compare) (m m1 : bmachine)
    (h : compare_push type m = some m1) : control m1 = control m := by
  rcases hs : m.stack with _ | ⟨_ | _ | _, _ | ⟨_ | _ | _, _⟩⟩ <;>
    simp only [compare_push, pop_number, push_number, hs] at h
  all_goals first
    | (obtain rfl := Option.some.inj h
       rfl)
    | (refine map_control _ _ m m1 ?_ h
       intro ok
       rfl)

theorem set_scale_control (m m1 : bmachine) (h : set_scale m = some m1) :
    control m1 = control m := by
  rcases hs : m.stack with _ | ⟨_ | n | _, _⟩ <;>
    simp only [set_scale, pop_number, hs] at h
  · obtain rfl := Option.some.inj h
    rfl
  · obtain rfl := Option.some.inj h
    rfl
  · by_cases hneg : n.number < 0
    · rw [if_pos hneg] at h
      obtain rfl := Option.some.inj h
      rfl
    · rw [if_neg hneg] at h
      refine map_control _ _ m m1 ?_ h
      intro g
      show control (if _ then _ else _) = control m
      split_ifs <;> rfl
  · obtain rfl := Option.some.inj h
    rfl

theorem clear_stack_control (m : bmachine) : control (clear_stack m) = control m := rfl

theorem get_scale_control (m : bmachine) : control (get_scale m) = control m := rfl

theorem get_ibase_control (m : bmachine) : control (get_ibase m) = control m := rfl

theorem get_obase_control (m : bmachine) : control (get_obase m) = control m := rfl

theorem stackdepth_control (m : bmachine) : control (stackdepth m) = control m := rfl

theorem print_tos_control (m : bmachine) : control (print_tos m) = control m := rfl

theorem push_line_control (m : bmachine) : control (push_line m) = control m := rfl

theorem comment_control (m : bmachine) : control (comment m) = control m := rfl

theorem parse_number_control (rn : source → Nat → number × source) (m : bmachine) :
    control (parse_number rn m) = control m := rfl

theorem load_control (m : bmachine) : control (load m) = control m := by
  rcases hs : m.stack with _ | ⟨_ | _ | _, _ | ⟨_ | _ | _, _⟩⟩ <;>
    by_cases hr : (readreg m).1 ≥ 0 <;>
    simp [load, pop, pop_number, push, push_number, control, hs, hr,
      readreg_stack_eq, readreg_readsp, readreg_readstack_sz, readreg_ibase, readreg_obase,
      set_reg_readsp, set_reg_readstack_sz, set_reg_ibase, set_reg_obase] <;>
    (repeat' split) <;>
    simp [readreg_readsp, readreg_readstack_sz, readreg_ibase, readreg_obase,
      set_reg_readsp, set_reg_readstack_sz, set_reg_ibase, set_reg_obase]

theorem store_control (m : bmachine) : control (store m) = control m := by
  rcases hs : m.stack with _ | ⟨_ | _ | _, _ | ⟨_ | _ | _, _⟩⟩ <;>
    by_cases hr : (readreg m).1 ≥ 0 <;>
    simp [store, pop, pop_number, push, push_number, control, hs, hr,
      readreg_stack_eq, readreg_readsp, readreg_readstack_sz, readreg_ibase, readreg_obase,
      set_reg_readsp, set_reg_readstack_sz, set_reg_ibase, set_reg_obase]

theorem load_stack_control (m : bmachine) : control (load_stack m) = control m := by
  rcases hs : m.stack with _ | ⟨_ | _ | _, _ | ⟨_ | _ | _, _⟩⟩ <;>
    by_cases hr : (readreg m).1 ≥ 0 <;>
    simp [load_stack, pop, pop_number, push, push_number, control, hs, hr,
      readreg_stack_eq, readreg_readsp, readreg_readstack_sz, readreg_ibase, readreg_obase,
      set_reg_readsp, set_reg_readstack_sz, set_reg_ibase, set_reg_obase] <;>
    (repeat' split) <;>
    simp [readreg_readsp, readreg_readstack_sz, readreg_ibase, readreg_obase,
      set_reg_readsp, set_reg_readstack_sz, set_reg_ibase, set_reg_obase]

theorem store_stack_control (m : bmachine) : control (store_stack m) = control m := by
  rcases hs : m.stack with _ | ⟨_ | _ | _, _ | ⟨_ | _ | _, _⟩⟩ <;>
    by_cases hr : (readreg m).1 ≥ 0 <;>
    simp [store_stack, pop, pop_number, push, push_number, control, hs, hr,
      readreg_stack_eq, readreg_readsp, readreg_readstack_sz, readreg_ibase, readreg_obase,
      set_reg_readsp, set_reg_readstack_sz, set_reg_ibase, set_reg_obase]

theorem load_array_control (m m1 : bmachine) (h : load_array m = some m1) :
    control m1 = control m := by
  unfold load_array at h
  simp only at h
  by_cases hr : (readreg m).1 ≥ 0
  · rw [if_pos hr] at h
    rcases hs : (readreg m).2.stack with _ | ⟨_ | n | _, _⟩ <;>
      simp only [pop_number, hs] at h
    · obtain rfl := Option.some.inj h
      exact readreg_control m
    · obtain rfl := Option.some.inj h
      exact readreg_control m
    · refine map_control _ _ m m1 ?_ h
      intro g
      show control (if _ then _ else _) = control m
      (repeat' split) <;> exact readreg_control m
    · obtain rfl := Option.some.inj h
      exact readreg_control m
  · rw [if_neg hr] at h
    obtain rfl := Option.some.inj h
    exact readreg_control m

theorem store_array_control (m m1 : bmachine) (h : store_array m = some m1) :
    control m1 = control m := by
  unfold store_array at h
  simp only at h
  by_cases hr : (readreg m).1 ≥ 0
  · rw [if_pos hr] at h
    rcases hs : (readreg m).2.stack with _ | ⟨_ | n | _, _ | ⟨v, rest⟩⟩ <;>
      simp only [pop_number, pop, hs] at h
    all_goals first
      | (obtain rfl := Option.some.inj h
         exact readreg_control m)
      | (refine map_control _ _ m m1 ?_ h
         intro g
         show control (if _ then _ else _) = control m
         (repeat' split) <;>
           first
           | exact readreg_control m
           | exact (set_reg_control _ _ _).trans (readreg_control m))
  · rw [if_neg hr] at h
    obtain rfl := Option.some.inj h
    exact readreg_control m

theorem bdiv_control (m m1 : bmachine) (h : bdiv m = some m1) :
    control m1 = control m := by
  rcases hs : m.stack with _ | ⟨_ | _ | _, _ | ⟨_ | _ | _, _⟩⟩ <;>
    simp [bdiv, pop_number, push_number, hs] at h <;>
    first
    | (subst h; simp [control])
    | (obtain ⟨r, -, h⟩ := h; subst h; simp [control])

theorem bmod_control (m m1 : bmachine) (h : bmod m = some m1) :
    control m1 = control m := by
  rcases hs : m.stack with _ | ⟨_ | _ | _, _ | ⟨_ | _ | _, _⟩⟩ <;>
    simp [bmod, pop_number, push_number, hs] at h <;>
    first
    | (subst h; simp [control])
    | (obtain ⟨r, -, h⟩ := h; subst h; simp [control])

theorem bdivmod_control (m m1 : bmachine) (h : bdivmod m = some m1) :
    control m1 = control m := by
  rcases hs : m.stack with _ | ⟨_ | _ | _, _ | ⟨_ | _ | _, _⟩⟩ <;>
    simp [bdivmod, pop_number, push_number, hs] at h <;>
    first
    | (subst h; simp [control])
    | (obtain ⟨q, r, -, h⟩ := h; subst h; simp [control])

theorem bsqrt_control (fuel : Nat) (m m1 : bmachine) (h : bsqrt fuel m = some m1) :
    control m1 = control m := by
  rcases hs : m.stack with _ | ⟨_ | n | _, rest⟩
  · simp only [bsqrt, pop_number, hs] at h
    obtain rfl := Option.some.inj h
    rfl
  · simp only [bsqrt, pop_number, hs] at h
    obtain rfl := Option.some.inj h
    rfl
  · rcases lt_trichotomy n.number 0 with hneg | h0 | hpos
    · rw [(bsqrt_nonpositive m n rest hs fuel).2 hneg] at h
      obtain rfl := Option.some.inj h
      rfl
    · rw [(bsqrt_nonpositive m n rest hs fuel).1 h0] at h
      obtain rfl := Option.some.inj h
      rfl
    · rw [bsqrt_positive_no_result m n rest hs hpos fuel] at h
      exact Option.noConfusion h
  · simp only [bsqrt, pop_number, hs] at h
    obtain rfl := Option.some.inj h
    rfl

/-! ### Handlers that move the read stack pointer or set a base -/

theorem eval_string_invariant (m : bmachine) (p : List Nat) (hi : machine_invariant m) :
    machine_invariant (eval_string m p) := by
  unfold eval_string
  by_cases hg : m.readsp > 0 ∧ (readch m).1 = EOF
  · rw [if_pos hg]
    exact hi
  · rw [if_neg hg]
    simp only
    have hm1 : control (if m.readsp > 0 then unreadch (readch m).2 else m) = control m := by
      split_ifs <;> rfl
    have hi1 := invariant_of_control _ _ hm1 hi
    generalize (if m.readsp > 0 then unreadch (readch m).2 else m) = m1 at hi1
    unfold machine_invariant at hi1 ⊢
    obtain ⟨h1, h2, h3, h4⟩ := hi1
    split_ifs with hfull
    · refine ⟨?_, h2, h3, h4⟩
      show m1.readsp + 1 < m1.readstack_sz * 2
      omega
    · refine ⟨?_, h2, h3, h4⟩
      show m1.readsp + 1 < m1.readstack_sz
      omega

theorem eval_tos_invariant (m : bmachine) (hi : machine_invariant m) :
    machine_invariant (eval_tos m) := by
  unfold eval_tos pop_string
  split
  · exact hi
  · rename_i p m1 heq
    split at heq
    · injection heq with heq
      injection heq with h1 h2
      subst h2
      exact eval_string_invariant _ _ hi
    · exact absurd heq (by simp)

theorem eval_line_invariant (m : bmachine) (hi : machine_invariant m) :
    machine_invariant (eval_line m) := by
  unfold eval_line
  exact eval_string_invariant _ _ hi

/-- A handler that maps a function keeping the invariant over an `Option`. -/
theorem map_invariant {α : Type} (r : Option α) (f : α → bmachine) (m1 : bmachine)
    (hf : ∀ x, machine_invariant (f x)) (h : r.map f = some m1) :
    machine_invariant m1 := by
  cases r with
  | none => exact Option.noConfusion h
  | some x =>
    rw [Option.map_some'] at h
    rw [← Option.some.inj h]
    exact hf x

theorem compare_invariant (type : bcode_compare) (m m1 : bmachine)
    (hi : machine_invariant m) (h : compare type m = some m1) :
    machine_invariant m1 := by
  unfold compare at h
  simp only at h
  have he : control (if (readch (readreg m).2).1 = 101 then readreg (readch (readreg m).2).2
      else (NO_ELSE, unreadch (readch (readreg m).2).2)).2 = control m := by
    split_ifs
    · exact (readreg_control _).trans ((readch_control _).trans (readreg_control m))
    · exact (unreadch_control _).trans ((readch_control _).trans (readreg_control m))
  generalize (if (readch (readreg m).2).1 = 101 then readreg (readch (readreg m).2).2
      else (NO_ELSE, unreadch (readch (readreg m).2).2)) = e at he h
  have h2 : machine_invariant e.2 := invariant_of_control _ _ he hi
  rcases hs : e.2.stack with _ | ⟨_ | _ | _, _ | ⟨_ | _ | _, _⟩⟩ <;>
    simp only [pop_number, push_number, hs] at h
  all_goals first
    | (obtain rfl := Option.some.inj h
       exact h2)
    | (refine map_invariant _ _ m1 ?_ h
       intro ok
       show machine_invariant (if _ then _ else _)
       (repeat' split) <;>
         first
         | exact h2
         | (refine eval_string_invariant _ _ ?_; exact h2))

theorem not_compare_invariant (m m1 : bmachine) (hi : machine_invariant m)
    (h : not_compare m = some m1) : machine_invariant m1 := by
  have h1 : machine_invariant (readch m).2 := invariant_of_control _ _ (readch_control m) hi
  unfold not_compare at h
  simp only at h
  split_ifs at h
  · exact compare_invariant _ _ _ h1 h
  · exact compare_invariant _ _ _ h1 h
  · exact compare_invariant _ _ _ h1 h
  · obtain rfl := Option.some.inj h
    exact invariant_of_control _ _ (unreadch_control _) h1

theorem set_ibase_invariant (m m1 : bmachine) (hi : machine_invariant m)
    (h : set_ibase m = some m1) : machine_invariant m1 := by
  rcases hs : m.stack with _ | ⟨_ | n | _, _⟩ <;>
    simp only [set_ibase, pop_number, hs] at h
  · obtain rfl := Option.some.inj h
    exact hi
  · obtain rfl := Option.some.inj h
    exact hi
  · refine map_invariant _ _ m1 ?_ h
    intro g
    unfold machine_invariant at hi ⊢
    obtain ⟨h1, h2, h3, h4⟩ := hi
    show (if _ then _ else _ : bmachine).readsp < (if _ then _ else _ : bmachine).readstack_sz ∧ _
    split_ifs with hb
    · refine ⟨h1, ?_, ?_, h4⟩
      · show 2 ≤ _ % 4294967296
        omega
      · show _ % 4294967296 ≤ 16
        omega
    · exact ⟨h1, h2, h3, h4⟩
  · obtain rfl := Option.some.inj h
    exact hi

theorem set_obase_invariant (m m1 : bmachine) (hi : machine_invariant m)
    (h : set_obase m = some m1) : machine_invariant m1 := by
  rcases hs : m.stack with _ | ⟨_ | n | _, _⟩ <;>
    simp only [set_obase, pop_number, hs] at h
  · obtain rfl := Option.some.inj h
    exact hi
  · obtain rfl := Option.some.inj h
    exact hi
  · refine map_invariant _ _ m1 ?_ h
    intro g
    unfold machine_invariant at hi ⊢
    obtain ⟨h1, h2, h3, h4⟩ := hi
    show (if _ then _ else _ : bmachine).readsp < (if _ then _ else _ : bmachine).readstack_sz ∧ _
    split_ifs with hb
    · refine ⟨h1, h2, h3, ?_⟩
      show 2 ≤ _ % 4294967296
      unfold UINT_MAX at hb
      omega
    · exact ⟨h1, h2, h3, h4⟩
  · obtain rfl := Option.some.inj h
    exact hi

theorem quit_invariant (m m1 : bmachine) (hi : machine_invariant m)
    (h : quit m = outcome.ok m1) : machine_invariant m1 := by
  unfold machine_invariant at hi ⊢
  obtain ⟨h1, h2, h3, h4⟩ := hi
  unfold quit at h
  split_ifs at h
  injection h with h
  subst h
  refine ⟨?_, h2, h3, h4⟩
  show m.readsp - 1 - 1 < m.readstack_sz
  omega

theorem quitN_invariant (m m1 : bmachine) (hi : machine_invariant m)
    (h : quitN m = some m1) : machine_invariant m1 := by
  rcases hs : m.stack with _ | ⟨_ | n | _, _⟩ <;>
    simp only [quitN, pop_number, hs] at h
  · obtain rfl := Option.some.inj h
    exact hi
  · obtain rfl := Option.some.inj h
    exact hi
  · refine map_invariant _ _ m1 ?_ h
    intro g
    unfold machine_invariant at hi ⊢
    obtain ⟨h1, h2, h3, h4⟩ := hi
    show (if _ then _ else _ : bmachine).readsp < (if _ then _ else _ : bmachine).readstack_sz ∧ _
    split_ifs
    · exact ⟨h1, h2, h3, h4⟩
    · exact ⟨h1, h2, h3, h4⟩
    · refine ⟨?_, h2, h3, h4⟩
      show m.readsp - _ < m.readstack_sz
      omega
  · obtain rfl := Option.some.inj h
    exact hi

theorem skip_register_control (m : bmachine) : control (skip_register m) = control m := by
  unfold skip_register
  simp only
  split_ifs
  · exact (readreg_control _).trans ((readch_control _).trans (readreg_control m))
  · exact (unreadch_control _).trans ((readch_control _).trans (readreg_control m))

theorem skip_until_mark_control (fuel : Nat) :
    ∀ m m1 : bmachine, skip_until_mark fuel m = outcome.ok m1 → control m1 = control m := by
  induction fuel with
  | zero =>
    intro m m1 h
    simp [skip_until_mark] at h
  | succ fuel ih =>
    intro m m1 h
    unfold skip_until_mark at h
    simp only at h
    split_ifs at h
    · injection h with h
      subst h
      exact readch_control m
    · exact (ih _ _ h).trans ((skip_register_control _).trans (readch_control m))
    · exact (ih _ _ h).trans ((read_string_control _).trans (readch_control m))
    · exact (ih _ _ h).trans
        ((skip_register_control _).trans ((readch_control _).trans (readch_control m)))
    · exact (ih _ _ h).trans
        ((readline_control _).trans ((readch_control _).trans (readch_control m)))
    · exact (ih _ _ h).trans (readch_control m)

theorem skipN_invariant (fuel : Nat) (m m1 : bmachine) (hi : machine_invariant m)
    (h : skipN fuel m = outcome.ok m1) : machine_invariant m1 := by
  rcases hs : m.stack with _ | ⟨_ | n | _, rest⟩ <;>
    simp only [skipN, pop_number, hs] at h
  · injection h with h
    subst h
    exact hi
  · injection h with h
    subst h
    exact hi
  · cases hg : get_ulong n with
    | none =>
      rw [hg] at h
      exact outcome.noConfusion h
    | some g =>
      rw [hg] at h
      simp only at h
      split_ifs at h
      · injection h with h
        subst h
        exact hi
      · injection h with h
        subst h
        exact hi
      · refine invariant_of_control _ _ (skip_until_mark_control _ _ _ h) ?_
        unfold machine_invariant at hi ⊢
        obtain ⟨h1, h2, h3, h4⟩ := hi
        refine ⟨?_, h2, h3, h4⟩
        show m.readsp - _ < m.readstack_sz
        omega
  · injection h with h
    subst h
    exact hi

/-! ### Dispatch and the main loop -/

theorem call_invariant (rn : source → Nat → number × source) (fuel : Nat)
    (f : opcode_function) (m m1 : bmachine) (hi : machine_invariant m)
    (h : call rn fuel f m = outcome.ok m1) : machine_invariant m1 := by
  have hc : ∀ m2 : bmachine, control m2 = control m → outcome.ok m2 = outcome.ok m1 →
      machine_invariant m1 := by
    intro m2 h2 e
    injection e with e
    subst e
    exact invariant_of_control _ _ h2 hi
  have ho : ∀ r : Option bmachine, (∀ m2, r = some m2 → control m2 = control m) →
      outcome.of_option r = outcome.ok m1 → machine_invariant m1 := by
    intro r hr e
    cases r with
    | none => simp [outcome.of_option] at e
    | some m2 =>
      simp only [outcome.of_option] at e
      exact hc m2 (hr m2 rfl) e
  have hv : ∀ m2 : bmachine, machine_invariant m2 → outcome.ok m2 = outcome.ok m1 →
      machine_invariant m1 := by
    intro m2 h2 e
    injection e with e
    subst e
    exact h2
  have hov : ∀ r : Option bmachine, (∀ m2, r = some m2 → machine_invariant m2) →
      outcome.of_option r = outcome.ok m1 → machine_invariant m1 := by
    intro r hr e
    cases r with
    | none => simp [outcome.of_option] at e
    | some m2 =>
      simp only [outcome.of_option] at e
      exact hv m2 (hr m2 rfl) e
  cases f <;> simp only [call] at h
  case nop => exact hc _ rfl h
  case not_compare => exact hov _ (fun m2 => not_compare_invariant m m2 hi) h
  case comment => exact hc _ (comment_control m) h
  case bmod => exact ho _ (bmod_control m) h
  case less_numbers => exact ho _ (compare_push_control _ m) h
  case bmul => exact ho _ (bmul_control m) h
  case badd => exact ho _ (badd_control m) h
  case bsub => exact ho _ (bsub_control m) h
  case parse_number => exact hc _ (parse_number_control rn m) h
  case bdiv => exact ho _ (bdiv_control m) h
  case store_array => exact ho _ (store_array_control m) h
  case load_array => exact ho _ (load_array_control m) h
  case less => exact hov _ (fun m2 => compare_invariant _ m m2 hi) h
  case equal => exact hov _ (fun m2 => compare_invariant _ m m2 hi) h
  case greater => exact hov _ (fun m2 => compare_invariant _ m m2 hi) h
  case eval_line => exact hv _ (eval_line_invariant m hi) h
  case equal_numbers => exact ho _ (compare_push_control _ m) h
  case get_ibase => exact hc _ (get_ibase_control m) h
  case skipN => exact skipN_invariant fuel m m1 hi h
  case get_scale => exact hc _ (get_scale_control m) h
  case load_stack => exact hc _ (load_stack_control m) h
  case not => exact hc _ (not_control m) h
  case get_obase => exact hc _ (get_obase_control m) h
  case pop_print => exact hc _ (drop_control m) h
  case quitN => exact hov _ (fun m2 => quitN_invariant m m2 hi) h
  case drop => exact hc _ (drop_control m) h
  case store_stack => exact hc _ (store_stack_control m) h
  case push_scale => exact hc _ (push_scale_control m) h
  case num_digits => exact hc _ (num_digits_control m) h
  case push_line => exact hc _ (push_line_control m) h
  case bexp => exact ho _ (bexp_control m) h
  case to_ascii => exact ho _ (to_ascii_control m) h
  case clear_stack => exact hc _ (clear_stack_control m) h
  case dup => exact hc _ (dup_control m) h
  case print_err => exact hc _ (print_tos_control m) h
  case print_stack => exact hc _ (print_tos_control m) h
  case set_ibase => exact hov _ (fun m2 => set_ibase_invariant m m2 hi) h
  case set_scale => exact ho _ (set_scale_control m) h
  case load => exact hc _ (load_control m) h
  case pop_printn => exact hc _ (drop_control m) h
  case set_obase => exact hov _ (fun m2 => set_obase_invariant m m2 hi) h
  case print_tos => exact hc _ (print_tos_control m) h
  case quit => exact quit_invariant m m1 hi h
  case swap => exact hc _ (swap_control m) h
  case store => exact hc _ (store_control m) h
  case bsqrt => exact ho _ (bsqrt_control fuel m) h
  case eval_tos => exact hv _ (eval_tos_invariant m hi) h
  case stackdepth => exact hc _ (stackdepth_control m) h
  case lesseq_numbers => exact ho _ (compare_push_control _ m) h
  case bdivmod => exact ho _ (bdivmod_control m) h
  case unknown => exact hc _ rfl h

theorem eval_step_invariant (rn : source → Nat → number × source) (fuel : Nat)
    (m m1 : bmachine) (hi : machine_invariant m)
    (h : eval_step rn fuel m = iteration.next m1 ∨ eval_step rn fuel m = iteration.returned m1) :
    machine_invariant m1 := by
  have hc : machine_invariant (readch m).2 := invariant_of_control _ _ (readch_control m) hi
  have hpop : machine_invariant
      { src_free (readch m).2 with readsp := (readch m).2.readsp - 1 } := by
    unfold machine_invariant at hc ⊢
    obtain ⟨h1, h2, h3, h4⟩ := hc
    refine ⟨?_, h2, h3, h4⟩
    show (readch m).2.readsp - 1 < (readch m).2.readstack_sz
    omega
  have hcall : ∀ (f : opcode_function) (m2 : bmachine), machine_invariant m2 →
      ((match call rn fuel f m2 with
        | outcome.ok m3 => iteration.next m3
        | outcome.exit status => iteration.exit status
        | outcome.no_result => iteration.no_result) = iteration.next m1 ∨
       (match call rn fuel f m2 with
        | outcome.ok m3 => iteration.next m3
        | outcome.exit status => iteration.exit status
        | outcome.no_result => iteration.no_result) = iteration.returned m1) →
      machine_invariant m1 := by
    intro f m2 h2 hr
    rcases hcl : call rn fuel f m2 with m3 | st | _
    · rw [hcl] at hr
      simp only [iteration.next.injEq, reduceCtorEq, or_false] at hr
      subst hr
      exact call_invariant rn fuel f m2 m3 h2 hcl
    · rw [hcl] at hr
      simp at hr
    · rw [hcl] at hr
      simp at hr
  unfold eval_step at h
  simp only at h
  by_cases heof : (readch m).1 = EOF
  · rw [if_pos heof] at h
    by_cases hsp : (readch m).2.readsp = 0
    · rw [if_pos hsp] at h
      simp only [reduceCtorEq, iteration.returned.injEq, false_or] at h
      subst h
      exact hc
    · rw [if_neg hsp] at h
      simp only [reduceCtorEq, iteration.next.injEq, or_false] at h
      subst h
      exact hpop
  · rw [if_neg heof] at h
    by_cases hint : (readch m).2.interrupted = true ∧ (readch m).2.readsp > 0
    · rw [if_pos hint] at h
      simp only [reduceCtorEq, iteration.next.injEq, or_false] at h
      subst h
      exact hpop
    · rw [if_neg hint] at h
      refine hcall _ _ ?_ h
      split_ifs
      · exact hc
      · exact hc

theorem eval_invariant (rn : source → Nat → number × source) (fuel : Nat) :
    ∀ (rounds : Nat) (m m1 : bmachine), machine_invariant m →
      (eval rn fuel rounds m = iteration.next m1 ∨
        eval rn fuel rounds m = iteration.returned m1) →
      machine_invariant m1 := by
  intro rounds
  induction rounds with
  | zero =>
    intro m m1 hi h
    simp only [eval, iteration.next.injEq, reduceCtorEq, or_false] at h
    subst h
    exact hi
  | succ rounds ih =>
    intro m m1 hi h
    rw [eval] at h
    rcases hst : eval_step rn fuel m with m2 | m2 | st | _
    · rw [hst] at h
      exact ih m2 m1 (eval_step_invariant rn fuel m m2 hi (Or.inl hst)) h
    · rw [hst] at h
      simp only [reduceCtorEq, iteration.returned.injEq, false_or] at h
      subst h
      exact eval_step_invariant rn fuel m m2 hi (Or.inr hst)
    · rw [hst] at h
      simp at h
    · rw [hst] at h
      simp at h

/-- C20: the predicate `0 ≤ readsp < readstack_sz`, `2 ≤ ibase ≤ 16`,
`obase ≥ 2` holds after `init_bmachine` followed by `reset_bmachine`; it is
kept by every opcode handler that returns (`call`, for every entry of the jump
table and for `unknown`), by `eval_string`, by every round of the loop of `eval`
that goes on or returns, the frame pops at EOF and on an interrupt included,
and so by any number of rounds. -/
theorem machine_invariant_preserved :
    (∀ (extended_registers : Bool) (stdin : List Nat) (src : source),
      machine_invariant (reset_bmachine (init_bmachine extended_registers stdin) src)) ∧
    (∀ (rn : source → Nat → number × source) (fuel : Nat) (f : opcode_function)
        (m m1 : bmachine),
      machine_invariant m → call rn fuel f m = outcome.ok m1 → machine_invariant m1) ∧
    (∀ (m : bmachine) (p : List Nat),
      machine_invariant m → machine_invariant (eval_string m p)) ∧
    (∀ (rn : source → Nat → number × source) (fuel : Nat) (m m1 : bmachine),
      machine_invariant m →
      (eval_step rn fuel m = iteration.next m1 ∨ eval_step rn fuel m = iteration.returned m1) →
      machine_invariant m1) ∧
    (∀ (rn : source → Nat → number × source) (fuel rounds : Nat) (m m1 : bmachine),
      machine_invariant m →
      (eval rn fuel rounds m = iteration.next m1 ∨
        eval rn fuel rounds m = iteration.returned m1) →
      machine_invariant m1) := by
  refine ⟨?_, ?_, ?_, ?_, ?_⟩
  · intro ext stdin src
    unfold machine_invariant reset_bmachine init_bmachine READSTACK_SIZE
    simp
  · intro rn fuel f m m1 hi h
    exact call_invariant rn fuel f m m1 hi h
  · intro m p hi
    exact eval_string_invariant m p hi
  · intro rn fuel m m1 hi h
    exact eval_step_invariant rn fuel m m1 hi h
  · intro rn fuel rounds m m1 hi h
    exact eval_invariant rn fuel rounds m m1 hi h

/-- C20, an instance of `machine_invariant_preserved`: the handler `set_ibase`
on `16 i`, and the round of the loop of `eval` that pops frame `1` at its EOF. -/
theorem machine_invariant_preserved_witness :
    machine_invariant { (machine [] 0) with ibase := 16 } ∧
    machine_invariant { (machine [] 0) with
      readstack := [{ buf := [], pos := 0, lastchar := -1 },
        { buf := [], pos := 0, lastchar := -1 }] ++ List.replicate 6 zero_source } :=
  ⟨machine_invariant_preserved.2.1 (fun s _ => (new_number, s)) 0 opcode_function.set_ibase
      (machine [value.BCODE_NUMBER { number := 16, scale := 0 }] 0)
      { (machine [] 0) with ibase := 16 } (by decide) (by decide),
    machine_invariant_preserved.2.2.2.1 (fun s _ => (new_number, s)) 0
      { (machine [] 0) with
        readsp := 1,
        readstack := [{ buf := [], pos := 0, lastchar := -1 },
          { buf := [], pos := 0, lastchar := 0 }] ++ List.replicate 6 zero_source }
      { (machine [] 0) with
        readstack := [{ buf := [], pos := 0, lastchar := -1 },
          { buf := [], pos := 0, lastchar := -1 }] ++ List.replicate 6 zero_source }
      (by decide) (Or.inl (by decide))⟩

/-- The handler `skipN` returns on `0 J` when a mark follows: the bytes up to
and including `M` are skipped. -/
theorem skipN_scenario :
    skipN 3
      { (machine [value.BCODE_NUMBER { number := 0, scale := 0 }] 0) with
        readstack := [{ buf := [49, 77, 50], pos := 0, lastchar := 0 }] ++
          List.replicate 7 zero_source }
      = outcome.ok { (machine [] 0) with
        readstack := [{ buf := [49, 77, 50], pos := 2, lastchar := 77 }] ++
          List.replicate 7 zero_source } := by
  decide

/-! ## C21: `bexp` with a negative exponent -/

/-- The integer exponent read by `bexp` is the integer part of `p`. -/
theorem bexp_exponent_trunc (p : number) : bexp_exponent p = trunc (val p) := by
  rw [trunc_val]
  unfold bexp_exponent
  by_cases h0 : p.scale = 0
  · simp [h0]
  · simp only [ne_eq, h0, not_false_eq_true, if_true]
    exact split_number_fst p

/-- The Number computed by `bexp` for a base of scale `0` and an exponent of
integer part `-e`, `e ≥ 1`: the quotient of `one`, which is `1` shifted by
`(int)(r.scale + rscale)`, by the power `a.n^e`. -/
theorem bexp_number_negative (k : Nat) (a p : number) (e : Nat)
    (ha : a.scale = 0) (hn : a.number ≠ 0) (he : 1 ≤ e)
    (hp : trunc (val p) = -(e : Int)) :
    bexp_number k a p
      = (scale_number 1 (to_int (uadd 0 k))).map
          (fun one => { number := one.tdiv (a.number ^ e), scale := k }) := by
  have hexp : bexp_exponent p = -(e : Int) := by rw [bexp_exponent_trunc, hp]
  have hneg : (-(e : Int)) < 0 := by omega
  have hrs : bexp_rscale k a (-(e : Int)) = k := by
    unfold bexp_rscale
    rw [if_pos hneg]
  have hne : ¬ (e = 0) := by omega
  unfold bexp_number
  simp only [hexp, hrs, Int.natAbs_neg, Int.natAbs_ofNat, hne, if_false, hneg, decide_True,
    if_true, ha]
  obtain ⟨s1, h0, h1, h2, h3, h4⟩ := bexp_loop1_scale_zero k e e a ha (by omega) le_rfl
  rw [h0, Option.some_bind, h2]
  rw [bexp_loop2_scale_zero k _ _ _ _ h1 (by simp [dup_number, h1]) (by omega),
    Option.some_bind]
  simp only
  have hpow : (dup_number s1.1).number * (s1.1.number * s1.1.number) ^ (s1.2.2 / 2)
      = a.number ^ e := by
    rw [← h4]
    simp only [dup_number]
    have e2 : s1.2.2 = 2 * (s1.2.2 / 2) + 1 := by omega
    conv_rhs => rw [e2, pow_succ, pow_mul, sq]
    exact mul_comm _ _
  rw [hpow]
  have hnz : a.number ^ e ≠ 0 := pow_ne_zero _ hn
  simp only [if_neg hnz]

theorem floor_one_div_neg_three : ⌊((10 : ℚ) ^ 0) / ((-3 : Int) : ℚ) ^ 1⌋ = -1 := by
  rw [Int.floor_eq_iff]
  norm_num

/-- C21, as stated, fails: `mpz_tdiv_q` truncates toward zero. For the base `-3`
and the exponent `-1` at machine scale `0`, `bexp` pushes `0`, while the floor of
`10^0 / (-3)^1` is `-1`. -/
theorem bexp_negative_power_truncates :
    bexp (machine [value.BCODE_NUMBER { number := -1, scale := 0 },
                   value.BCODE_NUMBER { number := -3, scale := 0 }] 0)
      = some (machine [value.BCODE_NUMBER { number := 0, scale := 0 }] 0)
    ∧ ⌊((10 : ℚ) ^ 0) / ((-3 : Int) : ℚ) ^ 1⌋ = -1 :=
  ⟨by decide, floor_one_div_neg_three⟩

/-- C21, amended: for a base `a` of scale `0` with `a.n ≠ 0`, a machine scale
`k < 2^31` and an exponent whose integer part is `-e`, `e ≥ 1`: the power
`a.n^e` is not zero, and `bexp` replaces both operands by the Number of scale `k`
whose integer is `10^k / a.n^e` truncated toward zero, which is the floor of
that quotient when `a.n^e > 0`. -/
theorem bexp_negative_exponent (m : bmachine) (a p : number) (e : Nat) (rest : List value)
    (hstack : m.stack = value.BCODE_NUMBER p :: value.BCODE_NUMBER a :: rest)
    (ha : a.scale = 0) (hn : a.number ≠ 0) (he : 1 ≤ e)
    (hp : trunc (val p) = -(e : Int)) (hk : m.scale < 2147483648) :
    a.number ^ e ≠ 0 ∧
    bexp m = some { m with stack := (value.BCODE_NUMBER
      { number := trunc ((10 : ℚ) ^ m.scale / (a.number : ℚ) ^ e),
        scale := m.scale }) :: rest } ∧
    (0 < a.number ^ e →
      trunc ((10 : ℚ) ^ m.scale / (a.number : ℚ) ^ e)
        = ⌊(10 : ℚ) ^ m.scale / (a.number : ℚ) ^ e⌋) := by
  have hq : ((10 : ℚ) ^ m.scale / (a.number : ℚ) ^ e)
      = ((((10 : Int) ^ m.scale : Int) : ℚ) / ((a.number ^ e : Int) : ℚ)) := by
    push_cast
    rfl
  refine ⟨pow_ne_zero _ hn, ?_, ?_⟩
  · rw [bexp_on_two_numbers m a p rest hstack, bexp_number_negative m.scale a p e ha hn he hp]
    have hu : uadd 0 m.scale = m.scale := by unfold uadd; omega
    rw [hu, to_int_small m.scale hk, scale_number_of_nonneg _ _ (Int.natCast_nonneg _),
      hq, trunc_div]
    simp
  · intro hpos
    have h0 : (0 : ℚ) ≤ (10 : ℚ) ^ m.scale / (a.number : ℚ) ^ e := by
      have : (0 : ℚ) < (a.number : ℚ) ^ e := by exact_mod_cast hpos
      positivity
    unfold trunc
    rw [if_pos h0]

/-- C21, an instance of `bexp_negative_exponent`: `3k 7 _2 ^`, that is `7^(-2)`
at machine scale `3`. -/
theorem bexp_negative_exponent_witness :
    (7 : Int) ^ 2 ≠ 0 ∧
    bexp (machine [value.BCODE_NUMBER { number := -2, scale := 0 },
                   value.BCODE_NUMBER { number := 7, scale := 0 }] 3)
      = some { (machine [value.BCODE_NUMBER { number := -2, scale := 0 },
                    value.BCODE_NUMBER { number := 7, scale := 0 }] 3) with
          stack := (value.BCODE_NUMBER
            { number := trunc ((10 : ℚ) ^
                  (machine [value.BCODE_NUMBER { number := -2, scale := 0 },
                    value.BCODE_NUMBER { number := 7, scale := 0 }] 3).scale
                / (((7 : Int) : ℚ)) ^ 2),
              scale := (machine [value.BCODE_NUMBER { number := -2, scale := 0 },
                  value.BCODE_NUMBER { number := 7, scale := 0 }] 3).scale }) :: [] } ∧
    (0 < (7 : Int) ^ 2 →
      trunc ((10 : ℚ) ^ (machine [value.BCODE_NUMBER { number := -2, scale := 0 },
                  value.BCODE_NUMBER { number := 7, scale := 0 }] 3).scale
          / (((7 : Int) : ℚ)) ^ 2)
        = ⌊(10 : ℚ) ^ (machine [value.BCODE_NUMBER { number := -2, scale := 0 },
                  value.BCODE_NUMBER { number := 7, scale := 0 }] 3).scale
          / (((7 : Int) : ℚ)) ^ 2⌋) :=
  bexp_negative_exponent
    (machine [value.BCODE_NUMBER { number := -2, scale := 0 },
              value.BCODE_NUMBER { number := 7, scale := 0 }] 3)
    { number := 7, scale := 0 } { number := -2, scale := 0 } 2 [] rfl rfl (by decide)
    (by decide) (by rw [trunc_val]; decide) (by decide)

/-- The scenario `3k 7 _2 ^`: the Number pushed is `0.020`, and `2 _1 ^` at
machine scale `0` gives `0`. -/
theorem bexp_negative_scenario :
    bexp (machine [value.BCODE_NUMBER { number := -2, scale := 0 },
                   value.BCODE_NUMBER { number := 7, scale := 0 }] 3)
      = some (machine [value.BCODE_NUMBER { number := 20, scale := 3 }] 3) ∧
    bexp (machine [value.BCODE_NUMBER { number := -1, scale := 0 },
                   value.BCODE_NUMBER { number := 2, scale := 0 }] 0)
      = some (machine [value.BCODE_NUMBER { number := 0, scale := 0 }] 0) := by
  decide

/-- The shift `r.scale + rscale` passes through `int`: at the machine scale
`2^31 + 1` it is negative, `one` becomes `0`, and `bexp` pushes `0` for `2^(-1)`,
while `10^k / 2` is not `0`. -/
theorem bexp_negative_scale_wrap :
    bexp_number 2147483649 { number := 2, scale := 0 } { number := -1, scale := 0 }
      = some { number := 0, scale := 2147483649 } := by
  rw [bexp_number_negative 2147483649 { number := 2, scale := 0 } { number := -1, scale := 0 } 1
    rfl (by decide) (by decide) (by rw [trunc_val]; decide)]
  have hs : to_int (uadd 0 2147483649) = -2147483647 := by decide
  rw [hs, scale_number_of_neg _ _ (by decide) (by decide)]
  have hn : 1 ≤ (- -2147483647 : Int).toNat := by decide
  generalize (- -2147483647 : Int).toNat = n at hn
  have h1 : (1 : Int).tdiv (10 ^ n) = 0 :=
    Int.tdiv_eq_zero_of_lt (by norm_num) (one_lt_pow₀ (by norm_num) (by omega))
  rw [Option.map_some', h1]
  rfl

/-- At the machine scale `2^31` itself the shift is `INT_MIN`: `scale_number`
has no result, and neither has `bexp` for `2^(-1)`. -/
theorem bexp_negative_int_min :
    bexp_number 2147483648 { number := 2, scale := 0 } { number := -1, scale := 0 } = none := by
  rw [bexp_number_negative 2147483648 { number := 2, scale := 0 } { number := -1, scale := 0 } 1
    rfl (by decide) (by decide) (by rw [trunc_val]; decide)]
  have hs : to_int (uadd 0 2147483648) = -2147483648 := by decide
  rw [hs, scale_number_int_min]
  rfl

/-! ## C22: `split_number` -/

/-- Truncated division of a non-negative integer by a positive one: quotient
and remainder are non-negative, the remainder is below the divisor, and they
recompose the dividend. -/
theorem tdiv_tmod_nonneg (x F : Int) (hx : 0 ≤ x) (hF : 0 < F) :
    0 ≤ x.tdiv F ∧ 0 ≤ x.tmod F ∧ x.tmod F < F ∧ x = x.tdiv F * F + x.tmod F := by
  rw [Int.tdiv_eq_ediv hx (le_of_lt hF), Int.tmod_eq_emod hx (le_of_lt hF)]
  refine ⟨Int.ediv_nonneg hx (le_of_lt hF), Int.emod_nonneg x (ne_of_gt hF),
    Int.emod_lt_of_pos x hF, ?_⟩
  have := Int.ediv_add_emod x F
  linarith [mul_comm F (x / F)]

/-- The same for a dividend of either sign, on absolute values. -/
theorem tdiv_tmod_natAbs (x F : Int) (hF : 0 < F) :
    ((x.tmod F).natAbs : Int) < F ∧
    (x.natAbs : Int) = ((x.tdiv F).natAbs : Int) * F + ((x.tmod F).natAbs : Int) := by
  rcases le_or_lt 0 x with hx | hx
  · obtain ⟨h1, h2, h3, h4⟩ := tdiv_tmod_nonneg x F hx hF
    rw [Int.natAbs_of_nonneg h1, Int.natAbs_of_nonneg h2, Int.natAbs_of_nonneg hx]
    exact ⟨h3, h4⟩
  · obtain ⟨h1, h2, h3, h4⟩ := tdiv_tmod_nonneg (-x) F (by omega) hF
    have hneg : (-x).tmod F = -(x.tmod F) := by
      rw [Int.tmod_def, Int.tmod_def, Int.neg_tdiv]
      ring
    rw [Int.neg_tdiv] at h1 h4
    rw [hneg] at h2 h3 h4
    have e1 : ((x.tdiv F).natAbs : Int) = -(x.tdiv F) := by omega
    have e2 : ((x.tmod F).natAbs : Int) = -(x.tmod F) := by omega
    have e3 : (x.natAbs : Int) = -x := by omega
    rw [e1, e2, e3]
    exact ⟨h3, h4⟩

/-- C22 fails on the code: on the computed-power path (scale `≥ 10`) the
fractional part is the remainder of `mpz_tdiv_qr`, which has the sign of the
Number. For `-1` at scale `10` the parts are `i = 0` and `f = -1`, so neither
`0 ≤ f` nor `|x.n| = |i| * 10^10 + f` holds. On the table path the same value
at scale `9` gives `f = 1`. -/
theorem split_number_negative_fraction :
    split_number { number := -1, scale := 10 } = (0, -1) ∧
    ¬ (0 ≤ (split_number { number := -1, scale := 10 }).2) ∧
    ¬ (((-1 : Int).natAbs : Int)
        = ((split_number { number := -1, scale := 10 }).1.natAbs : Int) * 10 ^ 10
          + (split_number { number := -1, scale := 10 }).2) ∧
    split_number { number := -1, scale := 9 } = (0, 1) := by
  decide

/-- Where C22 holds: on the paths for scale `0` and for scales `1..9`, and on
the computed-power path for a Number that is not negative, `split_number(x)`
yields `i = x.n / 10^x.scale` truncated toward zero and `f` with
`0 ≤ f < 10^x.scale` and `|x.n| = |i| * 10^x.scale + f`. -/
theorem split_number_parts (x : number) (h : x.scale < 10 ∨ 0 ≤ x.number) :
    (split_number x).1 = x.number.tdiv (10 ^ x.scale) ∧
    0 ≤ (split_number x).2 ∧
    (split_number x).2 < 10 ^ x.scale ∧
    (x.number.natAbs : Int)
      = ((split_number x).1.natAbs : Int) * 10 ^ x.scale + (split_number x).2 := by
  refine ⟨split_number_fst x, ?_⟩
  have hF : (0 : Int) < 10 ^ x.scale := by positivity
  unfold split_number
  by_cases h0 : x.scale = 0
  · rw [if_pos h0, h0]
    simp
  · rw [if_neg h0]
    by_cases h10 : x.scale < 10
    · rw [if_pos h10]
      simp only
      rw [factors_getD _ (by omega) h10]
      have hc : ((10 ^ x.scale : Nat) : Int) = 10 ^ x.scale := by
        push_cast
        rfl
      rw [hc]
      obtain ⟨h1, h2⟩ := tdiv_tmod_natAbs x.number (10 ^ x.scale) hF
      exact ⟨Int.natCast_nonneg _, h1, h2⟩
    · rw [if_neg h10]
      simp only
      have hx : 0 ≤ x.number := by
        rcases h with h | h
        · exact absurd h h10
        · exact h
      obtain ⟨h1, h2, h3, h4⟩ := tdiv_tmod_nonneg x.number (10 ^ x.scale) hx hF
      refine ⟨h2, h3, ?_⟩
      rw [Int.natAbs_of_nonneg h1, Int.natAbs_of_nonneg hx]
      exact h4

/-- An instance of `split_number_parts` on the table path: `-12.345`. -/
theorem split_number_parts_witness :
    (split_number { number := -12345, scale := 3 }).1 = (-12345 : Int).tdiv (10 ^ 3) ∧
    0 ≤ (split_number { number := -12345, scale := 3 }).2 ∧
    (split_number { number := -12345, scale := 3 }).2 < 10 ^ 3 ∧
    ((-12345 : Int).natAbs : Int)
      = ((split_number { number := -12345, scale := 3 }).1.natAbs : Int) * 10 ^ 3
        + (split_number { number := -12345, scale := 3 }).2 :=
  split_number_parts { number := -12345, scale := 3 } (Or.inl (by decide))

/-! ## C23: `normalize` and `scale_number` -/

theorem val_of_normalize_up (n : number) (s : Nat) (h : n.scale ≤ s) :
    val { number := n.number * 10 ^ (s - n.scale), scale := s } = val n :=
  val_scale_up n.number n.scale s h

/-- C23: for a Number `n` and a target scale `s`, both `u_int` values, less than
`2^31` apart. `normalize(n, s)` returns and sets the scale to `s`; when
`s ≥ n.scale` the integer becomes `n.n * 10^(s - n.scale)` and the rational
value is unchanged; when `s < n.scale` it becomes `n.n / 10^(n.scale - s)`
truncated toward zero. For every shift `sh` of magnitude below `2^31`, the
function `scale_number` returns: it multiplies by `10^sh` for `sh > 0` and
divides by `10^(-sh)`, truncating toward zero, for `sh < 0`, on the table path
(magnitude `1..9`, where `factors[i] = 10^i`) and on the computed-power path
(magnitude `≥ 10`) alike; the shift `0` is the identity. -/
theorem normalize_scale_number (n : number) (s : Nat)
    (hn : n.scale < 4294967296) (hs : s < 4294967296) :
    (n.scale ≤ s → s - n.scale < 2147483648 →
      normalize n s = some { number := n.number * 10 ^ (s - n.scale), scale := s } ∧
      val { number := n.number * 10 ^ (s - n.scale), scale := s } = val n) ∧
    (s < n.scale → n.scale - s < 2147483648 →
      normalize n s = some { number := n.number.tdiv (10 ^ (n.scale - s)), scale := s }) ∧
    (∀ x sh : Int, -2147483648 < sh → sh < 2147483648 →
      (0 < sh → scale_number x sh = some (x * 10 ^ sh.toNat)) ∧
      (sh < 0 → scale_number x sh = some (x.tdiv (10 ^ (-sh).toNat))) ∧
      (sh = 0 → scale_number x sh = some x)) ∧
    (∀ i : Nat, 1 ≤ i → i < 10 → factors.getD i 0 = 10 ^ i) := by
  refine ⟨?_, ?_, ?_, ?_⟩
  · intro h hd
    exact ⟨normalize_up n s h hs hd, val_of_normalize_up n s h⟩
  · intro h hd
    exact normalize_down n s h hn hd
  · intro x sh hlo hhi
    refine ⟨?_, ?_, ?_⟩
    · intro h
      exact scale_number_of_nonneg x sh (le_of_lt h)
    · intro h
      exact scale_number_of_neg x sh h (by omega)
    · intro h
      subst h
      unfold scale_number
      simp
  · intro i h1 h2
    exact factors_getD i h1 h2

/-- C23, an instance of `normalize_scale_number`: `1.5` brought to scale `12`,
a shift of `11` on the computed-power path. -/
theorem normalize_scale_number_witness :
    normalize { number := 15, scale := 1 } 12
      = some { number := 15 * 10 ^ (12 - 1), scale := 12 } ∧
    val { number := 15 * 10 ^ (12 - 1), scale := 12 } = val { number := 15, scale := 1 } :=
  (normalize_scale_number { number := 15, scale := 1 } 12 (by decide) (by decide)).1
    (by decide) (by decide)

/-- A shift downward on the table path and one on the computed-power path:
`-1.2345678901` at scale `10` cut to scale `3` and to scale `0`. -/
theorem normalize_scenario :
    normalize { number := -12345678901, scale := 10 } 3
      = some { number := -1234, scale := 3 } ∧
    normalize { number := -12345678901, scale := 10 } 0
      = some { number := -1, scale := 0 } := by
  decide

/-- Outside the domain of C23: a gap of exactly `2^31` downward is the shift
`INT_MIN`, on which `scale_number` and `normalize` have no result. -/
theorem normalize_int_min (x : Int) :
    normalize { number := x, scale := 2147483648 } 0 = none := by
  unfold normalize
  have e : to_int (usub 0 2147483648) = -2147483648 := by decide
  rw [e, scale_number_int_min]
  rfl

/-! ## C24: one round of `eval` with the interrupted flag set -/

/-- C24, as stated, fails: with the flag set on the outermost frame (`readsp = 0`)
the round clears the flag and then dispatches the character it has read. Here
the character is `c` (code `99`, `clear_stack`): the stack `7` is emptied in the
same round. -/
theorem eval_step_interrupted_outermost :
    eval_step (fun s _ => (new_number, s)) 0
      { (machine [value.BCODE_NUMBER { number := 7, scale := 0 }] 0) with
        interrupted := true,
        readstack := [{ buf := [99], pos := 0, lastchar := 0 }] ++
          List.replicate 7 zero_source }
      = iteration.next
        { (machine [] 0) with
          interrupted := false,
          readstack := [{ buf := [99], pos := 1, lastchar := 99 }] ++
            List.replicate 7 zero_source } := by
  decide

/-- C24, amended: in a round of the loop of `eval` that has read a character
other than EOF while the interrupted flag is set. If `readsp > 0` the round only
pops one source frame: `readsp` decreases by `1`, the flag stays set and the
character is not dispatched. If `readsp = 0` the flag is cleared and the
character is dispatched in the same round: the round ends as the handler of the
character, called on the machine with the flag cleared, ends. -/
theorem eval_step_interrupted (rn : source → Nat → number × source) (fuel : Nat)
    (m : bmachine) (hch : (readch m).1 ≠ EOF) (hint : m.interrupted = true) :
    (m.readsp > 0 →
      eval_step rn fuel m = iteration.next { (readch m).2 with readsp := m.readsp - 1 } ∧
      ({ (readch m).2 with readsp := m.readsp - 1 } : bmachine).interrupted = true ∧
      ({ (readch m).2 with readsp := m.readsp - 1 } : bmachine).stack = m.stack ∧
      ({ (readch m).2 with readsp := m.readsp - 1 } : bmachine).reg = m.reg) ∧
    (m.readsp = 0 →
      eval_step rn fuel m =
        match call rn fuel
          (if 0 ≤ (readch m).1 ∧ (readch m).1 < 256 then jump_table (readch m).1.toNat
            else opcode_function.unknown)
          { (readch m).2 with interrupted := false } with
        | outcome.ok m2 => iteration.next m2
        | outcome.exit status => iteration.exit status
        | outcome.no_result => iteration.no_result) := by
  have hi : (readch m).2.interrupted = true := hint
  have hsp : (readch m).2.readsp = m.readsp := rfl
  constructor
  · intro hpos
    refine ⟨?_, hint, rfl, rfl⟩
    unfold eval_step
    simp only [if_neg hch, hi, hsp, hpos, and_self, if_true, src_free]
  · intro h0
    unfold eval_step
    have hn : ¬ (True ∧ (readch m).2.readsp > 0) := by
      rw [hsp]
      omega
    simp only [if_neg hch, hi, if_true]
    exact (if_neg hn).trans rfl

/-- C24, an instance of `eval_step_interrupted`: the flag set on frame `1`, which
holds the character `c`; the frame is popped and the stack is left alone. -/
theorem eval_step_interrupted_witness :
    eval_step (fun s _ => (new_number, s)) 0
      { (machine [value.BCODE_NUMBER { number := 7, scale := 0 }] 0) with
        interrupted := true,
        readsp := 1,
        readstack := [zero_source, { buf := [99], pos := 0, lastchar := 0 }] ++
          List.replicate 6 zero_source }
      = iteration.next
        { (readch
            { (machine [value.BCODE_NUMBER { number := 7, scale := 0 }] 0) with
              interrupted := true,
              readsp := 1,
              readstack := [zero_source, { buf := [99], pos := 0, lastchar := 0 }] ++
                List.replicate 6 zero_source }).2 with
          readsp := 1 - 1 } :=
  ((eval_step_interrupted (fun s _ => (new_number, s)) 0
    { (machine [value.BCODE_NUMBER { number := 7, scale := 0 }] 0) with
      interrupted := true,
      readsp := 1,
      readstack := [zero_source, { buf := [99], pos := 0, lastchar := 0 }] ++
        List.replicate 6 zero_source }
    (by decide) rfl).1 (by decide)).1

/-! ## C25: `skip_until_mark` -/

/-! ### Reading through the active frame -/

theorem set_source_valid (m : bmachine) (s : source)
    (hv : m.readsp < m.readstack.length) :
    (set_source m s).readsp < (set_source m s).readstack.length := by
  unfold set_source
  simp only [List.length_set]
  exact hv

theorem spec_mark_scan_cons (b : Bool) (fuel c : Nat) (rest : List Nat) (hc : c ≠ 77) :
    spec_mark_scan b (fuel + 1) (c :: rest)
      = match spec_mark_scan b fuel (rest.drop (spec_argument_length b c rest)) with
        | scan.mark n => scan.mark (1 + spec_argument_length b c rest + n)
        | scan.no_mark => scan.no_mark
        | scan.no_fuel => scan.no_fuel := by
  rw [spec_mark_scan, if_neg hc]

/-- The two readings of the `!` rule differ only when a `!` is directly followed
by a newline: on bytes without that pair the scans agree. -/
theorem spec_mark_scan_as_claimed : ∀ (fuel : Nat) (l : List Nat),
    (∀ pre suf : List Nat, l ≠ pre ++ 33 :: 10 :: suf) →
    spec_mark_scan true fuel l = spec_mark_scan false fuel l := by
  intro fuel
  induction fuel with
  | zero => intro l _; rfl
  | succ fuel ih =>
    intro l hl
    rcases l with _ | ⟨c, rest⟩
    · rfl
    · by_cases hM : c = 77
      · subst hM
        simp [spec_mark_scan]
      · have hk : spec_argument_length true c rest = spec_argument_length false c rest := by
          unfold spec_argument_length
          by_cases h1 : c = 108 ∨ c = 76 ∨ c = 115 ∨ c = 83 ∨ c = 58 ∨ c = 59 ∨ c = 60
              ∨ c = 62 ∨ c = 61
          · rw [if_pos h1, if_pos h1]
          · rw [if_neg h1, if_neg h1]
            by_cases h2 : c = 91
            · rw [if_pos h2, if_pos h2]
            · rw [if_neg h2, if_neg h2]
              by_cases h3 : c = 33
              · rw [if_pos h3, if_pos h3]
                rcases rest with _ | ⟨d, rest2⟩
                · rfl
                · simp only
                  by_cases h4 : d = 60 ∨ d = 62 ∨ d = 61
                  · rw [if_pos h4, if_pos h4]
                  · rw [if_neg h4, if_neg h4]
                    have hd : d ≠ 10 := by
                      intro hd
                      subst hd
                      subst h3
                      exact hl [] rest2 rfl
                    simp only [Bool.false_eq_true, if_false, if_true]
                    rw [spec_line_length, if_neg hd, Nat.add_comm]
              · rw [if_neg h3, if_neg h3]
        rw [spec_mark_scan_cons true fuel c rest hM, spec_mark_scan_cons false fuel c rest hM, hk]
        rw [ih (rest.drop (spec_argument_length false c rest))]
        intro pre suf hp
        apply hl (c :: rest.take (spec_argument_length false c rest) ++ pre) suf
        have e := List.take_append_drop (spec_argument_length false c rest) rest
        rw [hp] at e
        calc c :: rest
            = c :: (rest.take (spec_argument_length false c rest)
                ++ (pre ++ 33 :: 10 :: suf)) := by rw [e]
          _ = (c :: rest.take (spec_argument_length false c rest) ++ pre)
                ++ 33 :: 10 :: suf := by simp

/-- The scenario `sM[M]1M2` of the specification, and a string that is not
closed: on `[M` the string runs to the end of the input and the process ends
with "mark not found". -/
theorem skip_until_mark_scenario :
    skip_until_mark 9
      { (machine [] 0) with
        readstack := [{ buf := [115, 77, 91, 77, 93, 49, 77, 50], pos := 0, lastchar := 0 }] ++
          List.replicate 7 zero_source }
      = outcome.ok { (machine [] 0) with
        readstack := [{ buf := [115, 77, 91, 77, 93, 49, 77, 50], pos := 7, lastchar := 77 }] ++
          List.replicate 7 zero_source } ∧
    skip_until_mark 3
      { (machine [] 0) with
        readstack := [{ buf := [91, 77], pos := 0, lastchar := 0 }] ++
          List.replicate 7 zero_source }
      = outcome.exit 1 := by
  decide

/-! ## C26: the division identity of `bdivmod` -/

theorem bdivmod_on_two_numbers (m : bmachine) (a b : number) (rest : List value)
    (hstack : m.stack = value.BCODE_NUMBER a :: value.BCODE_NUMBER b :: rest) :
    bdivmod m = (bdivmod_number m.scale a b).map
      (fun qr => { m with
        stack := value.BCODE_NUMBER qr.2 :: value.BCODE_NUMBER qr.1 :: rest }) := by
  unfold bdivmod pop_number push_number
  simp only [hstack]

/-- The pair computed by `bdivmod` for a divisor `a ≠ 0` when the scales fit the
C types: quotient and remainder of the two operands brought to the scales `S`
and `S + k`, `S = max(a.scale, b.scale)`. -/
theorem bdivmod_number_fit (k : Nat) (a b : number) (ha : a.number ≠ 0)
    (hS : Nat.max a.scale b.scale + k < 4294967296)
    (hsa : Nat.max a.scale b.scale - a.scale < 2147483648)
    (hsb : Nat.max a.scale b.scale + k - b.scale < 2147483648) :
    bdivmod_number k a b = some
      ({ number := (b.number * 10 ^ (Nat.max a.scale b.scale + k - b.scale)).tdiv
            (a.number * 10 ^ (Nat.max a.scale b.scale - a.scale)),
         scale := k },
       { number := (b.number * 10 ^ (Nat.max a.scale b.scale + k - b.scale)).tmod
            (a.number * 10 ^ (Nat.max a.scale b.scale - a.scale)),
         scale := max b.scale (uadd a.scale k) }) := by
  have hla : a.scale ≤ Nat.max a.scale b.scale := Nat.le_max_left _ _
  have hlb : b.scale ≤ Nat.max a.scale b.scale := Nat.le_max_right _ _
  unfold bdivmod_number
  simp only [max_eq a.scale b.scale]
  rw [if_neg ha, uadd_of_lt _ _ hS, normalize_up a _ hla (by omega) hsa,
    normalize_up b _ (by omega) hS hsb]
  have hne : a.number * 10 ^ (Nat.max a.scale b.scale - a.scale) ≠ 0 :=
    mul_ne_zero ha (by positivity)
  simp only [Option.some_bind, hne, if_false]

/-- The identity behind `bdivmod`, with the remainder read at the scale `S + k`
at which it is computed. -/
theorem scaled_division_identity (an bn : Int) (as bs S k : Nat)
    (ha : as ≤ S) (hb : bs ≤ S + k) :
    ((bn : ℚ) / 10 ^ bs)
      = ((((bn * 10 ^ (S + k - bs)).tdiv (an * 10 ^ (S - as)) : Int) : ℚ) / 10 ^ k)
          * ((an : ℚ) / 10 ^ as)
        + ((((bn * 10 ^ (S + k - bs)).tmod (an * 10 ^ (S - as)) : Int) : ℚ) / 10 ^ (S + k)) := by
  have h := Int.tdiv_add_tmod (bn * 10 ^ (S + k - bs)) (an * 10 ^ (S - as))
  generalize (bn * 10 ^ (S + k - bs)).tdiv (an * 10 ^ (S - as)) = q at h
  generalize (bn * 10 ^ (S + k - bs)).tmod (an * 10 ^ (S - as)) = r at h
  have hq : ((an : ℚ) * 10 ^ (S - as)) * (q : ℚ) + (r : ℚ)
      = (bn : ℚ) * 10 ^ (S + k - bs) := by
    exact_mod_cast h
  rw [cast_pow_sub _ _ ha, cast_pow_sub _ _ hb] at hq
  have h1 : ((10 : ℚ) ^ bs) ≠ 0 := by positivity
  have h2 : ((10 : ℚ) ^ as) ≠ 0 := by positivity
  have h3 : ((10 : ℚ) ^ S) ≠ 0 := by positivity
  have h4 : ((10 : ℚ) ^ k) ≠ 0 := by positivity
  rw [pow_add] at hq ⊢
  field_simp at hq ⊢
  linear_combination (-(10 : ℚ) ^ k) * hq

theorem val_small_product (K : Nat) :
    val { number := 1, scale := 0 }
      ≠ val { number := 1, scale := K } * val { number := 1, scale := 1 }
        + val { number := 0, scale := 0 } := by
  rw [val_zero_number, val_one_scale_zero]
  unfold val
  simp only [Int.cast_one, pow_one, add_zero]
  have h1 : (1 : ℚ) ≤ 10 ^ K := one_le_pow₀ (by norm_num)
  have h2 : (1 : ℚ) / 10 ^ K ≤ 1 := by
    rw [div_le_one (by positivity)]
    exact h1
  have h3 : (0 : ℚ) ≤ 1 / 10 ^ K := by positivity
  intro h
  nlinarith

/-- C26, as stated, fails: the sum `a.scale + k` is computed in `u_int`. At the
machine scale `UINT_MAX`, for `b = 1` and `a = 0.1`, the dividend is not scaled
(`1 + UINT_MAX` wraps to `0`), `bdivmod` pushes the quotient `1` at scale
`UINT_MAX` and the remainder `0`, and `value(q) * value(a) + value(r)` is far
below `value(b) = 1`. -/
theorem bdivmod_identity_scale_wrap :
    bdivmod (machine [value.BCODE_NUMBER { number := 1, scale := 1 },
                      value.BCODE_NUMBER { number := 1, scale := 0 }] 4294967295)
      = some (machine [value.BCODE_NUMBER { number := 0, scale := 0 },
                       value.BCODE_NUMBER { number := 1, scale := 4294967295 }] 4294967295)
    ∧ val { number := 1, scale := 0 }
      ≠ val { number := 1, scale := 4294967295 } * val { number := 1, scale := 1 }
        + val { number := 0, scale := 0 } :=
  ⟨by decide, val_small_product 4294967295⟩

/-- The remainder of `bdivmod` is computed at the scale `S + k`,
`S = max(a.scale, b.scale)`, and pushed with the scale
`max(b.scale, a.scale + k)`, which is smaller when `b.scale > a.scale` and
`k > 0`: for `b = 1.555` and `a = 1` at machine scale `2` the quotient is `1.55`
and the remainder pushed is `0.500`, not `0.005`. -/
theorem bdivmod_remainder_scale_slip :
    bdivmod (machine [value.BCODE_NUMBER { number := 1, scale := 0 },
                      value.BCODE_NUMBER { number := 1555, scale := 3 }] 2)
      = some (machine [value.BCODE_NUMBER { number := 500, scale := 3 },
                       value.BCODE_NUMBER { number := 155, scale := 2 }] 2)
    ∧ val { number := 1555, scale := 3 }
      ≠ val { number := 155, scale := 2 } * val { number := 1, scale := 0 }
        + val { number := 500, scale := 3 } := by
  refine ⟨by decide, ?_⟩
  unfold val
  norm_num

/-- C26, amended: for a machine scale `k`, a dividend `b` and a divisor `a` (on
top) with `a.n ≠ 0`, whose scales fit the C types (`S + k < 2^32`,
`S - a.scale < 2^31`, `S + k - b.scale < 2^31`, `S = max(a.scale, b.scale)`), and
with `b.scale ≤ a.scale` or `k = 0`: `bdivmod` pushes a quotient `q` and, on top
of it, a remainder `r` with `value(b) = value(q) * value(a) + value(r)`. -/
theorem bdivmod_identity (m : bmachine) (a b : number) (rest : List value)
    (hstack : m.stack = value.BCODE_NUMBER a :: value.BCODE_NUMBER b :: rest)
    (ha : a.number ≠ 0)
    (hS : Nat.max a.scale b.scale + m.scale < 4294967296)
    (hsa : Nat.max a.scale b.scale - a.scale < 2147483648)
    (hsb : Nat.max a.scale b.scale + m.scale - b.scale < 2147483648)
    (hcase : b.scale ≤ a.scale ∨ m.scale = 0) :
    ∃ q r : number,
      bdivmod m = some { m with
        stack := value.BCODE_NUMBER r :: value.BCODE_NUMBER q :: rest } ∧
      val b = val q * val a + val r := by
  have hla : a.scale ≤ Nat.max a.scale b.scale := Nat.le_max_left _ _
  have hlb : b.scale ≤ Nat.max a.scale b.scale := Nat.le_max_right _ _
  have hrs : max b.scale (uadd a.scale m.scale) = Nat.max a.scale b.scale + m.scale := by
    have hS2 := hS
    rw [uadd_of_lt _ _ (by omega), max_eq]
    simp only [Nat.max_def] at hS2 ⊢
    split_ifs at hS2 ⊢ <;> omega
  refine ⟨{ number := (b.number * 10 ^ (Nat.max a.scale b.scale + m.scale - b.scale)).tdiv
              (a.number * 10 ^ (Nat.max a.scale b.scale - a.scale)),
            scale := m.scale },
          { number := (b.number * 10 ^ (Nat.max a.scale b.scale + m.scale - b.scale)).tmod
              (a.number * 10 ^ (Nat.max a.scale b.scale - a.scale)),
            scale := Nat.max a.scale b.scale + m.scale }, ?_, ?_⟩
  · rw [bdivmod_on_two_numbers m a b rest hstack,
      bdivmod_number_fit m.scale a b ha hS hsa hsb, hrs]
    rfl
  · exact scaled_division_identity a.number b.number a.scale b.scale
      (Nat.max a.scale b.scale) m.scale hla (by omega)

/-- C26, an instance of `bdivmod_identity`: `b = 7.5` divided by `a = 0.20` at
machine scale `3`. -/
theorem bdivmod_identity_witness :
    ∃ q r : number,
      bdivmod (machine [value.BCODE_NUMBER { number := 20, scale := 2 },
                        value.BCODE_NUMBER { number := 75, scale := 1 }] 3)
        = some { (machine [value.BCODE_NUMBER { number := 20, scale := 2 },
                           value.BCODE_NUMBER { number := 75, scale := 1 }] 3) with
            stack := value.BCODE_NUMBER r :: value.BCODE_NUMBER q :: [] } ∧
      val { number := 75, scale := 1 } = val q * val { number := 20, scale := 2 } + val r :=
  bdivmod_identity (machine [value.BCODE_NUMBER { number := 20, scale := 2 },
                             value.BCODE_NUMBER { number := 75, scale := 1 }] 3)
    { number := 20, scale := 2 } { number := 75, scale := 1 } [] rfl
    (by decide) (by decide) (by decide) (by decide) (Or.inl (by decide))

/-! ## C27: the loop of `bsqrt`

The divisions of the loop are defined and the stopping test is reached, once
`t` holds a value; as the source has it, with `t` never initialised, the first
round already has no result. -/

/-- The loop of `bsqrt` from a state in which `t` holds a value, in terms of
`bsqrt_step`: a round that does not stop goes on from the next iterate. -/
theorem bsqrt_loop_step (fuel : Nat) (N x t0 : Int) (oc : Nat) (hx : x ≠ 0) :
    bsqrt_loop (fuel + 1) N x (some t0) oc =
      if bsqrt_step N x - x ≠ 0 then
        if uadd oc (if bsqrt_step N x - x = 1 then 1 else 0) < 2 then
          bsqrt_loop fuel N (bsqrt_step N x) (some (bsqrt_step N x - x))
            (uadd oc (if bsqrt_step N x - x = 1 then 1 else 0))
        else some (bsqrt_step N x, bsqrt_step N x - x)
      else some (bsqrt_step N x, bsqrt_step N x - x) :=
  bsqrt_loop_succ fuel N x t0 oc hx

/-- The loop of `bsqrt`, entered with `onecount < 2` and `t` initialised, stops
on a delta of `0` or on a delta of `1`. -/
theorem bsqrt_loop_delta : ∀ (fuel : Nat) (N x t0 : Int) (oc : Nat) (y d : Int),
    oc < 2 → bsqrt_loop fuel N x (some t0) oc = some (y, d) → d = 0 ∨ d = 1 := by
  intro fuel
  induction fuel with
  | zero =>
    intro N x t0 oc y d _ h
    simp [bsqrt_loop] at h
  | succ f ih =>
    intro N x t0 oc y d hoc h
    by_cases hx : x = 0
    · rw [bsqrt_loop] at h
      simp [hx, mpz_tdiv_q] at h
    · rw [bsqrt_loop_succ f N x t0 oc hx] at h
      by_cases hd : (x + N.tdiv x).tdiv 2 - x ≠ 0
      · rw [if_pos hd] at h
        by_cases h1 : (x + N.tdiv x).tdiv 2 - x = 1
        · simp only [h1, if_true] at h
          by_cases h2 : uadd oc 1 < 2
          · rw [if_pos h2] at h
            exact ih _ _ _ _ _ _ h2 h
          · rw [if_neg h2] at h
            simp only [Option.some.injEq, Prod.mk.injEq] at h
            right
            exact h.2.symm
        · simp only [h1, if_false] at h
          have h2 : uadd oc 0 < 2 := by unfold uadd; omega
          rw [if_pos h2] at h
          exact ih _ _ _ _ _ _ h2 h
      · rw [if_neg hd] at h
        simp only [Option.some.injEq, Prod.mk.injEq] at h
        left
        have : (x + N.tdiv x).tdiv 2 - x = 0 := by
          by_contra hne
          exact hd hne
        rw [← h.2]
        exact this

theorem bsqrt_step_pos (N s x : Int) (hs0 : 0 < s) (hs1 : s * s ≤ N)
    (hs2 : N < (s + 1) * (s + 1)) (hx : 0 < x) : s ≤ bsqrt_step N x :=
  (newton_step N x s hs0 hs1 hs2 hx).1

/-- Every iterate after the seed is at least the integer square root `s`. -/
theorem bsqrt_iterates (N s x : Int) (hs0 : 0 < s) (hs1 : s * s ≤ N)
    (hs2 : N < (s + 1) * (s + 1)) (hx : 0 < x) :
    ∀ j : Nat, 1 ≤ j → s ≤ (bsqrt_step N)^[j] x := by
  intro j
  induction j with
  | zero => intro h; omega
  | succ j ih =>
    intro _
    rw [Function.iterate_succ_apply']
    by_cases hj : j = 0
    · subst hj
      exact bsqrt_step_pos N s x hs0 hs1 hs2 hx
    · have := ih (by omega)
      exact bsqrt_step_pos N s _ hs0 hs1 hs2 (by omega)

/-- The loop of `bsqrt` once `t` holds a value, for every positive integer `N`
with integer square root `s`: `s ≥ 1`; the seed `N >> (bits(N) / 2)` is at least
`1`; every later iterate is at least `s`, so no iterate is `0` and `N / x` never
divides by zero; and the loop ends: with fuel for `N + 4` rounds or more it
returns a result, reached on a delta of `0` or of `1`, and `x - y` at that point
is `s`. -/
theorem bsqrt_loop_initialised (N : Int) (hN : 0 < N) :
    1 ≤ (Nat.sqrt N.toNat : Int) ∧
    1 ≤ N.tdiv (2 ^ (sizeinbase2 N / 2)) ∧
    (∀ j : Nat, 1 ≤ j →
      (Nat.sqrt N.toNat : Int) ≤ (bsqrt_step N)^[j] (N.tdiv (2 ^ (sizeinbase2 N / 2)))) ∧
    (∀ j : Nat, (bsqrt_step N)^[j] (N.tdiv (2 ^ (sizeinbase2 N / 2))) ≠ 0) ∧
    (∀ (t0 : Int) (fuel : Nat), N.toNat + 4 ≤ fuel →
      ∃ y d, bsqrt_loop fuel N (N.tdiv (2 ^ (sizeinbase2 N / 2))) (some t0) 0 = some (y, d) ∧
        (d = 0 ∨ d = 1) ∧ y - d = (Nat.sqrt N.toNat : Int)) := by
  have hs0 : 0 < (Nat.sqrt N.toNat : Int) := by
    have : 0 < Nat.sqrt N.toNat := Nat.sqrt_pos.mpr (by omega)
    exact_mod_cast this
  have hs1 : (Nat.sqrt N.toNat : Int) * (Nat.sqrt N.toNat : Int) ≤ N := by
    have h := Nat.sqrt_le N.toNat
    have : ((Nat.sqrt N.toNat * Nat.sqrt N.toNat : Nat) : Int) ≤ (N.toNat : Int) := by
      exact_mod_cast h
    rw [Int.toNat_of_nonneg (le_of_lt hN)] at this
    simpa using this
  have hs2 : N < ((Nat.sqrt N.toNat : Int) + 1) * ((Nat.sqrt N.toNat : Int) + 1) := by
    have h := Nat.lt_succ_sqrt N.toNat
    have : ((N.toNat : Nat) : Int)
        < (((Nat.sqrt N.toNat).succ * (Nat.sqrt N.toNat).succ : Nat) : Int) := by
      exact_mod_cast h
    rw [Int.toNat_of_nonneg (le_of_lt hN)] at this
    simpa using this
  obtain ⟨hx1, hx2⟩ := bsqrt_seed N hN
  have hit := bsqrt_iterates N _ _ hs0 hs1 hs2 hx1
  refine ⟨by omega, by omega, hit, ?_, ?_⟩
  · intro j
    by_cases hj : j = 0
    · subst hj
      simp only [Function.iterate_zero, id_eq]
      omega
    · have := hit j (by omega)
      omega
  · intro t0 fuel hfuel
    obtain ⟨y, d, hloop, hyd⟩ := bsqrt_loop_result N _ _ t0 hs0 hs1 hs2 hx1 hx2 fuel hfuel
    exact ⟨y, d, hloop, bsqrt_loop_delta fuel N _ t0 0 y d (by norm_num) hloop, hyd⟩

/-- The loop with `t` initialised on `N = 200`: from the seed `12` it ends in the
second round on the delta `0`, with `x = 14`. On `N = 3`, from the seed `1`, it
ends in the third round on the second delta `1`, with `x = 2` and `x - y = 1`. -/
theorem bsqrt_loop_scenario :
    (200 : Int).tdiv (2 ^ (sizeinbase2 200 / 2)) = 12 ∧
    bsqrt_loop 2 200 12 (some 0) 0 = some (14, 0) ∧
    bsqrt_loop 1 200 12 (some 0) 0 = none ∧
    (3 : Int).tdiv (2 ^ (sizeinbase2 3 / 2)) = 1 ∧
    bsqrt_loop 3 3 1 (some 0) 0 = some (2, 1) := by
  decide

/-- C27 fails on the code. For `N = 200` the seed is `12` and the division
`N / x` of the first round is defined (`200 / 12 = 16`), but the round then
calls `mpz_set(t, x)` on the local `t`, which the source declares and never
initialises: the call has no defined result, and so the loop of `bsqrt` has no
result for any amount of fuel. The claim describes the loop as it runs once `t`
holds a value: from the same seed it ends in the second round, on the delta `0`,
with `x - y = 14`, the integer square root of `200`. -/
theorem bsqrt_loop_first_round :
    (200 : Int).tdiv (2 ^ (sizeinbase2 200 / 2)) = 12 ∧
    mpz_tdiv_q 200 12 = some 16 ∧
    mpz_set none ((12 + 16 : Int).tdiv 2 - 12) = none ∧
    (∀ fuel : Nat, bsqrt_loop fuel 200 12 none 0 = none) ∧
    bsqrt_loop 2 200 12 (some 0) 0 = some (14, 0) :=
  ⟨by decide, by decide, rfl, fun fuel => bsqrt_loop_uninitialised fuel 200 12 0, by decide⟩

end Bcode
